import Mathlib

/-!
# Workflow metadata, dynamic forms and workflow utilities

A shallow embedding of `src/utils/metadataExtractor.js`, of the validation,
grouping and submit code of `src/components/forms/DynamicForm.jsx` and
`DynamicFormField.jsx`, of `src/utils/workflowUtils.js`, of
`_formatWorkflowInputData` (`src/hooks/useWorkflows.js` and the two n8n
services) and of `src/hooks/useFormValidation.js`.

JavaScript values are modelled by `JS.Val`: the JSON trees that reach the code,
plus `undefined`.  Numbers are the integers (the exactly representable
integers of a JSON document); strings are Lean strings.  Objects are property
lists in creation order.  The position that integer-like keys take when an
object is enumerated is not modelled; no theorem below depends on it.

Exceptions are explicit: a function that can throw returns `Except String`,
the string being the message of the thrown error (V8 wording; the text is
engine-defined and no theorem depends on it).

Builtins of the host that are not part of the repository (`JSON.parse`,
`String.prototype.localeCompare`, the string-to-number conversion, the
`NODE_ENV` switch, `RegExp`, `URL`, `parseFloat` and `toLowerCase`) are the
fields of `JS.Host`; every general theorem holds for every host.
-/

namespace JS

/-- A JavaScript value: a JSON tree or `undefined`. -/
inductive Val where
  | undefined
  | null
  | bool (b : Bool)
  | num (n : Int)
  | str (s : String)
  | arr (items : List Val)
  | obj (props : List (String × Val))

instance : Inhabited Val := ⟨Val.undefined⟩

/-- A JavaScript number as `parseFloat` returns it: `NaN`, an infinity, or a
finite double, given by its exact value. -/
inductive Num where
  | nan
  | negInf
  | finite (q : ℚ)
  | posInf

/-- The host functions the code calls. `jsonParse` returns `none` where
`JSON.parse` throws a `SyntaxError`; `stringToNumber` returns `none` for `NaN`
(numbers being integers, a string that spells a fraction is outside the
model); `development` is `process.env.NODE_ENV === 'development'`;
`regExp p` is `new RegExp(p)`, `none` where the constructor throws a
`SyntaxError`, and otherwise the function `test` of the expression;
`isValidUrl s` tells whether `new URL(s)` returns; `parseFloat` is the global
function on strings; `toLowerCase` is `String.prototype.toLowerCase`. -/
structure Host where
  jsonParse : String → Option Val
  localeCompare : String → String → Int
  stringToNumber : String → Option Int
  development : Bool
  regExp : String → Option (String → Bool)
  isValidUrl : String → Bool
  parseFloat : String → Num
  toLowerCase : String → String

/-- ToBoolean. -/
def truthy : Val → Bool
  | .undefined => false
  | .null => false
  | .bool b => b
  | .num n => decide (n ≠ 0)
  | .str s => decide (s ≠ "")
  | .arr _ => true
  | .obj _ => true

/-- The value of `a || b`. -/
def or (a b : Val) : Val := if truthy a then a else b

/-- Whether the value is `null` or `undefined`. -/
def nullish : Val → Bool
  | .undefined => true
  | .null => true
  | _ => false

/-- `Array.isArray`. -/
def isArray : Val → Bool
  | .arr _ => true
  | _ => false

/-- `typeof v === 'string'`. -/
def isString : Val → Bool
  | .str _ => true
  | _ => false

/-- `typeof v === 'object'` (true of `null`, of arrays and of objects). -/
def typeofObject : Val → Bool
  | .null => true
  | .arr _ => true
  | .obj _ => true
  | _ => false

/-- Own property lookup in a property list. -/
def lookup (k : String) : List (String × Val) → Option Val
  | [] => none
  | (k', v) :: rest => if k' = k then some v else lookup k rest

/-- The value of `v.k` or `v?.k` for a key that no prototype defines: the own
property of an object, `undefined` otherwise. On `null` and `undefined` this
is the value of `v?.k`; the plain access `v.k` throws there, see `getProp`. -/
def prop (v : Val) (k : String) : Val :=
  match v with
  | .obj ps => (lookup k ps).getD .undefined
  | _ => .undefined

/-- The plain access `v.k`, which throws a `TypeError` on `null` and `undefined`. -/
def getProp (v : Val) (k : String) : Except String Val :=
  if nullish v then .error ("Cannot read properties of " ++
    (match v with | .null => "null" | _ => "undefined") ++ " (reading " ++ k ++ ")")
  else .ok (prop v k)

/-- Define or overwrite an own property; an existing key keeps its place. -/
def setKey (k : String) (v : Val) : List (String × Val) → List (String × Val)
  | [] => [(k, v)]
  | (k', v') :: rest => if k' = k then (k, v) :: rest else (k', v') :: setKey k v rest

/-- The assignment `o.k = v` on an object. -/
def setProp (o : Val) (k : String) (v : Val) : Val :=
  match o with
  | .obj ps => .obj (setKey k v ps)
  | other => other

/-- Index the elements of a list by the decimal strings "0", "1", ... -/
def indexed (start : Nat) : List Val → List (String × Val)
  | [] => []
  | v :: rest => (toString start, v) :: indexed (start + 1) rest

/-- The own enumerable properties that a spread `...v` copies: the properties
of an object, the indexed elements of an array, the indexed characters of a
string (code points here, UTF-16 code units in JavaScript), nothing for any
other value. -/
def ownProps : Val → List (String × Val)
  | .obj ps => ps
  | .arr items => indexed 0 items
  | .str s => indexed 0 (s.data.map (fun c => Val.str (String.mk [c])))
  | _ => []

/-- The object literal `{ ...target, ...source }`, target being the properties
written before the spread. -/
def spread (target : List (String × Val)) (source : Val) : List (String × Val) :=
  (ownProps source).foldl (fun acc kv => setKey kv.1 kv.2 acc) target

/-- Strict equality `a === b` on values obtained from `JSON.parse`: primitives
compare by value; two objects or arrays reached through different paths of a
parsed tree are different references, hence never equal. -/
def strictEq : Val → Val → Bool
  | .undefined, .undefined => true
  | .null, .null => true
  | .bool a, .bool b => decide (a = b)
  | .num a, .num b => decide (a = b)
  | .str a, .str b => decide (a = b)
  | _, _ => false

/-- Whether the value is compared by reference: an object or an array. -/
def isReference : Val → Bool
  | .arr _ => true
  | .obj _ => true
  | _ => false

/-- `Array.prototype.includes` on an array of string literals. -/
def includes (xs : List String) (v : Val) : Bool :=
  xs.any (fun x => strictEq (.str x) v)

mutual
/-- ToString, as applied by a template literal or a property key. An object
converts to "[object Object]" through the inherited `toString`; an own
`toString` property of a parsed object is not callable and makes the
conversion throw. An array converts through `join`. A number prints in
decimal, which is what JavaScript prints for integers below 10^21 in absolute
value. -/
def toStr : Val → Except String String
  | .undefined => .ok "undefined"
  | .null => .ok "null"
  | .bool b => .ok (if b then "true" else "false")
  | .num n => .ok (toString n)
  | .str s => .ok s
  | .arr items => joinStr items
  | .obj ps =>
    match lookup "toString" ps with
    | some _ => .error "Cannot convert object to primitive value"
    | none => .ok "[object Object]"
/-- `Array.prototype.join` with the default separator: `null` and `undefined`
elements print as the empty string. -/
def joinStr : List Val → Except String String
  | [] => .ok ""
  | [v] => if nullish v then .ok "" else toStr v
  | v :: w :: rest =>
    match (if nullish v then .ok "" else toStr v) with
    | .error e => .error e
    | .ok s =>
      match joinStr (w :: rest) with
      | .error e => .error e
      | .ok t => .ok (s ++ "," ++ t)
end

/-- ToNumber: `none` is `NaN`. Objects and arrays convert through their string
form. -/
def toNumber (h : Host) : Val → Except String (Option Int)
  | .undefined => .ok none
  | .null => .ok (some 0)
  | .bool b => .ok (some (if b then 1 else 0))
  | .num n => .ok (some n)
  | .str s => .ok (h.stringToNumber s)
  | v =>
    match toStr v with
    | .error e => .error e
    | .ok s => .ok (h.stringToNumber s)

/-- The subtraction `a - b`: `none` is `NaN`. -/
def sub (h : Host) (a b : Val) : Except String (Option Int) :=
  match toNumber h a with
  | .error e => .error e
  | .ok x =>
    match toNumber h b with
    | .error e => .error e
    | .ok y =>
      match x, y with
      | some m, some n => .ok (some (m - n))
      | _, _ => .ok none

/-- Insert `a` into a list, before the first element that `a` does not sort
after; the comparator may throw. -/
def orderedInsertM (cmp : Val → Val → Except String Int) (a : Val) :
    List Val → Except String (List Val)
  | [] => .ok [a]
  | b :: rest =>
    match cmp a b with
    | .error e => .error e
    | .ok c =>
      if c ≤ 0 then .ok (a :: b :: rest)
      else
        match orderedInsertM cmp a rest with
        | .error e => .error e
        | .ok r => .ok (b :: r)

/-- `Array.prototype.sort(cmp)`: a stable sort (ECMAScript 2019); here the
stable insertion sort. For a consistent comparator that does not throw the
result of a stable sort is unique, so the choice of algorithm does not show.
Which pairs an engine compares, and in which argument order, is its own
choice: the theorems below use the sort either where no comparison throws or
on two elements whose comparison throws in both argument orders. A comparator
result of `NaN` counts as 0 and is passed as 0. -/
def sortM (cmp : Val → Val → Except String Int) : List Val → Except String (List Val)
  | [] => .ok []
  | a :: rest =>
    match sortM cmp rest with
    | .error e => .error e
    | .ok s => orderedInsertM cmp a s

/-- The characters `\s` matches and `trim` removes: WhiteSpace and
LineTerminator of ECMAScript. -/
def isSpace (c : Char) : Bool :=
  let n := c.toNat
  n = 9 || n = 10 || n = 11 || n = 12 || n = 13 || n = 32 || n = 160 || n = 5760 ||
  (8192 ≤ n && n ≤ 8202) || n = 8232 || n = 8233 || n = 8239 || n = 8287 ||
  n = 12288 || n = 65279

/-- `String.prototype.trim` on a character list. -/
def trimChars (cs : List Char) : List Char :=
  ((cs.dropWhile isSpace).reverse.dropWhile isSpace).reverse

/-- Whether `p` is an initial segment of `cs`. -/
def startsWith (p : List Char) : List Char → Bool :=
  fun cs => match p, cs with
  | [], _ => true
  | _ :: _, [] => false
  | a :: p', c :: cs' => a = c && startsWith p' cs'

/-- `isNaN(x)` for a number. -/
def Num.isNaN : Num → Bool
  | .nan => true
  | _ => false

/-- The comparison `x < n` of a number with an integer. -/
def Num.ltInt : Num → Int → Bool
  | .nan, _ => false
  | .negInf, _ => true
  | .finite q, n => decide (q < (n : ℚ))
  | .posInf, _ => false

/-- The comparison `x > n` of a number with an integer. -/
def Num.gtInt : Num → Int → Bool
  | .nan, _ => false
  | .negInf, _ => false
  | .finite q, n => decide ((n : ℚ) < q)
  | .posInf, _ => true

/-- `x < b` for a number `x` and a value `b`: `b` is converted to a number, and
a comparison with `NaN` is false. -/
def numLess (h : Host) (x : Num) (b : Val) : Except String Bool :=
  match toNumber h b with
  | .error e => .error e
  | .ok none => .ok false
  | .ok (some n) => .ok (x.ltInt n)

/-- `x > b` for a number `x` and a value `b`. -/
def numGreater (h : Host) (x : Num) (b : Val) : Except String Bool :=
  match toNumber h b with
  | .error e => .error e
  | .ok none => .ok false
  | .ok (some n) => .ok (x.gtInt n)

/-- ToPrimitive with hint number on a parsed value: an object or an array
becomes its string form. -/
def toPrimitive (v : Val) : Except String Val :=
  if isReference v then
    match toStr v with
    | .error e => .error e
    | .ok s => .ok (.str s)
  else .ok v

/-- The comparison `a < b` of two values: two strings compare as strings (by
code points here, by UTF-16 code units in JavaScript), anything else as
numbers, and a comparison with `NaN` is false. -/
def lessThan (h : Host) (a b : Val) : Except String Bool :=
  match toPrimitive a with
  | .error e => .error e
  | .ok pa =>
    match toPrimitive b with
    | .error e => .error e
    | .ok pb =>
      match pa, pb with
      | .str x, .str y => .ok (decide (x.data < y.data))
      | _, _ =>
        match toNumber h pa with
        | .error e => .error e
        | .ok x =>
          match toNumber h pb with
          | .error e => .error e
          | .ok y =>
            match x, y with
            | some m, some n => .ok (decide (m < n))
            | _, _ => .ok false

/-- The property `length` of a value that is not `null` or `undefined`: the
length of a string (in code points here, in UTF-16 code units in JavaScript)
or of an array, the own property of an object, `undefined` otherwise. -/
def lengthOf : Val → Val
  | .str s => .num s.length
  | .arr items => .num items.length
  | .obj ps => (lookup "length" ps).getD .undefined
  | _ => .undefined

/-- The test of `/^[^\s@]+@[^\s@]+\.[^\s@]+$/`: a non-empty run without
white space and `@`, an `@`, and a run without white space and `@` that has a
dot which is neither its first nor its last character. -/
def emailRegexTest (s : String) : Bool :=
  let plain := fun c : Char => !isSpace c && c != '@'
  match s.data.dropWhile plain with
  | '@' :: domain =>
    !(s.data.takeWhile plain).isEmpty && domain.all plain &&
      ((domain.drop 1).dropLast).contains '.'
  | _ => false

/-- The test of `/^[\+]?[0-9\s\-\(\)]+$/`: an optional plus sign and a
non-empty run of digits, white space, hyphens and parentheses. -/
def phoneRegexTest (s : String) : Bool :=
  let allowed := fun c : Char => c.isDigit || isSpace c || c = '-' || c = '(' || c = ')'
  let rest := match s.data with
    | '+' :: cs => cs
    | cs => cs
  !rest.isEmpty && rest.all allowed

end JS

namespace MetadataExtractor

open JS

/-- The memoization cache `metadataCache`: keys with their stored results,
oldest first. -/
abbrev Cache := List (String × Val)

/-- `metadataCache.get(key)`, `none` when `metadataCache.has(key)` is false. -/
def cacheGet (key : String) (cache : Cache) : Option Val := lookup key cache

/-- `metadataCache.set(key, result)`. -/
def cacheSet (key : String) (result : Val) (cache : Cache) : Cache := setKey key result cache

/-- The literal 'n8n-nodes-base.stickyNote'. -/
def stickyNoteType : String := "n8n-nodes-base.stickyNote"

/-- The marker of the regular expression of line 98. -/
def marker : List Char := "UI_METADATA".data

/-- The text from the start of `cs` to its last closing brace, the brace
included; empty when there is none. -/
def upToLastBrace (cs : List Char) : List Char :=
  (cs.reverse.dropWhile (fun c => c != '}')).reverse

/-- The capture group of `content.match(/UI_METADATA\s*({[\s\S]*})/)`: at the
leftmost occurrence of the marker that is followed by optional white space, an
opening brace and, later, a closing brace, the text from that opening brace to
the last closing brace of the content. -/
def markerMatch : List Char → Option (List Char)
  | [] => none
  | c :: cs =>
    if startsWith marker (c :: cs) then
      match ((c :: cs).drop marker.length).dropWhile isSpace with
      | '{' :: tail =>
        if tail.contains '}' then some ('{' :: upToLastBrace tail) else markerMatch cs
      | _ => markerMatch cs
    else markerMatch cs

/-- Lines 98-112: `metadataMatch[1]` when `metadataMatch` is set. Without a
marker match the whole trimmed content is the candidate when it starts with an
opening brace and ends with a closing one. -/
def metadataCandidate (content : String) : Option String :=
  match markerMatch content.data with
  | some g => some (String.mk g)
  | none =>
    let trimmed := trimChars content.data
    if startsWith ['{'] trimmed && startsWith ['}'] trimmed.reverse then
      some (String.mk trimmed)
    else none

/-- The result object of lines 38-42. -/
def invalidWorkflowResult : Val :=
  .obj [("success", .bool false), ("parameters", .arr []),
        ("message", .str "Workflow JSON inválido o sin nodos")]

/-- The result object of lines 73-77. -/
def noStickyNotesResult : Val :=
  .obj [("success", .bool false), ("parameters", .arr []),
        ("message", .str "No se encontraron sticky notes")]

/-- The result object of lines 166-170. -/
def noMetadataResult : Val :=
  .obj [("success", .bool false), ("parameters", .arr []),
        ("message", .str "No se encontraron metadatos UI_METADATA válidos")]

/-- The result object of lines 175-180, built in the outer `catch`. -/
def errorResult (message : String) : Val :=
  .obj [("success", .bool false), ("parameters", .arr []),
        ("message", .str "Error extrayendo metadatos"), ("error", .str message)]

/-- The cache key of line 17. -/
def cacheKey (workflowJson : Val) : Except String String :=
  match toStr (JS.or (prop workflowJson "id") (.str "no-id")) with
  | .error e => .error e
  | .ok idPart =>
    match toStr (JS.or (JS.or (prop workflowJson "versionId") (prop workflowJson "updatedAt"))
        (.str "no-version")) with
    | .error e => .error e
    | .ok versionPart => .ok (idPart ++ "-" ++ versionPart)

/-- The filter callback of lines 56-60; `node.type` throws on a `null` or
`undefined` node. -/
def isStickyNote (node : Val) : Except String Bool :=
  match getProp node "type" with
  | .error e => .error e
  | .ok t =>
    if strictEq t (.str stickyNoteType) then
      .ok (truthy (prop node "parameters") && truthy (prop (prop node "parameters") "content"))
    else .ok false

/-- `Array.prototype.filter` with a callback that may throw. -/
def arrayFilter (f : Val → Except String Bool) : List Val → Except String (List Val)
  | [] => .ok []
  | v :: rest =>
    match f v with
    | .error e => .error e
    | .ok keep =>
      match arrayFilter f rest with
      | .error e => .error e
      | .ok kept => .ok (if keep then v :: kept else kept)

/-- `parsedMetadata.parameters && Array.isArray(parsedMetadata.parameters)`, as a
condition. -/
def hasArray (parsed : Val) (key : String) : Bool :=
  truthy (prop parsed key) && isArray (prop parsed key)

/-- The object literal of lines 138-146. -/
def successResult (parsed stickyNote content : Val) : Val :=
  .obj (setKey "_source"
    (.obj [("nodeId", prop stickyNote "id"),
           ("nodeName", JS.or (prop stickyNote "name") (.str "Sticky Note")),
           ("rawContent", content)])
    (spread [("success", .bool true)] parsed))

/-- The inner `try` block of lines 115-157 for one sticky note and its
candidate text: the result to return, or `none` when the scan goes on (the
text does not parse, reading a property of the parsed value throws, or the
parsed value has neither array). -/
def tryCandidate (h : Host) (stickyNote content : Val) (candidate : String) : Option Val :=
  match h.jsonParse candidate with
  | none => none
  | some parsed =>
    if nullish parsed then none
    else
      let hasParameters := hasArray parsed "parameters"
      let hasFields := hasArray parsed "fields"
      if hasParameters || hasFields then
        let normalized :=
          if hasFields && !hasParameters then setProp parsed "parameters" (prop parsed "fields")
          else parsed
        some (successResult normalized stickyNote content)
      else none

/-- The loop of lines 83-159 followed by lines 161-172. Content that is not a
string has no `match` method (and no `substring` method, called first in
development mode). -/
def scanNotes (h : Host) (key : String) (cache : Cache) :
    List Val → Except String (Val × Cache)
  | [] => .ok (noMetadataResult, cacheSet key noMetadataResult cache)
  | stickyNote :: rest =>
    match prop (prop stickyNote "parameters") "content" with
    | .str content =>
      match metadataCandidate content with
      | none => scanNotes h key cache rest
      | some candidate =>
        match tryCandidate h stickyNote (.str content) candidate with
        | some result => .ok (result, cacheSet key result cache)
        | none => scanNotes h key cache rest
    | _ =>
      .error (if h.development then "content.substring is not a function"
              else "content.match is not a function")

/-- The body of the outer `try` of `extractMetadata`, lines 16-172: the value
returned and the cache after the call, or the error thrown. -/
def extractMetadataBody (h : Host) (cache : Cache) (workflowJson : Val) :
    Except String (Val × Cache) :=
  match cacheKey workflowJson with
  | .error e => .error e
  | .ok key =>
    match cacheGet key cache with
    | some cached => .ok (cached, cache)
    | none =>
      if !truthy workflowJson || !truthy (prop workflowJson "nodes")
          || !isArray (prop workflowJson "nodes") then
        .ok (invalidWorkflowResult, cacheSet key invalidWorkflowResult cache)
      else
        match prop workflowJson "nodes" with
        | .arr nodes =>
          match arrayFilter isStickyNote nodes with
          | .error e => .error e
          | .ok stickyNotes =>
            if stickyNotes.length = 0 then
              .ok (noStickyNotesResult, cacheSet key noStickyNotesResult cache)
            else scanNotes h key cache stickyNotes
        | _ => .ok (invalidWorkflowResult, cacheSet key invalidWorkflowResult cache)

/-- The function `extractMetadata`: the outer `catch` turns any error into a
result and leaves the cache as it was. -/
def extractMetadata (h : Host) (cache : Cache) (workflowJson : Val) : Val × Cache :=
  match extractMetadataBody h cache workflowJson with
  | .ok r => r
  | .error e => (errorResult e, cache)

/-- The array `requiredFields` of line 197. -/
def requiredFields : List String := ["name", "type", "label"]

/-- The array `supportedTypes` of lines 206-226. -/
def supportedTypes : List String :=
  ["text", "textarea", "email", "tel", "url", "password", "number", "range",
   "percentage", "date", "datetime-local", "time", "select", "radio", "checkbox",
   "checkboxGroup", "file", "color", "hidden"]

/-- The function `validateParameter`, lines 191-242. -/
def validateParameter (parameter : Val) : Bool :=
  if !truthy parameter || !typeofObject parameter then false
  else if requiredFields.any
      (fun field => !truthy (prop parameter field) || !isString (prop parameter field)) then false
  else if !includes supportedTypes (prop parameter "type") then false
  else if includes ["select", "radio", "checkboxGroup"] (prop parameter "type") then
    if !truthy (prop parameter "options") || !isArray (prop parameter "options") then false
    else true
  else true

/-- The callback of `.map` in `processParameters`, lines 257-301. -/
def normalizeParameter (param : Val) : Val :=
  .obj [
    ("name", prop param "name"),
    ("type", prop param "type"),
    ("label", prop param "label"),
    ("required", JS.or (prop param "required") (.bool false)),
    ("placeholder", JS.or (prop param "placeholder") (.str "")),
    ("defaultValue", JS.or (prop param "defaultValue") (.str "")),
    ("group", JS.or (prop param "group") (.str "default")),
    ("order", JS.or (prop param "order") (.num 0)),
    ("ui", .obj (spread [
      ("width", JS.or (prop (prop param "ui") "width") (.str "full")),
      ("icon", JS.or (prop (prop param "ui") "icon") .null),
      ("rows", JS.or (prop (prop param "ui") "rows") (.num 3)),
      ("helpText", JS.or (prop (prop param "ui") "helpText") (.str ""))]
      (prop param "ui"))),
    ("validation", .obj (spread [
      ("pattern", JS.or (prop (prop param "validation") "pattern") .null),
      ("message", JS.or (prop (prop param "validation") "message") (.str "")),
      ("min", JS.or (prop (prop param "validation") "min") .null),
      ("max", JS.or (prop (prop param "validation") "max") .null),
      ("minLength", JS.or (prop (prop param "validation") "minLength") .null),
      ("maxLength", JS.or (prop (prop param "validation") "maxLength") .null),
      ("minSelected", JS.or (prop (prop param "validation") "minSelected") .null),
      ("maxSelected", JS.or (prop (prop param "validation") "maxSelected") .null),
      ("maxFiles", JS.or (prop (prop param "validation") "maxFiles") .null),
      ("maxSize", JS.or (prop (prop param "validation") "maxSize") .null)]
      (prop param "validation"))),
    ("options", JS.or (prop param "options") (.arr [])),
    ("_original", param)]

/-- The comparator of `.sort` in `processParameters`, lines 302-308. A group
that is not a string has no `localeCompare` method; `localeCompare` converts
its argument to a string. A `NaN` difference is passed on as 0. -/
def compareParameters (h : Host) (a b : Val) : Except String Int :=
  if !strictEq (prop a "group") (prop b "group") then
    match prop a "group" with
    | .str ga =>
      match toStr (prop b "group") with
      | .error e => .error e
      | .ok gb => .ok (h.localeCompare ga gb)
    | _ => .error "a.group.localeCompare is not a function"
  else
    match sub h (prop a "order") (prop b "order") with
    | .error e => .error e
    | .ok d => .ok (d.getD 0)

/-- The function `processParameters`, lines 249-309: the elements of the
returned array, or the error thrown by the comparator. -/
def processParameters (h : Host) (parameters : Val) : Except String (List Val) :=
  match parameters with
  | .arr items => sortM (compareParameters h) ((items.filter validateParameter).map normalizeParameter)
  | _ => .ok []

/-- `x === y` for the `group` values of the processed entries at the positions
`x.1` and `y.1`: equal primitives, or the one object or array of one and the
same entry (the entries of a parsed array share no object). -/
def sameGroup (x y : Nat × Val) : Bool :=
  strictEq x.2 y.2 || (isReference x.2 && decide (x.1 = y.1))

/-- The elements of `[...new Set(xs)]`: first occurrences, in order. -/
def dedupGroups : List (Nat × Val) → List (Nat × Val)
  | [] => []
  | x :: rest => x :: (dedupGroups rest).filter (fun y => !sameGroup x y)

/-- The expression of lines 331-337: one group object per distinct `group`
value of the processed parameters. Each `group` value is taken with the
position of its entry, which tells one object from another. -/
def buildGroups (processedParameters : List Val) : List Val :=
  (dedupGroups (processedParameters.enum.map (fun ip => (ip.1, prop ip.2 "group")))).map
    (fun groupName =>
      Val.obj [
        ("name", groupName.2),
        ("label", if strictEq groupName.2 (.str "default") then .str "Parámetros"
                  else groupName.2),
        ("parameters", .arr ((processedParameters.enum.filter
          (fun ip => sameGroup (ip.1, prop ip.2 "group") groupName)).map Prod.snd))])

/-- The function `extractAndProcessMetadata`, lines 316-346: the value returned,
or the error thrown by `processParameters`, and the cache after the call. -/
def extractAndProcessMetadata (h : Host) (cache : Cache) (workflowJson : Val) :
    Except String Val × Cache :=
  let (rawMetadata, cache') := extractMetadata h cache workflowJson
  if !truthy rawMetadata then
    (.ok (.obj [("success", .bool false),
                ("error", .str "No se encontraron metadatos UI_METADATA en el workflow"),
                ("parameters", .arr []), ("groups", .arr [])]), cache')
  else
    match processParameters h (prop rawMetadata "parameters") with
    | .error e => (.error e, cache')
    | .ok processedParameters =>
      (.ok (.obj [("success", .bool true), ("metadata", rawMetadata),
                  ("parameters", .arr processedParameters),
                  ("groups", .arr (buildGroups processedParameters)),
                  ("_source", prop rawMetadata "_source")]), cache')

end MetadataExtractor

namespace DynamicForm

open JS

/-- The object `groups` of `groupedParameters`: group names with their
members, in the order the groups were created (JavaScript enumerates
integer-like names first; the order of the groups is not used below). -/
abbrev Groups := List (String × List Val)

/-- The property names every object inherits from `Object.prototype`: for
these `groups[groupName]` is truthy before any member was stored. -/
def objectPrototypeKeys : List String :=
  ["constructor", "__defineGetter__", "__defineSetter__", "hasOwnProperty",
   "__lookupGetter__", "__lookupSetter__", "isPrototypeOf", "propertyIsEnumerable",
   "toString", "valueOf", "__proto__", "toLocaleString"]

/-- Whether `groups` has the own key `groupName`. -/
def hasGroup (groupName : String) : Groups → Bool
  | [] => false
  | (k, _) :: rest => k = groupName || hasGroup groupName rest

/-- The call `groups[groupName].push(param)` on an own key. -/
def pushTo (groupName : String) (param : Val) : Groups → Groups
  | [] => []
  | (k, members) :: rest =>
    if k = groupName then (k, members ++ [param]) :: rest
    else (k, members) :: pushTo groupName param rest

/-- The callback of `parameters.forEach`, lines 239-245. The group value is
converted to a property key. A name inherited from `Object.prototype` is
truthy without being an array, so no array is created and `push` is missing. -/
def addToGroup (groups : Groups) (param : Val) : Except String Groups :=
  match getProp param "group" with
  | .error e => .error e
  | .ok group =>
    match toStr (JS.or group (.str "default")) with
    | .error e => .error e
    | .ok groupName =>
      if hasGroup groupName groups then .ok (pushTo groupName param groups)
      else if objectPrototypeKeys.contains groupName then
        .error "groups[groupName].push is not a function"
      else .ok (groups ++ [(groupName, [param])])

/-- The loop `parameters.forEach(...)` of lines 238-245. -/
def collectGroups (groups : Groups) : List Val → Except String Groups
  | [] => .ok groups
  | param :: rest =>
    match addToGroup groups param with
    | .error e => .error e
    | .ok groups' => collectGroups groups' rest

/-- The comparator of lines 248-252. A `NaN` difference is passed on as 0. -/
def compareOrder (h : Host) (a b : Val) : Except String Int :=
  match sub h (JS.or (prop a "order") (.num 999)) (JS.or (prop b "order") (.num 999)) with
  | .error e => .error e
  | .ok d => .ok (d.getD 0)

/-- The loop of lines 247-253: every group sorted in place. -/
def sortGroups (h : Host) : Groups → Except String Groups
  | [] => .ok []
  | (k, members) :: rest =>
    match sortM (compareOrder h) members with
    | .error e => .error e
    | .ok sorted =>
      match sortGroups h rest with
      | .error e => .error e
      | .ok rest' => .ok ((k, sorted) :: rest')

/-- The function `groupedParameters`, lines 235-256, of the component
`DynamicForm` rendered with the array `parameters`. -/
def groupedParameters (h : Host) (parameters : List Val) : Except String Groups :=
  match collectGroups [] parameters with
  | .error e => .error e
  | .ok groups => sortGroups h groups

end DynamicForm

namespace JS.Reference

open JS

/-- White space of the JSON grammar. -/
def isJsonSpace (c : Char) : Bool :=
  c = ' ' || c = Char.ofNat 9 || c = Char.ofNat 10 || c = Char.ofNat 13

/-- The value of a run of decimal digits. -/
def digitsValue (ds : List Char) : Nat :=
  ds.foldl (fun n c => 10 * n + (c.toNat - 48)) 0

/-- A JSON number of the integer fragment at the head of the text: no leading
zero, no fraction, no exponent. -/
def parseNat (cs : List Char) : Option (Nat × List Char) :=
  let ds := cs.takeWhile Char.isDigit
  let rest := cs.dropWhile Char.isDigit
  if ds = [] then none
  else if ds.length > 1 && startsWith ['0'] ds then none
  else if startsWith ['.'] rest || startsWith ['e'] rest || startsWith ['E'] rest then none
  else some (digitsValue ds, rest)

/-- The characters of a JSON string after its opening quote, with the
two-character escapes; a control character or a hexadecimal escape ends the
parse. -/
def parseString : List Char → Option (List Char × List Char)
  | [] => none
  | c :: rest =>
    if c = Char.ofNat 34 then some ([], rest)
    else if c = Char.ofNat 92 then
      match rest with
      | [] => none
      | e :: rest' =>
        let decoded : Option Char :=
          if e = Char.ofNat 34 then some (Char.ofNat 34)
          else if e = Char.ofNat 92 then some (Char.ofNat 92)
          else if e = '/' then some '/'
          else if e = 'n' then some (Char.ofNat 10)
          else if e = 't' then some (Char.ofNat 9)
          else if e = 'r' then some (Char.ofNat 13)
          else if e = 'b' then some (Char.ofNat 8)
          else if e = 'f' then some (Char.ofNat 12)
          else none
        match decoded with
        | none => none
        | some d =>
          match parseString rest' with
          | none => none
          | some (s, r) => some (d :: s, r)
    else if c.toNat < 32 then none
    else
      match parseString rest with
      | none => none
      | some (s, r) => some (c :: s, r)

mutual
/-- One JSON value at the head of the text, with the text left over. -/
def parseValue : Nat → List Char → Option (Val × List Char)
  | 0, _ => none
  | fuel + 1, cs =>
    match cs.dropWhile isJsonSpace with
    | 'n' :: 'u' :: 'l' :: 'l' :: rest => some (.null, rest)
    | 't' :: 'r' :: 'u' :: 'e' :: rest => some (.bool true, rest)
    | 'f' :: 'a' :: 'l' :: 's' :: 'e' :: rest => some (.bool false, rest)
    | '[' :: rest =>
      match rest.dropWhile isJsonSpace with
      | ']' :: rest' => some (.arr [], rest')
      | _ =>
        match parseElements fuel rest with
        | none => none
        | some (items, rest') => some (.arr items, rest')
    | '-' :: rest =>
      match parseNat rest with
      | none => none
      | some (n, rest') => some (.num (-(n : Int)), rest')
    | c :: rest =>
      if c = Char.ofNat 34 then
        match parseString rest with
        | none => none
        | some (s, rest') => some (.str (String.mk s), rest')
      else if c = Char.ofNat 123 then
        match rest.dropWhile isJsonSpace with
        | [] => none
        | d :: rest' =>
          if d = Char.ofNat 125 then some (.obj [], rest')
          else
            match parseMembers fuel rest with
            | none => none
            | some (props, rest'') => some (.obj props, rest'')
      else
        match parseNat (c :: rest) with
        | none => none
        | some (n, rest') => some (.num (n : Int), rest')
    | [] => none
/-- The elements of a non-empty JSON array, up to its closing bracket. -/
def parseElements : Nat → List Char → Option (List Val × List Char)
  | 0, _ => none
  | fuel + 1, cs =>
    match parseValue fuel cs with
    | none => none
    | some (v, rest) =>
      match rest.dropWhile isJsonSpace with
      | ',' :: rest' =>
        match parseElements fuel rest' with
        | none => none
        | some (vs, rest'') => some (v :: vs, rest'')
      | ']' :: rest' => some ([v], rest')
      | _ => none
/-- The members of a non-empty JSON object, up to its closing brace; a
repeated key keeps its first place and takes its last value. -/
def parseMembers : Nat → List Char → Option (List (String × Val) × List Char)
  | 0, _ => none
  | fuel + 1, cs =>
    match cs.dropWhile isJsonSpace with
    | [] => none
    | q :: afterQuote =>
      if q = Char.ofNat 34 then
        match parseString afterQuote with
        | none => none
        | some (k, rest) =>
          match rest.dropWhile isJsonSpace with
          | ':' :: rest' =>
            match parseValue fuel rest' with
            | none => none
            | some (v, rest'') =>
              match rest''.dropWhile isJsonSpace with
              | [] => none
              | d :: rest3 =>
                if d = ',' then
                  match parseMembers fuel rest3 with
                  | none => none
                  | some (ps, rest4) =>
                    some (if (lookup (String.mk k) ps).isSome then ps
                          else (String.mk k, v) :: ps, rest4)
                else if d = Char.ofNat 125 then some ([(String.mk k, v)], rest3)
                else none
          | _ => none
      else none
end

/-- `JSON.parse` on the fragment of JSON whose numbers are integers and whose
strings have no hexadecimal escape; `none` for any other text. -/
def jsonParse (text : String) : Option Val :=
  match parseValue (text.length + 1) text.data with
  | none => none
  | some (v, rest) => if (rest.dropWhile isJsonSpace).isEmpty then some v else none

/-- Comparison of strings by code points. -/
def codePointCompare (a b : String) : Int :=
  if a.data < b.data then -1 else if a = b then 0 else 1

/-- The number spelled by a trimmed string of decimal digits with an optional
sign; the empty string is 0; `none` for any other text. -/
def decimalToNumber (s : String) : Option Int :=
  match trimChars s.data with
  | [] => some 0
  | '-' :: ds => if ds ≠ [] && ds.all Char.isDigit then some (-(digitsValue ds : Int)) else none
  | '+' :: ds => if ds ≠ [] && ds.all Char.isDigit then some (digitsValue ds : Int) else none
  | ds => if ds.all Char.isDigit then some (digitsValue ds : Int) else none

/-- `new RegExp(p)` for the pattern of the examples, `^[0-9]+$` (a non-empty
run of digits); `none` for any other pattern. -/
def regExp (pattern : String) : Option (String → Bool) :=
  if pattern = "^[0-9]+$" then
    some (fun s => !s.data.isEmpty && s.data.all Char.isDigit)
  else none

/-- Whether the text is `http://` or `https://` followed by labels of ASCII
letters separated by single dots, a fragment of the texts that `new URL`
accepts; `false` for any other text. -/
def isValidUrl (s : String) : Bool :=
  let host : List Char → Bool := fun cs =>
    !cs.isEmpty && cs.all (fun c => c.isAlpha || c = '.') &&
      !startsWith ['.'] cs && !startsWith ['.'] cs.reverse &&
      !(cs.zip (cs.drop 1)).any (fun cc => cc.1 = '.' && cc.2 = '.')
  if startsWith "https://".data s.data then host (s.data.drop 8)
  else if startsWith "http://".data s.data then host (s.data.drop 7)
  else false

/-- `parseFloat` on the texts that spell a decimal integer with an optional
sign, or `Infinity` with an optional sign; `NaN` for any other text. -/
def parseFloat (s : String) : Num :=
  match trimChars s.data with
  | ['I', 'n', 'f', 'i', 'n', 'i', 't', 'y'] => .posInf
  | ['+', 'I', 'n', 'f', 'i', 'n', 'i', 't', 'y'] => .posInf
  | ['-', 'I', 'n', 'f', 'i', 'n', 'i', 't', 'y'] => .negInf
  | _ =>
    match decimalToNumber s with
    | some n => if (trimChars s.data).isEmpty then .nan else .finite (n : ℚ)
    | none => .nan

/-- `toLowerCase` on the letters A to Z; any other character is left as it
is. -/
def toLowerCase (s : String) : String :=
  String.mk (s.data.map (fun c => if 'A' ≤ c ∧ c ≤ 'Z' then Char.ofNat (c.toNat + 32) else c))

/-- A host for evaluating the code on concrete inputs: `JSON.parse` on the
integer fragment of JSON, `localeCompare` by code points, decimal integers as
numeric strings, production mode, the regular expression and the URLs of the
examples, `parseFloat` on integers and infinities, `toLowerCase` on ASCII
letters. -/
def host : Host :=
  { jsonParse := jsonParse
    localeCompare := codePointCompare
    stringToNumber := decimalToNumber
    development := false
    regExp := regExp
    isValidUrl := isValidUrl
    parseFloat := parseFloat
    toLowerCase := toLowerCase }

end JS.Reference

/-! ## Predicates used to state the properties -/

namespace MetadataExtractor

open JS

/-- A non-null object in the sense of `typeof`: an object or an array. -/
def IsNonNullObject (p : Val) : Prop :=
  (∃ props, p = .obj props) ∨ (∃ items, p = .arr items)

/-- A non-empty string. -/
def IsNonEmptyString (v : Val) : Prop := ∃ s, v = .str s ∧ s ≠ ""

/-- The 19 supported types as the specification lists them. -/
def specSupportedTypes : List String :=
  ["text", "textarea", "email", "tel", "url", "password", "number", "range",
   "percentage", "date", "datetime-local", "time", "select", "radio", "checkbox",
   "checkboxGroup", "file", "color", "hidden"]

/-- Validity of a raw descriptor in the words of the specification: a non-null
object whose `name`, `type` and `label` are non-empty strings, whose `type`
is supported, and whose `options` is an array when `type` is select, radio or
checkboxGroup. -/
def ValidParameterSpec (p : Val) : Prop :=
  IsNonNullObject p ∧
  IsNonEmptyString (prop p "name") ∧
  IsNonEmptyString (prop p "type") ∧
  IsNonEmptyString (prop p "label") ∧
  (∃ t ∈ specSupportedTypes, prop p "type" = .str t) ∧
  ((prop p "type" = .str "select" ∨ prop p "type" = .str "radio" ∨
      prop p "type" = .str "checkboxGroup") → ∃ items, prop p "options" = .arr items)

/-- The shape `{success: false, parameters: [], message}` of a failed
extraction. -/
def IsFailure (r : Val) : Prop :=
  prop r "success" = .bool false ∧ prop r "parameters" = .arr [] ∧
  ∃ m, prop r "message" = .str m

/-- The call is answered from the cache: the key is computed and the cache
holds it. -/
def answeredFromCache (cache : Cache) (workflowJson : Val) : Bool :=
  match cacheKey workflowJson with
  | .ok key => (cacheGet key cache).isSome
  | .error _ => false

/-- The condition of the filter of lines 56-60 on a node that is not `null` or
`undefined`: a sticky note with non-empty `parameters.content`. -/
def stickyWithContent (node : Val) : Bool :=
  strictEq (prop node "type") (.str stickyNoteType) &&
  (truthy (prop node "parameters") && truthy (prop (prop node "parameters") "content"))

/-- The sticky note yields valid metadata: its content is a string with a
candidate text that parses to a value with a `parameters` or a `fields`
array. -/
def Yields (h : Host) (stickyNote : Val) : Prop :=
  ∃ content candidate parsed,
    prop (prop stickyNote "parameters") "content" = .str content ∧
    metadataCandidate content = some candidate ∧
    h.jsonParse candidate = some parsed ∧
    (hasArray parsed "parameters" = true ∨ hasArray parsed "fields" = true)

/-- Every value stored in the cache is an object. -/
def CacheHoldsObjects (cache : Cache) : Prop :=
  ∀ kv ∈ cache, ∃ props, kv.2 = Val.obj props

/-- The keys of a property list are pairwise different, as they are in every
JavaScript object. -/
def DistinctKeys (v : Val) : Prop :=
  match v with
  | .obj props => (props.map Prod.fst).Nodup
  | _ => True

/-- The `group` of the normalized entry of a raw descriptor. -/
def groupOf (param : Val) : Val := JS.or (prop param "group") (.str "default")

/-- The `order` of a normalized entry, as an integer. -/
def orderValue (entry : Val) : Int :=
  match prop entry "order" with
  | .num n => n
  | _ => 0

/-- The `group` of a normalized entry, as a string. -/
def groupName (entry : Val) : String :=
  match prop entry "group" with
  | .str s => s
  | _ => ""

/-- The descriptor has the types the data model gives `group` and `order`:
`group` is a string or absent, `order` is a number or absent. -/
def WellTyped (param : Val) : Prop :=
  (prop param "group" = .undefined ∨ ∃ s, prop param "group" = .str s) ∧
  (prop param "order" = .undefined ∨ ∃ n, prop param "order" = .num n)

/-- The order in which `processParameters` sorts two normalized entries of
well-typed descriptors: `a` does not sort after `b`. Different groups are
ordered by `localeCompare`, one group by `order`. -/
def SortsBefore (h : Host) (a b : Val) : Prop :=
  if groupName a = groupName b then orderValue a ≤ orderValue b
  else h.localeCompare (groupName a) (groupName b) ≤ 0

/-- The comparison `localeCompare` is a linear order on strings: total,
transitive, and without ties between different strings. -/
def CollationIsLinear (h : Host) : Prop :=
  (∀ s t, h.localeCompare s t ≤ 0 ∨ h.localeCompare t s ≤ 0) ∧
  (∀ s t u, h.localeCompare s t ≤ 0 → h.localeCompare t u ≤ 0 → h.localeCompare s u ≤ 0) ∧
  (∀ s t, h.localeCompare s t ≤ 0 → h.localeCompare t s ≤ 0 → s = t)

end MetadataExtractor

/-! ## Concrete inputs -/

namespace Examples

open JS

/-- A raw descriptor of type text with the given name, label and further
properties. -/
def textField (name label : String) (more : List (String × Val)) : Val :=
  .obj ([("name", .str name), ("type", .str "text"), ("label", .str label)] ++ more)

/-- A sticky note node. -/
def stickyNote (id name content : String) : Val :=
  .obj [("id", .str id), ("name", .str name), ("type", .str "n8n-nodes-base.stickyNote"),
        ("parameters", .obj [("content", .str content)])]

/-- A workflow with the given id and nodes. -/
def workflow (id : String) (nodes : List Val) : Val :=
  .obj [("id", .str id), ("name", .str "Demo"), ("nodes", .arr nodes)]

/-- Two valid descriptors whose `group` is a number. -/
def numericGroupA : Val := textField "a" "A" [("group", .num 1)]

/-- See `numericGroupA`. -/
def numericGroupB : Val := textField "b" "B" [("group", .num 2)]

/-- The descriptors of the sort-stability example of the specification. -/
def fieldB : Val := textField "b" "B" [("group", .str "g"), ("order", .num 2)]

/-- See `fieldB`. -/
def fieldA : Val := textField "a" "A" [("group", .str "g"), ("order", .num 1)]

/-- See `fieldB`. -/
def fieldC : Val := textField "c" "C" [("group", .str "g"), ("order", .num 1)]

/-- A descriptor with the explicit order 0. -/
def orderZero : Val := textField "z" "Z" [("order", .num 0)]

/-- A descriptor with the order 1. -/
def orderOne : Val := textField "p" "P" [("order", .num 1)]

/-- A workflow whose only sticky note embeds an object with a `parameters`
array and a `success` key of its own. -/
def overrideWorkflow : Val :=
  workflow "w-override" [stickyNote "n1" "Form"
    "UI_METADATA \x7b\"success\":false,\"parameters\":[\x7b\"name\":\"email\",\"type\":\"email\",\"label\":\"Email\"\x7d]\x7d"]

/-- A workflow with two sticky notes: the first holds the marker and text
that is not JSON, the second an object without `parameters` or `fields`. -/
def noMetadataWorkflow : Val :=
  workflow "w-none" [
    stickyNote "n1" "Broken" "UI_METADATA \x7boops\x7d",
    stickyNote "n2" "Plain" "\x7b\"title\":\"x\"\x7d"]

/-- A workflow whose node list holds `null`. -/
def nullNodeWorkflow : Val := workflow "w-null" [.null]

/-- A workflow with three sticky notes: free text, then two notes with valid
metadata. -/
def threeNotesWorkflow : Val :=
  workflow "w-three" [
    stickyNote "n1" "Readme" "just text",
    stickyNote "n2" "First" "UI_METADATA \x7b\"parameters\":[\x7b\"name\":\"first\",\"type\":\"text\",\"label\":\"First\"\x7d]\x7d",
    stickyNote "n3" "Second" "\x7b\"fields\":[]\x7d"]

end Examples

namespace MetadataExtractor

instance (h : JS.Host) : DecidableRel (SortsBefore h) := fun a b => by
  unfold SortsBefore; exact inferInstance

end MetadataExtractor

/-! ## Further predicates and inputs -/

namespace MetadataExtractor

open JS

/-- The `group` values of the processed entries, each with the position of
its entry. -/
def groupTags (processed : List Val) : List (Nat × Val) :=
  processed.enum.map (fun ip => (ip.1, prop ip.2 "group"))

/-- The distinct `group` values, `[...new Set(processed.map(p => p.group))]`. -/
def groupNames (processed : List Val) : List (Nat × Val) :=
  dedupGroups (groupTags processed)

/-- The members of a group, `processed.filter(p => p.group === groupName)`. -/
def groupMembers (processed : List Val) (g : Nat × Val) : List Val :=
  (processed.enum.filter (fun ip => sameGroup (ip.1, prop ip.2 "group") g)).map Prod.snd

/-- The group object that `buildGroups` makes for a group value. -/
def groupObject (processed : List Val) (g : Nat × Val) : Val :=
  .obj [("name", g.2),
        ("label", if strictEq g.2 (.str "default") then .str "Parámetros" else g.2),
        ("parameters", .arr (groupMembers processed g))]

end MetadataExtractor

namespace Examples

open JS

/-- Two valid descriptors with the same `name`. -/
def sameNameA : Val := textField "email" "Email" []

/-- See `sameNameA`. -/
def sameNameB : Val := textField "email" "Correo" []

/-- A workflow whose sticky note embeds an object with a `fields` array, no
`parameters`, and a `success` key of its own. -/
def fieldsOverrideWorkflow : Val :=
  workflow "w-fields" [stickyNote "n1" "Form"
    "UI_METADATA \x7b\"success\":false,\"fields\":[\x7b\"name\":\"email\",\"type\":\"email\",\"label\":\"Email\"\x7d]\x7d"]

/-- A workflow whose sticky note holds the marker, a valid JSON object with a
`parameters` array, and trailing text with braces. -/
def trailingBraceWorkflow : Val :=
  workflow "w-trailing" [stickyNote "n1" "Form"
    "UI_METADATA \x7b\"parameters\":[]\x7d (see \x7bdocs\x7d)"]

/-- A workflow whose metadata has three parameters in two groups. -/
def groupedWorkflow : Val :=
  workflow "w-groups" [stickyNote "n1" "Form"
    "UI_METADATA \x7b\"parameters\":[\x7b\"name\":\"a\",\"type\":\"text\",\"label\":\"A\",\"group\":\"datos\"\x7d,\x7b\"name\":\"b\",\"type\":\"text\",\"label\":\"B\"\x7d,\x7b\"name\":\"c\",\"type\":\"text\",\"label\":\"C\",\"group\":\"datos\"\x7d]\x7d"]

/-- The value that `extractAndProcessMetadata` returns for `groupedWorkflow`
with an empty cache. -/
def groupedResult : Val :=
  match (MetadataExtractor.extractAndProcessMetadata Reference.host [] groupedWorkflow).1 with
  | .ok r => r
  | .error _ => .undefined

end Examples

/-! ## Form validation: `DynamicForm.jsx` and `DynamicFormField.jsx` -/

namespace DynamicForm

open JS

/-- The placeholder option of a select. -/
def placeholderOption : String := "-- Selecciona una opción --"

/-- The condition `value === null || value === undefined || value === ''`. -/
def isEmptyValue (value : Val) : Bool :=
  strictEq value .null || strictEq value .undefined || strictEq value (.str "")

/-- The errors that the required check of `validateSingleField` pushes, lines
49-63. -/
def requiredErrors (param value : Val) : List Val :=
  if truthy (prop param "required") then
    if strictEq (prop param "type") (.str "select") then
      if isEmptyValue value || strictEq value (.str placeholderOption) then
        [.str "Debes seleccionar una opción"]
      else []
    else if isEmptyValue value then [.str "Este campo es requerido"]
    else []
  else []

/-- The errors of one bound of a numeric field, lines 81-83 and 84-86: `bound`
is `param.min` or `param.max`, `beyond` the comparison of the number with it. -/
def boundErrors (bound : Val) (beyond : Except String Bool) (text : String) :
    Except String (List Val) :=
  if !strictEq bound .undefined then
    match beyond with
    | .error e => .error e
    | .ok false => .ok []
    | .ok true =>
      match toStr bound with
      | .error e => .error e
      | .ok s => .ok [.str (text ++ s)]
  else .ok []

/-- The errors of one length limit of a text field, lines 98-100 and 101-103:
`limit` is `param.minLength` or `param.maxLength`, `beyond` the comparison of
`value.length` with it. -/
def lengthErrors (limit : Val) (beyond : Except String Bool) (text : String) :
    Except String (List Val) :=
  if truthy limit then
    match beyond with
    | .error e => .error e
    | .ok false => .ok []
    | .ok true =>
      match toStr limit with
      | .error e => .error e
      | .ok s => .ok [.str (text ++ s ++ " caracteres")]
  else .ok []

/-- The errors that the `switch` on `param.type` pushes, lines 67-105. The
regular expression, `parseFloat` and the URL constructor convert the value to
a string; the URL constructor runs inside a `try`. -/
def typeErrors (h : Host) (param value : Val) : Except String (List Val) :=
  if strictEq (prop param "type") (.str "email") then
    match toStr value with
    | .error e => .error e
    | .ok s => .ok (if emailRegexTest s then [] else [.str "Formato de email inválido"])
  else if strictEq (prop param "type") (.str "number") ||
      strictEq (prop param "type") (.str "range") ||
      strictEq (prop param "type") (.str "percentage") then
    match toStr value with
    | .error e => .error e
    | .ok s =>
      if (h.parseFloat s).isNaN then .ok [.str "Debe ser un número válido"]
      else
        match boundErrors (prop param "min") (numLess h (h.parseFloat s) (prop param "min"))
            "El valor mínimo es " with
        | .error e => .error e
        | .ok low =>
          match boundErrors (prop param "max")
              (numGreater h (h.parseFloat s) (prop param "max")) "El valor máximo es " with
          | .error e => .error e
          | .ok high => .ok (low ++ high)
  else if strictEq (prop param "type") (.str "url") then
    match toStr value with
    | .error _ => .ok [.str "Debe ser una URL válida"]
    | .ok s => .ok (if h.isValidUrl s then [] else [.str "Debe ser una URL válida"])
  else if strictEq (prop param "type") (.str "text") ||
      strictEq (prop param "type") (.str "textarea") then
    match lengthErrors (prop param "minLength")
        (lessThan h (lengthOf value) (prop param "minLength")) "Mínimo " with
    | .error e => .error e
    | .ok short =>
      match lengthErrors (prop param "maxLength")
          (lessThan h (prop param "maxLength") (lengthOf value)) "Máximo " with
      | .error e => .error e
      | .ok long => .ok (short ++ long)
  else .ok []

/-- The errors of the custom pattern, lines 108-115, for the sub-object
`validation` of the parameter: the pattern is compiled, then tested on the
value. -/
def patternErrors (h : Host) (validation value : Val) (fallback : String) :
    Except String (List Val) :=
  match toStr (prop validation "pattern") with
  | .error e => .error e
  | .ok pattern =>
    match h.regExp pattern with
    | none => .error ("Invalid regular expression: /" ++ pattern ++ "/")
    | some test =>
      match toStr value with
      | .error e => .error e
      | .ok s =>
        .ok (if test s then []
             else [JS.or (prop validation "message") (.str fallback)])

/-- The errors that the custom validation pushes, lines 108-115. -/
def customErrors (h : Host) (param value : Val) : Except String (List Val) :=
  if truthy (prop param "validation") then
    if truthy (prop (prop param "validation") "pattern") then
      patternErrors h (prop param "validation") value "Formato inválido"
    else .ok []
  else .ok []

/-- The function `validateSingleField`, lines 45-119: the list `errors`
returned, or the error thrown. -/
def validateSingleField (h : Host) (param value : Val) : Except String (List Val) :=
  if nullish param then .error "Cannot read properties of null (reading required)"
  else if !isEmptyValue value then
    match typeErrors h param value with
    | .error e => .error e
    | .ok typed =>
      match customErrors h param value with
      | .error e => .error e
      | .ok custom => .ok (requiredErrors param value ++ typed ++ custom)
  else .ok (requiredErrors param value)

/-- The state of the component that validation reads and writes: `formData`
(an object, given by its properties), `fieldErrors`, `isValid` and
`hasBeenValidated`. -/
structure FormState where
  formData : List (String × Val)
  fieldErrors : List (String × List Val)
  isValid : Bool
  hasBeenValidated : Bool

/-- The assignment `newFieldErrors[key] = errors`. -/
def setErrors (key : String) (errors : List Val) :
    List (String × List Val) → List (String × List Val)
  | [] => [(key, errors)]
  | (k, e) :: rest =>
    if k = key then (key, errors) :: rest else (k, e) :: setErrors key errors rest

/-- The loop of `validateAllFields`, lines 126-135, from the map and the flag
built so far. `formData[param.name]` is the own property of `formData`; a name
that `formData` inherits from `Object.prototype` is outside the model. -/
def validateEach (h : Host) (formData : List (String × Val)) :
    List (String × List Val) → Bool → List Val →
    Except String (List (String × List Val) × Bool)
  | newFieldErrors, allValid, [] => .ok (newFieldErrors, allValid)
  | newFieldErrors, allValid, param :: rest =>
    match getProp param "name" with
    | .error e => .error e
    | .ok name =>
      match toStr name with
      | .error e => .error e
      | .ok key =>
        match validateSingleField h param ((lookup key formData).getD .undefined) with
        | .error e => .error e
        | .ok errors =>
          validateEach h formData (setErrors key errors newFieldErrors)
            (if errors.length > 0 then false else allValid) rest

/-- The function `validateAllFields`, lines 122-146, of the component rendered
with the array `parameters`: the state after the call and the value returned,
or the error thrown. -/
def validateAllFields (h : Host) (parameters : List Val) (state : FormState) :
    Except String (FormState × Bool) :=
  match validateEach h state.formData [] true parameters with
  | .error e => .error e
  | .ok (newFieldErrors, allValid) =>
    .ok ({ formData := state.formData
           fieldErrors := newFieldErrors
           isValid := allValid
           hasBeenValidated := true }, allValid)

end DynamicForm

namespace DynamicFormField

open JS

/-- The condition `!fieldValue || fieldValue.toString().trim() === ''`. -/
def isBlank (fieldValue : Val) : Except String Bool :=
  if !truthy fieldValue then .ok true
  else
    match toStr fieldValue with
    | .error e => .error e
    | .ok s => .ok (trimChars s.data).isEmpty

/-- The required check of `validateField`, lines 47-63: the error list that is
returned at once when the check fails, `none` when validation goes on. -/
def requiredFailure (required type fieldValue : Val) : Except String (Option (List Val)) :=
  if truthy required then
    if strictEq type (.str "select") then
      if DynamicForm.isEmptyValue fieldValue ||
          strictEq fieldValue (.str DynamicForm.placeholderOption) then
        .ok (some [.str "Debes seleccionar una opción"])
      else .ok none
    else
      match isBlank fieldValue with
      | .error e => .error e
      | .ok true => .ok (some [.str "Este campo es requerido"])
      | .ok false => .ok none
  else .ok none

/-- One bound of a numeric field, lines 101-103 and 104-106:
`validation?.min !== null && numValue < validation.min`, where the plain access
`validation.min` throws on a `validation` that is `null`. -/
def boundErrors (validation : Val) (key : String)
    (beyond : Val → Except String Bool) (text : String) : Except String (List Val) :=
  if !strictEq (prop validation key) .null then
    match getProp validation key with
    | .error e => .error e
    | .ok bound =>
      match beyond bound with
      | .error e => .error e
      | .ok false => .ok []
      | .ok true =>
        match toStr bound with
        | .error e => .error e
        | .ok s => .ok [.str (text ++ s)]
  else .ok []

/-- The errors that the `switch` on `type` pushes, lines 71-109. -/
def typeErrors (h : Host) (validation type fieldValue : Val) : Except String (List Val) :=
  if strictEq type (.str "email") then
    match toStr fieldValue with
    | .error e => .error e
    | .ok s =>
      .ok (if emailRegexTest s then []
           else [JS.or (prop validation "message") (.str "Introduce un email válido")])
  else if strictEq type (.str "tel") then
    match toStr fieldValue with
    | .error e => .error e
    | .ok s =>
      .ok (if phoneRegexTest s then []
           else [JS.or (prop validation "message") (.str "Introduce un teléfono válido")])
  else if strictEq type (.str "url") then
    match toStr fieldValue with
    | .error _ => .ok [JS.or (prop validation "message") (.str "Introduce una URL válida")]
    | .ok s =>
      .ok (if h.isValidUrl s then []
           else [JS.or (prop validation "message") (.str "Introduce una URL válida")])
  else if strictEq type (.str "number") || strictEq type (.str "range") ||
      strictEq type (.str "percentage") then
    match toStr fieldValue with
    | .error e => .error e
    | .ok s =>
      if (h.parseFloat s).isNaN then .ok [.str "Debe ser un número válido"]
      else
        match boundErrors validation "min" (numLess h (h.parseFloat s))
            "El valor mínimo es " with
        | .error e => .error e
        | .ok low =>
          match boundErrors validation "max" (numGreater h (h.parseFloat s))
              "El valor máximo es " with
          | .error e => .error e
          | .ok high => .ok (low ++ high)
  else .ok []

/-- The function `validateField`, lines 41-130, of the component rendered with
`parameter`: the list `errors` returned, or the error thrown. -/
def validateField (h : Host) (parameter fieldValue : Val) : Except String (List Val) :=
  if nullish parameter then .error "Cannot destructure property of null"
  else
    let validation :=
      if strictEq (prop parameter "validation") .undefined then Val.obj []
      else prop parameter "validation"
    match requiredFailure (prop parameter "required") (prop parameter "type") fieldValue with
    | .error e => .error e
    | .ok (some errors) => .ok errors
    | .ok none =>
      match isBlank fieldValue with
      | .error e => .error e
      | .ok true => .ok []
      | .ok false =>
        match typeErrors h validation (prop parameter "type") fieldValue with
        | .error e => .error e
        | .ok typed =>
          match (if truthy (prop validation "pattern") then
              DynamicForm.patternErrors h validation fieldValue "Formato inválido"
            else .ok []) with
          | .error e => .error e
          | .ok custom =>
            match DynamicForm.lengthErrors (prop validation "minLength")
                (lessThan h (lengthOf fieldValue) (prop validation "minLength")) "Mínimo " with
            | .error e => .error e
            | .ok short =>
              match DynamicForm.lengthErrors (prop validation "maxLength")
                  (lessThan h (prop validation "maxLength") (lengthOf fieldValue))
                  "Máximo " with
              | .error e => .error e
              | .ok long => .ok (typed ++ custom ++ short ++ long)

end DynamicFormField

/-! ## Inputs and predicates for the form validation -/

namespace Examples

open JS

/-- The normalized entry of a number field with `validation.min = 5`. -/
def minFiveField : Val :=
  MetadataExtractor.normalizeParameter (.obj [("name", .str "edad"), ("type", .str "number"),
    ("label", .str "Edad"), ("validation", .obj [("min", .num 5)])])

/-- A required text field. -/
def requiredTextField : Val := textField "nombre" "Nombre" [("required", .bool true)]

/-- A text field with the name of `requiredTextField` that is not required. -/
def optionalTextField : Val := textField "nombre" "Apodo" []

/-- A required select. -/
def requiredSelectField : Val :=
  .obj [("name", .str "pais"), ("type", .str "select"), ("label", .str "País"),
        ("required", .bool true), ("options", .arr [])]

/-- A required email field. -/
def emailField : Val :=
  .obj [("name", .str "email"), ("type", .str "email"), ("label", .str "Email"),
        ("required", .bool true)]

/-- An email field with a custom pattern and message. -/
def emailDigitsField : Val :=
  .obj [("name", .str "email"), ("type", .str "email"), ("label", .str "Email"),
        ("validation", .obj [("pattern", .str "^[0-9]+$"), ("message", .str "Solo dígitos")])]

end Examples

namespace DynamicForm

open JS

/-- The value `formData[param.name]` of a parameter whose name is a string. -/
def fieldValue (formData : List (String × Val)) (param : Val) : Val :=
  match prop param "name" with
  | .str key => (lookup key formData).getD .undefined
  | _ => .undefined

end DynamicForm

/-! ## Workflow utilities: `workflowUtils.js` -/

namespace JS

/-- `haystack.includes(needle)` on character lists: whether `needle` occurs in
`haystack` as a contiguous run. -/
def includesChars (needle : List Char) : List Char → Bool
  | [] => startsWith needle []
  | c :: cs => startsWith needle (c :: cs) || includesChars needle cs

/-- `Array.prototype.some` with a callback that may throw: the callback runs
on the elements in order until one gives a truthy result. -/
def arraySome (f : Val → Except String Bool) : List Val → Except String Bool
  | [] => .ok false
  | v :: rest =>
    match f v with
    | .error e => .error e
    | .ok true => .ok true
    | .ok false => arraySome f rest

/-- `Array.prototype.find` with a callback that may throw: the first element
with a truthy result, `none` for `undefined`. -/
def arrayFind (f : Val → Except String Bool) : List Val → Except String (Option Val)
  | [] => .ok none
  | v :: rest =>
    match f v with
    | .error e => .error e
    | .ok true => .ok (some v)
    | .ok false => arrayFind f rest

/-- `Object.keys(v)` for a value that is not `null` or `undefined`. -/
def objectKeys (v : Val) : List String := (ownProps v).map Prod.fst

end JS

namespace WorkflowUtils

open JS

/-- The array `webhookNodeTypes` of lines 16-20 and 127-131. -/
def webhookNodeTypes : List String :=
  ["n8n-nodes-base.webhook", "n8n-nodes-base.formTrigger", "n8n-nodes-base.chatTrigger"]

/-- The callback `node => node.type && webhookNodeTypes.includes(node.type)`,
as a condition; `node.type` throws on a `null` or `undefined` node. -/
def isWebhookNode (node : Val) : Except String Bool :=
  match getProp node "type" with
  | .error e => .error e
  | .ok type => .ok (truthy type && includes webhookNodeTypes type)

/-- The function `hasWebhookTrigger`, lines 10-25. -/
def hasWebhookTrigger (workflow : Val) : Except String Bool :=
  if !truthy workflow || !truthy (prop workflow "nodes") || !isArray (prop workflow "nodes") then
    .ok false
  else
    match prop workflow "nodes" with
    | .arr nodes => arraySome isWebhookNode nodes
    | _ => .ok false

/-- The function `isWorkflowActive`, lines 32-34, as a condition: the value
`workflow && workflow.active === true` is only used for its truthiness. -/
def isWorkflowActive (workflow : Val) : Bool :=
  truthy workflow && strictEq (prop workflow "active") (.bool true)

/-- The function `isWorkflowArchived`, lines 42-49. -/
def isWorkflowArchived (workflow : Val) : Bool :=
  if !truthy workflow then false else strictEq (prop workflow "isArchived") (.bool true)

/-- The callback of `find`, lines 77-82:
`node.position && Array.isArray(node.position) && node.position[0] === 0`. -/
def isAtOrigin (node : Val) : Except String Bool :=
  match getProp node "position" with
  | .error e => .error e
  | .ok position =>
    .ok (truthy position && isArray position &&
      (match position with
        | .arr (first :: _) => strictEq first (.num 0)
        | _ => false))

/-- The function `getWorkflowExecutionType`, lines 65-105: the string
returned, or the error thrown. A truthy `type` that is not a string has no
`toLowerCase` method. -/
def getWorkflowExecutionType (h : Host) (workflow : Val) : Except String String :=
  if !truthy workflow || !truthy (prop workflow "nodes") || !isArray (prop workflow "nodes") then
    .ok "unknown"
  else
    match hasWebhookTrigger workflow with
    | .error e => .error e
    | .ok true => .ok "webhook"
    | .ok false =>
      match prop workflow "nodes" with
      | .arr nodes =>
        match arrayFind isAtOrigin nodes with
        | .error e => .error e
        | .ok found =>
          let triggerNode := JS.or (found.getD .undefined) (nodes.head?.getD .undefined)
          if !truthy triggerNode || !truthy (prop triggerNode "type") then .ok "unknown"
          else
            match prop triggerNode "type" with
            | .str type =>
              let nodeType := (h.toLowerCase type).data
              if includesChars "cron".data nodeType || includesChars "schedule".data nodeType ||
                  includesChars "interval".data nodeType then .ok "scheduled"
              else if includesChars "manual".data nodeType ||
                  includesChars "start".data nodeType then .ok "manual"
              else .ok "unknown"
            | _ => .error "triggerNode.type.toLowerCase is not a function"
      | _ => .ok "unknown"

/-- The text of `baseUrl.replace(/\/$/, '')`: one trailing slash removed. -/
def dropTrailingSlash (cs : List Char) : List Char :=
  if startsWith ['/'] cs.reverse then cs.dropLast else cs

/-- The function `getWorkflowWebhookUrl`, lines 113-161: the value returned (a
string or `null`), or the error thrown. Only a string has the methods
`replace` and `startsWith`. -/
def getWorkflowWebhookUrl (workflow baseUrl : Val) : Except String Val :=
  if !truthy workflow || !truthy (prop workflow "nodes") || !isArray (prop workflow "nodes")
      || !truthy baseUrl then .ok .null
  else
    match prop workflow "nodes" with
    | .arr nodes =>
      match arrayFind isWebhookNode nodes with
      | .error e => .error e
      | .ok none => .ok .null
      | .ok (some webhookNode) =>
        if !truthy webhookNode then .ok .null
        else
          let path := prop (prop webhookNode "parameters") "path"
          let webhookPath := if !truthy path then prop workflow "id" else path
          match baseUrl with
          | .str base =>
            match webhookPath with
            | .str cleanPath =>
              .ok (.str (String.mk (dropTrailingSlash base.data ++ "/webhook/".data ++
                (if startsWith ['/'] cleanPath.data then cleanPath.data.drop 1
                 else cleanPath.data))))
            | .undefined => .error "Cannot read properties of undefined (reading startsWith)"
            | .null => .error "Cannot read properties of null (reading startsWith)"
            | _ => .error "cleanPath.startsWith is not a function"
          | _ => .error "baseUrl.replace is not a function"
    | _ => .ok .null

/-- The object `order` of line 251. -/
def executionTypeOrder : Val :=
  .obj [("webhook", .num 0), ("manual", .num 1), ("scheduled", .num 2)]

/-- The comparator of lines 246-253:
`(order[typeA] || 3) - (order[typeB] || 3)`. -/
def compareExecutionType (h : Host) (a b : Val) : Except String Int :=
  match getWorkflowExecutionType h a with
  | .error e => .error e
  | .ok typeA =>
    match getWorkflowExecutionType h b with
    | .error e => .error e
    | .ok typeB =>
      match sub h (JS.or (prop executionTypeOrder typeA) (.num 3))
          (JS.or (prop executionTypeOrder typeB) (.num 3)) with
      | .error e => .error e
      | .ok d => .ok (d.getD 0)

/-- The call `sortWorkflows(workflows, 'execution-type')`, lines 169-175 and
245-253: the elements of the returned array, or the error thrown by the
comparator. The other cases of the `switch` are not part of this
development. -/
def sortWorkflowsByExecutionType (h : Host) (workflows : Val) : Except String (List Val) :=
  match workflows with
  | .arr items => sortM (compareExecutionType h) items
  | _ => .ok []

/-- The callback of the status filter, lines 284-291. -/
def statusMatches (status workflow : Val) : Bool :=
  if strictEq status (.str "activos") then isWorkflowActive workflow
  else if strictEq status (.str "inactivos") then !isWorkflowActive workflow
  else true

/-- The chain of comparisons of lines 299-312 for the execution type of a
workflow. -/
def executionTypeMatches (filter : Val) (executionType : String) : Bool :=
  if strictEq filter (.str "webhook") then executionType = "webhook"
  else if strictEq filter (.str "manual") then executionType = "manual"
  else if strictEq filter (.str "scheduled") then executionType = "scheduled"
  else if strictEq filter (.str "ejecutables") then
    executionType = "webhook" || executionType = "manual"
  else if strictEq filter (.str "no-ejecutables") then
    executionType = "scheduled" || executionType = "unknown"
  else true

/-- The callback of the execution type filter, lines 296-313. -/
def executionTypeFilter (h : Host) (filter workflow : Val) : Except String Bool :=
  match getWorkflowExecutionType h workflow with
  | .error e => .error e
  | .ok executionType => .ok (executionTypeMatches filter executionType)

/-- The condition `v && v.toLowerCase().includes(searchTerm)`: a truthy value
that is not a string has no `toLowerCase` method. -/
def lowerIncludes (h : Host) (searchTerm : List Char) (v : Val) : Except String Bool :=
  if truthy v then
    match v with
    | .str s => .ok (includesChars searchTerm (h.toLowerCase s).data)
    | _ => .error "toLowerCase is not a function"
  else .ok false

/-- The callback of `workflow.tags.some`, lines 324-326. -/
def tagMatches (h : Host) (searchTerm : List Char) (tag : Val) : Except String Bool :=
  match getProp tag "name" with
  | .error e => .error e
  | .ok name => lowerIncludes h searchTerm name

/-- The condition `workflow.id && workflow.id.toString().includes(searchTerm)`
of line 322. -/
def idIncludes (searchTerm : List Char) (id : Val) : Except String Bool :=
  if truthy id then
    match toStr id with
    | .error e => .error e
    | .ok text => .ok (includesChars searchTerm text.data)
  else .ok false

/-- The condition `workflow.tags && workflow.tags.some(...)` of lines 323-326.
Truthy `tags` that are not an array have no `some` method. -/
def tagsInclude (h : Host) (searchTerm : List Char) (tags : Val) : Except String Bool :=
  if truthy tags then
    match tags with
    | .arr items => arraySome (tagMatches h searchTerm) items
    | _ => .error "workflow.tags.some is not a function"
  else .ok false

/-- The callback of the search filter, lines 319-328, as a condition. -/
def searchMatches (h : Host) (searchTerm : List Char) (workflow : Val) : Except String Bool :=
  match getProp workflow "name" with
  | .error e => .error e
  | .ok name =>
    match lowerIncludes h searchTerm name with
    | .error e => .error e
    | .ok true => .ok true
    | .ok false =>
      match idIncludes searchTerm (prop workflow "id") with
      | .error e => .error e
      | .ok true => .ok true
      | .ok false => tagsInclude h searchTerm (prop workflow "tags")

/-- The block of lines 277-280: archived workflows are left out unless
`filters.showArchived` is `true`. -/
def archivedStage (showArchived : Val) (filtered : List Val) : List Val :=
  if !strictEq showArchived (.bool true) then
    filtered.filter (fun workflow => !isWorkflowArchived workflow)
  else filtered

/-- The block of lines 282-292: the status filter. -/
def statusStage (status : Val) (filtered : List Val) : List Val :=
  if truthy status && !strictEq status (.str "todos") then filtered.filter (statusMatches status)
  else filtered

/-- The block of lines 294-314: the execution type filter. -/
def executionTypeStage (h : Host) (executionType : Val) (filtered : List Val) :
    Except String (List Val) :=
  if truthy executionType && !strictEq executionType (.str "todos") then
    MetadataExtractor.arrayFilter (executionTypeFilter h executionType) filtered
  else .ok filtered

/-- The block of lines 316-329: the text search. A truthy `search` that is
not a string has no `trim` method. -/
def searchStage (h : Host) (search : Val) (filtered : List Val) : Except String (List Val) :=
  if truthy search then
    match search with
    | .str text =>
      if !(trimChars text.data).isEmpty then
        MetadataExtractor.arrayFilter
          (searchMatches h (trimChars (h.toLowerCase text).data)) filtered
      else .ok filtered
    | _ => .error "filters.search.trim is not a function"
  else .ok filtered

/-- The function `filterWorkflows`, lines 270-332: the elements of the
returned array, or the error thrown. The parameter `filters` defaults to an
empty object when it is `undefined`; reading a property of `null` throws. -/
def filterWorkflows (h : Host) (workflows filters : Val) : Except String (List Val) :=
  match workflows with
  | .arr items =>
    let filters := if strictEq filters .undefined then Val.obj [] else filters
    match getProp filters "showArchived" with
    | .error e => .error e
    | .ok showArchived =>
      match executionTypeStage h (prop filters "executionType")
          (statusStage (prop filters "status") (archivedStage showArchived items)) with
      | .error e => .error e
      | .ok byType => searchStage h (prop filters "search") byType
  | _ => .ok []

end WorkflowUtils

/-! ## The payload: `_formatWorkflowInputData` and the submit handler -/

namespace UseWorkflows

open JS

/-- What `_formatWorkflowInputData` reads from its environment: the two
results of `new Date().toISOString()`, `navigator.userAgent`,
`window.location.origin`, and `this.environment` of the service object. -/
structure Environment where
  timestamp : String
  executedAt : String
  userAgent : String
  origin : String
  environment : Val

/-- The function `_formatWorkflowInputData` of `hooks/useWorkflows.js`, lines
382-417. -/
def _formatWorkflowInputData (env : Environment) (inputData : Val) : Val :=
  if !truthy inputData || (objectKeys inputData).length = 0 then
    .obj [("timestamp", .str env.timestamp), ("source", .str "frontend-hook")]
  else if truthy (prop inputData "data") && truthy (prop (prop inputData "data") "main") then
    inputData
  else
    .obj (setKey "_system"
      (.obj [("timestamp", .str env.timestamp), ("source", .str "frontend-hook"),
             ("executedAt", .str env.executedAt), ("userAgent", .str env.userAgent),
             ("origin", .str env.origin)])
      (spread [] inputData))

end UseWorkflows

namespace N8nProxyService

open JS

/-- The method `_formatWorkflowInputData` of `services/n8nProxyService.js`,
lines 195-227. -/
def _formatWorkflowInputData (env : UseWorkflows.Environment) (inputData : Val) : Val :=
  if !truthy inputData || (objectKeys inputData).length = 0 then
    .obj [("timestamp", .str env.timestamp), ("source", .str "frontend-hook")]
  else if truthy (prop inputData "data") && truthy (prop (prop inputData "data") "main") then
    inputData
  else
    .obj (setKey "_system"
      (.obj [("timestamp", .str env.timestamp), ("source", .str "frontend-hook")])
      (spread [] inputData))

end N8nProxyService

namespace N8nService

open JS

/-- The method `_formatWorkflowInputData` of `services/n8nService.js`, lines
236-270. -/
def _formatWorkflowInputData (env : UseWorkflows.Environment) (inputData : Val) : Val :=
  if !truthy inputData || (objectKeys inputData).length = 0 then
    .obj [("timestamp", .str env.timestamp), ("source", .str "frontend-hook"),
          ("environment", env.environment)]
  else if truthy (prop inputData "data") && truthy (prop (prop inputData "data") "main") then
    inputData
  else
    .obj (setKey "_system"
      (.obj [("timestamp", .str env.timestamp), ("source", .str "frontend-hook"),
             ("environment", env.environment)])
      (spread [] inputData))

end N8nService

namespace DynamicForm

open JS

/-- A value of `processedData`: a number as `parseFloat` returned it, or a
value of the model. -/
inductive Processed where
  | number (x : JS.Num)
  | value (v : Val)

/-- `Array.from(value)` for a value with a truthy `length`: the elements of an
array, the characters of a string, and for any other object the properties
"0", "1", ... below its `length` (a `NaN` or negative length counts as 0). -/
def arrayFrom (h : Host) (value : Val) : Except String Val :=
  match value with
  | .arr items => .ok (.arr items)
  | .str s => .ok (.arr (s.data.map (fun c => Val.str (String.mk [c]))))
  | other =>
    match toNumber h (lengthOf other) with
    | .error e => .error e
    | .ok n =>
      .ok (.arr ((List.range ((n.getD 0).toNat)).map (fun i => prop other (toString i))))

/-- The `switch` of lines 205-225: the processed value of one parameter.
`parseFloat` converts its argument to a string. -/
def processValue (h : Host) (type value : Val) : Except String Processed :=
  if strictEq type (.str "number") || strictEq type (.str "range") ||
      strictEq type (.str "percentage") then
    if !strictEq value (.str "") then
      match toStr value with
      | .error e => .error e
      | .ok s => .ok (.number (h.parseFloat s))
    else .ok (.value .null)
  else if strictEq type (.str "checkbox") then
    .ok (.value (.bool (strictEq value (.bool true) || strictEq value (.str "true"))))
  else if strictEq type (.str "file") then
    if truthy value && truthy (lengthOf value) then
      match arrayFrom h value with
      | .error e => .error e
      | .ok files => .ok (.value files)
    else .ok (.value value)
  else
    .ok (.value (if strictEq value .null || strictEq value .undefined then .str "" else value))

/-- The assignment `processedData[key] = value`. -/
def assign (key : String) (value : Processed) :
    List (String × Processed) → List (String × Processed)
  | [] => [(key, value)]
  | (k, v) :: rest =>
    if k = key then (key, value) :: rest else (k, v) :: assign key value rest

/-- The loop of lines 201-228 from the object `processedData` built so far. -/
def processEach (h : Host) (formData : List (String × Val)) :
    List (String × Processed) → List Val → Except String (List (String × Processed))
  | processedData, [] => .ok processedData
  | processedData, param :: rest =>
    match getProp param "name" with
    | .error e => .error e
    | .ok name =>
      match toStr name with
      | .error e => .error e
      | .ok key =>
        match processValue h (prop param "type") ((lookup key formData).getD .undefined) with
        | .error e => .error e
        | .ok value => processEach h formData (assign key value processedData) rest

/-- The handler `handleSubmit`, lines 184-232, of the component rendered with
the array `parameters`: the state after the call and the object passed to
`onSubmit` (`none` when validation fails and `onSubmit` is not called), or the
error thrown. -/
def handleSubmit (h : Host) (parameters : List Val) (state : FormState) :
    Except String (FormState × Option (List (String × Processed))) :=
  match validateAllFields h parameters state with
  | .error e => .error e
  | .ok (state', isFormValid) =>
    if !isFormValid then .ok (state', none)
    else
      match processEach h state.formData [] parameters with
      | .error e => .error e
      | .ok processedData => .ok (state', some processedData)

end DynamicForm

/-! ## The hook `useFormValidation` -/

namespace UseFormValidation

open JS

/-- The rules of one field: the properties that `validateField` reads.
`pattern` is the function `test` of a regular expression, `validate` a
function, each `none` when the property is absent. -/
structure FieldRules where
  required : Val
  minLength : Val
  minLengthMessage : Val
  pattern : Option (String → Bool)
  patternMessage : Val
  validate : Option (Val → List (String × Val) → Except String Val)
  matchMessage : Val

/-- Rules with every property absent. -/
def noRules : FieldRules :=
  { required := .undefined, minLength := .undefined, minLengthMessage := .undefined,
    pattern := none, patternMessage := .undefined, validate := none,
    matchMessage := .undefined }

/-- A validation schema or rule table: field names with their rules. -/
abbrev Schema := List (String × FieldRules)

/-- The constant `VALIDATION_RULES` of `constants/formConstants.js`. -/
def VALIDATION_RULES : Schema :=
  [("email", { noRules with required := .str "El email es requerido",
                            pattern := some emailRegexTest,
                            patternMessage := .str "Email inválido" }),
   ("password", { noRules with required := .str "La contraseña es requerida",
                               minLength := .num 6,
                               minLengthMessage :=
                                 .str "La contraseña debe tener al menos 6 caracteres" }),
   ("confirmPassword", { noRules with required := .str "Confirmar contraseña es requerido",
                                      matchMessage := .str "Las contraseñas no coinciden" }),
   ("fullName", { noRules with required := .str "El nombre completo es requerido",
                               minLength := .num 2,
                               minLengthMessage :=
                                 .str "El nombre debe tener al menos 2 caracteres" }),
   ("acceptTerms", { noRules with required := .str "Debes aceptar los términos y condiciones" })]

/-- Own property lookup in a schema. -/
def rulesOf (fieldName : String) : Schema → Option FieldRules
  | [] => none
  | (k, rules) :: rest => if k = fieldName then some rules else rulesOf fieldName rest

/-- The state of the hook: `values`, `errors` and `touched`, each an object
given by its properties. -/
structure State where
  values : List (String × Val)
  errors : List (String × Val)
  touched : List (String × Val)

/-- The condition `!value || value.toString().trim() === ''`. -/
def isBlank (value : Val) : Except String Bool :=
  if !truthy value then .ok true
  else
    match toStr value with
    | .error e => .error e
    | .ok s => .ok (trimChars s.data).isEmpty

/-- The function `validateField`, lines 16-64: the error message or `null`
returned, or the error thrown. -/
def validateField (h : Host) (validationSchema : Schema) (fieldName : String) (value : Val)
    (allValues : List (String × Val)) : Except String Val :=
  match (rulesOf fieldName validationSchema).orElse
      (fun _ => rulesOf fieldName VALIDATION_RULES) with
  | none => .ok .null
  | some fieldRules =>
    match (if truthy fieldRules.required then isBlank value else .ok false) with
    | .error e => .error e
    | .ok true =>
      .ok (if isString fieldRules.required then fieldRules.required
           else .str (fieldName ++ " es requerido"))
    | .ok false =>
      match (if truthy fieldRules.minLength && truthy value then
          lessThan h (lengthOf value) fieldRules.minLength else .ok false) with
      | .error e => .error e
      | .ok true =>
        if truthy fieldRules.minLengthMessage then .ok fieldRules.minLengthMessage
        else
          match toStr fieldRules.minLength with
          | .error e => .error e
          | .ok n => .ok (.str ("Debe tener al menos " ++ n ++ " caracteres"))
      | .ok false =>
        match (match fieldRules.pattern with
            | some test =>
              if truthy value then
                match toStr value with
                | .error e => .error e
                | .ok s => .ok (!test s)
              else .ok false
            | none => .ok false : Except String Bool) with
        | .error e => .error e
        | .ok true => .ok (JS.or fieldRules.patternMessage (.str "Formato inválido"))
        | .ok false =>
          match fieldRules.validate with
          | some validate => validate value allValues
          | none =>
            if fieldName = "confirmPassword" &&
                !strictEq value ((lookup "password" allValues).getD .undefined) then
              .ok (JS.or fieldRules.matchMessage (.str "Las contraseñas no coinciden"))
            else if fieldName = "acceptTerms" && !truthy value then .ok fieldRules.required
            else .ok .null

/-- The loop of `validateForm`, lines 78-88, from the object `newErrors` and
the flag built so far. -/
def validateFields (h : Host) (validationSchema : Schema)
    (valuesToValidate : List (String × Val)) :
    List (String × Val) → Bool → List String → Except String (List (String × Val) × Bool)
  | newErrors, isValid, [] => .ok (newErrors, isValid)
  | newErrors, isValid, fieldName :: rest =>
    match validateField h validationSchema fieldName
        ((lookup fieldName valuesToValidate).getD .undefined) valuesToValidate with
    | .error e => .error e
    | .ok error =>
      if truthy error then
        validateFields h validationSchema valuesToValidate (setKey fieldName error newErrors)
          false rest
      else validateFields h validationSchema valuesToValidate newErrors isValid rest

/-- The function `validateForm`, lines 67-94, called with `valuesToValidate`
(by default the current `values`): the state after the call and the value
returned, or the error thrown. -/
def validateForm (h : Host) (validationSchema : Schema) (state : State)
    (valuesToValidate : List (String × Val)) : Except String (State × Bool) :=
  let fieldsToValidate :=
    if (validationSchema.map Prod.fst).length > 0 then validationSchema.map Prod.fst
    else valuesToValidate.map Prod.fst
  match validateFields h validationSchema valuesToValidate [] true fieldsToValidate with
  | .error e => .error e
  | .ok (newErrors, isValid) => .ok ({ state with errors := newErrors }, isValid)

/-- The function `handleChange`, lines 97-110: the error of the field, when
there is one, is replaced by `null`. -/
def handleChange (state : State) (fieldName : String) (value : Val) : State :=
  { values := setKey fieldName value state.values
    errors :=
      if truthy ((lookup fieldName state.errors).getD .undefined) then
        setKey fieldName .null state.errors
      else state.errors
    touched := setKey fieldName (.bool true) state.touched }

/-- The function `handleBlur`, lines 113-124. -/
def handleBlur (h : Host) (validationSchema : Schema) (state : State) (fieldName : String) :
    Except String State :=
  match validateField h validationSchema fieldName
      ((lookup fieldName state.values).getD .undefined) state.values with
  | .error e => .error e
  | .ok error =>
    .ok { values := state.values
          errors := if truthy error then setKey fieldName error state.errors else state.errors
          touched := setKey fieldName (.bool true) state.touched }

/-- The function `resetForm`, lines 127-134, called with `newValues`. -/
def resetForm (newValues : List (String × Val)) : State :=
  { values := newValues, errors := [], touched := [] }

/-- The function `setServerErrors`, lines 137-139. -/
def setServerErrors (state : State) (serverErrors : Val) : State :=
  { state with errors := spread state.errors serverErrors }

/-- The property `isValid` of the object the hook returns, line 160. -/
def isValid (state : State) : Bool := decide ((state.errors.map Prod.fst).length = 0)

/-- The property `hasErrors` of the object the hook returns, line 161. -/
def hasErrors (state : State) : Bool := decide ((state.errors.map Prod.fst).length > 0)

/-- No field has an error message: every entry of `errors` is `null` (or
`undefined`). -/
def NoErrorMessage (state : State) : Prop :=
  ∀ entry ∈ state.errors, nullish entry.2 = true

end UseFormValidation

namespace Examples

open JS

/-- The workflow of the email example: one sticky note with the marker and a
required email parameter. -/
def emailWorkflow : Val :=
  workflow "w-email" [stickyNote "n1" "Form"
    "UI_METADATA \x7b\"parameters\":[\x7b\"name\":\"email\",\"type\":\"email\",\"label\":\"Email\",\"required\":true\x7d]\x7d"]

/-- A form state with the given form data, before any validation. -/
def freshState (formData : List (String × Val)) : DynamicForm.FormState :=
  { formData := formData, fieldErrors := [], isValid := false, hasBeenValidated := false }

/-- A workflow with a webhook node that has no `path`. -/
def webhookWorkflow (id : Val) : Val :=
  .obj [("id", id), ("name", .str "Hook"),
        ("nodes", .arr [.obj [("type", .str "n8n-nodes-base.webhook"),
                              ("parameters", .obj [])]])]

/-- A workflow with a webhook node and no `id`. -/
def webhookWorkflowNoId : Val :=
  .obj [("name", .str "Hook"),
        ("nodes", .arr [.obj [("type", .str "n8n-nodes-base.webhook"),
                              ("parameters", .obj [])]])]

/-- A workflow whose trigger is a manual trigger. -/
def manualWorkflow : Val :=
  .obj [("id", .str "w-manual"), ("name", .str "Manual"),
        ("nodes", .arr [.obj [("type", .str "n8n-nodes-base.manualTrigger"),
                              ("position", .arr [.num 0, .num 0])]])]

/-- A workflow whose trigger is a schedule trigger. -/
def scheduledWorkflow : Val :=
  .obj [("id", .str "w-cron"), ("name", .str "Nightly"),
        ("nodes", .arr [.obj [("type", .str "n8n-nodes-base.scheduleTrigger"),
                              ("position", .arr [.num 0, .num 0])]])]

/-- A workflow without `id`, `versionId` and `updatedAt` whose sticky note
holds valid metadata. -/
def anonymousWorkflow : Val :=
  .obj [("name", .str "Draft"),
        ("nodes", .arr [stickyNote "n1" "Form" "UI_METADATA \x7b\"parameters\":[]\x7d"])]

/-- Two workflows with the same `id` and `versionId`: the first has no sticky
note, the second one with valid metadata. -/
def versionedEmpty : Val :=
  .obj [("id", .str "w1"), ("versionId", .str "v1"), ("nodes", .arr [])]

/-- See `versionedEmpty`. -/
def versionedWithMetadata : Val :=
  .obj [("id", .str "w1"), ("versionId", .str "v1"),
        ("nodes", .arr [stickyNote "n1" "Form" "UI_METADATA \x7b\"parameters\":[]\x7d"])]

/-- An environment of `_formatWorkflowInputData`. -/
def environment : UseWorkflows.Environment :=
  { timestamp := "2025-01-01T00:00:00.000Z", executedAt := "2025-01-01T00:00:00.001Z",
    userAgent := "Mozilla/5.0", origin := "https://app.example.com",
    environment := .str "production" }

/-- A number field that is not required. -/
def ageField : Val :=
  .obj [("name", .str "edad"), ("type", .str "number"), ("label", .str "Edad")]

/-- The state of `useFormValidation` with the only value `email: ''`. -/
def emptyEmailState : UseFormValidation.State :=
  UseFormValidation.resetForm [("email", .str "")]

end Examples

/-! ## Predicates and inputs for `filterWorkflows` -/

namespace WorkflowUtils

open JS

/-- The execution type of a workflow, 'unknown' where
`getWorkflowExecutionType` throws. -/
def executionTypeOf (h : Host) (workflow : Val) : String :=
  match getWorkflowExecutionType h workflow with
  | .ok executionType => executionType
  | .error _ => "unknown"

/-- Whether an execution type passes the filter value `executionType`: the
three types pass their own name, 'ejecutables' lets webhook and manual pass,
'no-ejecutables' scheduled and unknown, and any other value lets every type
pass. -/
def executionTypeAllowed (filter : Val) (executionType : String) : Bool :=
  match filter with
  | .str "webhook" => executionType = "webhook"
  | .str "manual" => executionType = "manual"
  | .str "scheduled" => executionType = "scheduled"
  | .str "ejecutables" => executionType = "webhook" || executionType = "manual"
  | .str "no-ejecutables" => executionType = "scheduled" || executionType = "unknown"
  | _ => true

/-- Whether a non-empty string value, lower-cased, contains the search term. -/
def textHasTerm (h : Host) (searchTerm : List Char) : Val → Bool
  | .str s => s ≠ "" && includesChars searchTerm (h.toLowerCase s).data
  | _ => false

/-- Whether a truthy id, printed as it is, contains the search term. -/
def idHasTerm (searchTerm : List Char) : Val → Bool
  | .str s => s ≠ "" && includesChars searchTerm s.data
  | .num n => n ≠ 0 && includesChars searchTerm (toString n).data
  | _ => false

/-- Whether the name of one of the tags contains the search term. -/
def tagsHaveTerm (h : Host) (searchTerm : List Char) : Val → Bool
  | .arr tags => tags.any (fun tag => textHasTerm h searchTerm (prop tag "name"))
  | _ => false

/-- Whether a workflow passes the filter value `status`: it is active for
'activos', not active for 'inactivos', and any other value lets it pass. -/
def statusAllowed (status workflow : Val) : Bool :=
  match status with
  | .str "activos" => strictEq (prop workflow "active") (.bool true)
  | .str "inactivos" => !strictEq (prop workflow "active") (.bool true)
  | _ => true

/-- Whether a workflow passes the filter value `search`: when that is a
string that is not blank, the name, the id or the name of one of the tags
contains the trimmed lower-cased search term. -/
def searchAllowed (h : Host) (search workflow : Val) : Bool :=
  match search with
  | .str text =>
    (trimChars text.data).isEmpty ||
      (textHasTerm h (trimChars (h.toLowerCase text).data) (prop workflow "name") ||
       idHasTerm (trimChars (h.toLowerCase text).data) (prop workflow "id") ||
       tagsHaveTerm h (trimChars (h.toLowerCase text).data) (prop workflow "tags"))
  | _ => true

/-- The workflow satisfies every active filter: it is not archived unless
`showArchived` is `true`, and it passes the filters `status`,
`executionType` and `search`. -/
def satisfiesFilters (h : Host) (filters workflow : Val) : Bool :=
  (strictEq (prop filters "showArchived") (.bool true) ||
    !strictEq (prop workflow "isArchived") (.bool true)) &&
  statusAllowed (prop filters "status") workflow &&
  executionTypeAllowed (prop filters "executionType") (executionTypeOf h workflow) &&
  searchAllowed h (prop filters "search") workflow

/-- The property is absent or a string. -/
def OptionalString (v : Val) : Prop := v = .undefined ∨ ∃ s, v = .str s

/-- A workflow as the n8n API returns it: an object whose `name` is a string,
whose `id` is a string or a number, whose `tags` are an array of objects with
a string `name`, and whose `nodes` are an array of objects with a string
`type`, each of them possibly absent. -/
def WellFormedWorkflow (workflow : Val) : Prop :=
  (∃ props, workflow = .obj props) ∧
  OptionalString (prop workflow "name") ∧
  (OptionalString (prop workflow "id") ∨ ∃ n, prop workflow "id" = .num n) ∧
  (prop workflow "tags" = .undefined ∨
    ∃ tags, prop workflow "tags" = .arr tags ∧
      ∀ tag ∈ tags, (∃ props, tag = .obj props) ∧ OptionalString (prop tag "name")) ∧
  (prop workflow "nodes" = .undefined ∨
    ∃ nodes, prop workflow "nodes" = .arr nodes ∧
      ∀ node ∈ nodes, (∃ props, node = .obj props) ∧ OptionalString (prop node "type"))

/-- A filters object: an object, or `undefined`, whose `search` is a string
or absent. -/
def WellFormedFilters (filters : Val) : Prop :=
  (filters = .undefined ∨ ∃ props, filters = .obj props) ∧
  OptionalString (prop filters "search")

end WorkflowUtils

namespace Examples

open JS

/-- A workflow with a name, tags and a manual trigger. -/
def taggedWorkflow : Val :=
  .obj [("id", .num 7), ("name", .str "Email Digest"), ("active", .bool true),
        ("tags", .arr [.obj [("name", .str "Ventas")]]),
        ("nodes", .arr [.obj [("type", .str "n8n-nodes-base.manualTrigger"),
                              ("position", .arr [.num 0, .num 0])]])]

end Examples

/-! ## Further definitions: collation on the names that occur, the form's
handlers, arrays on a heap -/

namespace MetadataExtractor

open JS

/-- The `group` names of the normalized accepted entries of a raw array. -/
def acceptedGroupNames (items : List Val) : List String :=
  (items.filter validateParameter).map (fun p => groupName (normalizeParameter p))

/-- The comparison `localeCompare` is a linear order on the given names: on
them it is total and transitive, and no two different names compare as equal
(or as less both ways). -/
def CollationIsLinearOn (h : Host) (names : List String) : Prop :=
  (∀ s ∈ names, ∀ t ∈ names, h.localeCompare s t ≤ 0 ∨ h.localeCompare t s ≤ 0) ∧
  (∀ s ∈ names, ∀ t ∈ names, ∀ u ∈ names,
    h.localeCompare s t ≤ 0 → h.localeCompare t u ≤ 0 → h.localeCompare s u ≤ 0) ∧
  (∀ s ∈ names, ∀ t ∈ names, h.localeCompare s t ≤ 0 → h.localeCompare t s ≤ 0 → s = t)

end MetadataExtractor

namespace DynamicForm

open JS

/-- The loop of the mount effect, lines 24-35, from the object `initialData`
built so far: every parameter gets its `defaultValue`, or '' when that is
falsy. -/
def initialEach : List (String × Val) → List Val → Except String (List (String × Val))
  | initialData, [] => .ok initialData
  | initialData, param :: rest =>
    match getProp param "type" with
    | .error e => .error e
    | .ok type =>
      match toStr (prop param "name") with
      | .error e => .error e
      | .ok key =>
        initialEach
          (setKey key
            (if strictEq type (.str "select") && truthy (prop param "defaultValue") then
              prop param "defaultValue"
             else JS.or (prop param "defaultValue") (.str "")) initialData) rest

/-- The object that the mount effect, lines 24-35, stores as `formData`. -/
def initialData (parameters : List Val) : Except String (List (String × Val)) :=
  initialEach [] parameters

/-- The handler `handleFieldChange`, lines 149-158. -/
def handleFieldChange (state : FormState) (fieldName : String) (value : Val) : FormState :=
  { state with formData := setKey fieldName value state.formData }

/-- The handler `handleFieldBlur`, lines 160-181: the value is stored and the
errors of the one field are replaced. -/
def handleFieldBlur (h : Host) (parameters : List Val) (state : FormState)
    (fieldName : String) (value : Val) : Except String FormState :=
  match arrayFind (fun p =>
      match getProp p "name" with
      | .error e => .error e
      | .ok name => .ok (strictEq name (.str fieldName))) parameters with
  | .error e => .error e
  | .ok none => .ok { state with formData := setKey fieldName value state.formData }
  | .ok (some param) =>
    if truthy param then
      match validateSingleField h param value with
      | .error e => .error e
      | .ok errors =>
        .ok { state with formData := setKey fieldName value state.formData
                         fieldErrors := setErrors fieldName errors state.fieldErrors }
    else .ok { state with formData := setKey fieldName value state.formData }

end DynamicForm

namespace WorkflowUtils

open JS

/-- The arrays of the heap, by address. The input array of `filterWorkflows`
is one of them; every array the function creates gets the next free address.
The workflow objects themselves are values: the code only reads them. -/
abbrev Heap := List (List Val)

/-- The elements of the array at an address. -/
def readArray (heap : Heap) (address : Nat) : List Val := (heap[address]?).getD []

/-- A new array with the given elements: the heap after the allocation and
the address of the array. -/
def newArray (heap : Heap) (items : List Val) : Heap × Nat := (heap ++ [items], heap.length)

/-- The statement `filtered = filtered.filter(callback)` inside an `if` whose
condition is `run`: `filter` reads the array that `filtered` names and returns
a new array, which `filtered` names from then on. The state is the heap and the
address that the variable `filtered` holds. -/
def reassignFiltered (run : Bool) (callback : List Val → Except String (List Val))
    (state : Heap × Nat) : Except String (Heap × Nat) :=
  if run then
    match callback (readArray state.1 state.2) with
    | .error e => .error e
    | .ok kept => .ok (newArray state.1 kept)
  else .ok state

/-- The block of lines 316-329 on the heap. -/
def searchOnHeap (h : Host) (search : Val) (state : Heap × Nat) : Except String (Heap × Nat) :=
  if truthy search then
    match search with
    | .str text =>
      reassignFiltered (!(trimChars text.data).isEmpty)
        (MetadataExtractor.arrayFilter
          (searchMatches h (trimChars (h.toLowerCase text).data))) state
    | _ => .error "filters.search.trim is not a function"
  else .ok state

/-- The function `filterWorkflows`, lines 270-332, with its arrays on the
heap, called with the array at the address `workflows`: the heap after the
call and the address of the returned array, or the error thrown.
`[...workflows]` makes the first new array; every `filter` makes a further
one. -/
def filterWorkflowsOnHeap (h : Host) (heap : Heap) (workflows : Nat) (filters : Val) :
    Except String (Heap × Nat) :=
  let filters := if strictEq filters .undefined then Val.obj [] else filters
  match getProp filters "showArchived" with
  | .error e => .error e
  | .ok showArchived =>
    match reassignFiltered (!strictEq showArchived (.bool true))
        (fun filtered => .ok (filtered.filter (fun workflow => !isWorkflowArchived workflow)))
        (newArray heap (readArray heap workflows)) with
    | .error e => .error e
    | .ok shown =>
      match reassignFiltered
          (truthy (prop filters "status") && !strictEq (prop filters "status") (.str "todos"))
          (fun filtered => .ok (filtered.filter (statusMatches (prop filters "status"))))
          shown with
      | .error e => .error e
      | .ok byStatus =>
        match reassignFiltered
            (truthy (prop filters "executionType") &&
              !strictEq (prop filters "executionType") (.str "todos"))
            (MetadataExtractor.arrayFilter
              (executionTypeFilter h (prop filters "executionType")))
            byStatus with
        | .error e => .error e
        | .ok byType => searchOnHeap h (prop filters "search") byType

end WorkflowUtils

namespace Examples

open JS

/-- A percentage field that is not required. -/
def percentField : Val :=
  .obj [("name", .str "descuento"), ("type", .str "percentage"), ("label", .str "Descuento")]

end Examples

/-! ## Lemmas on the value model -/

namespace JS

theorem includes_str (xs : List String) (s : String) :
    includes xs (.str s) = true ↔ s ∈ xs := by
  induction xs with
  | nil => simp [includes]
  | cons x xs ih =>
    simp only [includes, List.any_cons, Bool.or_eq_true, List.mem_cons] at ih ⊢
    rw [ih]
    simp [strictEq, eq_comm]

theorem strictEq_eq {a b : Val} (hab : strictEq a b = true) : a = b := by
  cases a <;> cases b <;> simp_all [strictEq]

theorem lookup_setKey (k k' : String) (v : Val) (l : List (String × Val)) :
    lookup k (setKey k' v l) = if k' = k then some v else lookup k l := by
  induction l with
  | nil => simp [setKey, lookup]
  | cons kv rest ih =>
    obtain ⟨k1, v1⟩ := kv
    by_cases h1 : k1 = k' <;> by_cases h2 : k' = k <;> by_cases h3 : k1 = k <;>
      simp_all [setKey, lookup]

theorem lookup_eq_none_of_not_mem (k : String) (ps : List (String × Val))
    (hk : k ∉ ps.map Prod.fst) : lookup k ps = none := by
  induction ps with
  | nil => rfl
  | cons kv rest ih =>
    obtain ⟨k1, v1⟩ := kv
    simp only [List.map_cons, List.mem_cons, not_or] at hk
    simp only [lookup]
    rw [if_neg (fun e => hk.1 e.symm)]
    exact ih hk.2

theorem lookup_spread (k : String) (ps target : List (String × Val))
    (hnodup : (ps.map Prod.fst).Nodup) :
    lookup k (ps.foldl (fun acc kv => setKey kv.1 kv.2 acc) target) =
      match lookup k ps with
      | some v => some v
      | none => lookup k target := by
  induction ps generalizing target with
  | nil => rfl
  | cons kv rest ih =>
    obtain ⟨k1, v1⟩ := kv
    simp only [List.map_cons, List.nodup_cons] at hnodup
    simp only [List.foldl_cons, lookup]
    rw [ih _ hnodup.2, lookup_setKey]
    by_cases h1 : k1 = k
    · subst h1
      rw [lookup_eq_none_of_not_mem _ _ hnodup.1]
      simp
    · simp [h1]

theorem mem_setKey {k : String} {v : Val} {l : List (String × Val)} {kv : String × Val}
    (hkv : kv ∈ setKey k v l) : kv = (k, v) ∨ kv ∈ l := by
  induction l with
  | nil => simp [setKey] at hkv; exact Or.inl hkv
  | cons x rest ih =>
    obtain ⟨k1, v1⟩ := x
    unfold setKey at hkv
    by_cases h1 : k1 = k
    · rw [if_pos h1] at hkv
      rcases List.mem_cons.mp hkv with h | h
      · exact Or.inl h
      · exact Or.inr (List.mem_cons_of_mem _ h)
    · rw [if_neg h1] at hkv
      rcases List.mem_cons.mp hkv with h | h
      · exact Or.inr (h ▸ List.mem_cons_self _ _)
      · rcases ih h with h' | h'
        · exact Or.inl h'
        · exact Or.inr (List.mem_cons_of_mem _ h')

theorem nodup_keys_setKey (k : String) (v : Val) (l : List (String × Val))
    (hl : (l.map Prod.fst).Nodup) : ((setKey k v l).map Prod.fst).Nodup := by
  induction l with
  | nil => simp [setKey]
  | cons x rest ih =>
    obtain ⟨k1, v1⟩ := x
    simp only [List.map_cons, List.nodup_cons] at hl
    unfold setKey
    by_cases h1 : k1 = k
    · rw [if_pos h1]
      simp only [List.map_cons, List.nodup_cons]
      exact ⟨h1 ▸ hl.1, hl.2⟩
    · rw [if_neg h1]
      simp only [List.map_cons, List.nodup_cons]
      refine ⟨?_, ih hl.2⟩
      intro hmem
      obtain ⟨kv, hkv, hfst⟩ := List.mem_map.mp hmem
      rcases mem_setKey hkv with h | h
      · rw [h] at hfst; exact h1 hfst.symm
      · exact hl.1 (List.mem_map.mpr ⟨kv, h, hfst⟩)

theorem lookup_mem {k : String} {v : Val} {l : List (String × Val)}
    (hl : lookup k l = some v) : (k, v) ∈ l := by
  induction l with
  | nil => simp [lookup] at hl
  | cons x rest ih =>
    obtain ⟨k1, v1⟩ := x
    unfold lookup at hl
    by_cases h1 : k1 = k
    · rw [if_pos h1] at hl
      injection hl with hl
      rw [h1, hl]; exact List.mem_cons_self _ _
    · rw [if_neg h1] at hl
      exact List.mem_cons_of_mem _ (ih hl)

theorem orderedInsertM_eq (cmp : Val → Val → Except String Int) (r : Val → Val → Prop)
    [DecidableRel r] (a : Val) (l : List Val)
    (hcmp : ∀ b ∈ l, ∃ c, cmp a b = .ok c ∧ (c ≤ 0 ↔ r a b)) :
    orderedInsertM cmp a l = .ok (l.orderedInsert r a) := by
  induction l with
  | nil => rfl
  | cons b rest ih =>
    obtain ⟨c, hc, hiff⟩ := hcmp b (List.mem_cons_self _ _)
    have ih' := ih (fun x hx => hcmp x (List.mem_cons_of_mem _ hx))
    simp only [orderedInsertM, hc, List.orderedInsert]
    by_cases hle : c ≤ 0
    · rw [if_pos hle, if_pos (hiff.mp hle)]
    · rw [if_neg hle, if_neg (fun hr => hle (hiff.mpr hr)), ih']

theorem sortM_eq (cmp : Val → Val → Except String Int) (r : Val → Val → Prop)
    [DecidableRel r] (l : List Val)
    (hcmp : ∀ a ∈ l, ∀ b ∈ l, ∃ c, cmp a b = .ok c ∧ (c ≤ 0 ↔ r a b)) :
    sortM cmp l = .ok (l.insertionSort r) := by
  induction l with
  | nil => rfl
  | cons a rest ih =>
    have ih' := ih (fun x hx y hy =>
      hcmp x (List.mem_cons_of_mem _ hx) y (List.mem_cons_of_mem _ hy))
    simp only [sortM, ih', List.insertionSort]
    apply orderedInsertM_eq
    intro b hb
    exact hcmp a (List.mem_cons_self _ _) b
      (List.mem_cons_of_mem _ ((List.mem_insertionSort r).mp hb))

end JS

/-! ## `validateParameter` and `processParameters` -/

namespace MetadataExtractor

open JS Examples

theorem truthy_and_isString (v : Val) :
    (truthy v = true ∧ isString v = true) ↔ IsNonEmptyString v := by
  cases v <;> simp [truthy, isString, IsNonEmptyString]

theorem validateParameter_eq_true (p : Val) :
    validateParameter p = true ↔
      (truthy p = true ∧ typeofObject p = true) ∧
      (truthy (prop p "name") = true ∧ isString (prop p "name") = true) ∧
      (truthy (prop p "type") = true ∧ isString (prop p "type") = true) ∧
      (truthy (prop p "label") = true ∧ isString (prop p "label") = true) ∧
      includes supportedTypes (prop p "type") = true ∧
      (includes ["select", "radio", "checkboxGroup"] (prop p "type") = true →
        truthy (prop p "options") = true ∧ isArray (prop p "options") = true) := by
  unfold validateParameter
  simp only [requiredFields, List.any_cons, List.any_nil, Bool.or_false]
  generalize truthy p = b1
  generalize typeofObject p = b2
  generalize truthy (prop p "name") = b3
  generalize isString (prop p "name") = b4
  generalize truthy (prop p "type") = b5
  generalize isString (prop p "type") = b6
  generalize truthy (prop p "label") = b7
  generalize isString (prop p "label") = b8
  generalize includes supportedTypes (prop p "type") = b9
  generalize includes ["select", "radio", "checkboxGroup"] (prop p "type") = b10
  generalize truthy (prop p "options") = b11
  generalize isArray (prop p "options") = b12
  split_ifs with h1 h2 h3 h4 h5 <;> simp_all <;> intros <;> simp_all

theorem validateParameter_true_iff (p : Val) :
    validateParameter p = true ↔ ValidParameterSpec p := by
  rw [validateParameter_eq_true]
  unfold ValidParameterSpec
  rw [truthy_and_isString, truthy_and_isString, truthy_and_isString]
  constructor
  · rintro ⟨⟨hp, ho⟩, hn, ht, hl, hs, hopt⟩
    obtain ⟨t, ht', hne⟩ := ht
    refine ⟨?_, hn, ⟨t, ht', hne⟩, hl, ?_, ?_⟩
    · cases p <;> simp_all [truthy, typeofObject, IsNonNullObject]
    · rw [ht', includes_str] at hs
      exact ⟨t, hs, ht'⟩
    · intro hsel
      have : includes ["select", "radio", "checkboxGroup"] (prop p "type") = true := by
        rw [ht', includes_str]
        rcases hsel with h | h | h <;> rw [ht'] at h <;> injection h with h <;> simp [h]
      obtain ⟨_, harr⟩ := hopt this
      cases ho' : prop p "options" <;> simp_all [isArray]
  · rintro ⟨hobj, hn, ht, hl, ⟨t, hts, htt⟩, hopt⟩
    refine ⟨?_, hn, ht, hl, ?_, ?_⟩
    · rcases hobj with ⟨ps, rfl⟩ | ⟨items, rfl⟩ <;> simp [truthy, typeofObject]
    · rw [htt, includes_str]; exact hts
    · intro hinc
      rw [htt, includes_str] at hinc
      have : ∃ items, prop p "options" = .arr items := by
        apply hopt
        rw [htt]
        simp only [List.mem_cons, List.mem_singleton, List.not_mem_nil, or_false] at hinc
        rcases hinc with h | h | h <;> simp [h]
      obtain ⟨items, hi⟩ := this
      simp [hi, truthy, isArray]

/-- C2. `validateParameter p` returns true if and only if `p` is a non-null
object whose `name`, `type` and `label` are non-empty strings, whose `type` is
one of the 19 supported types, and whose `options` is an array whenever `type`
is select, radio or checkboxGroup; in every other case it returns false (the
function is total, it never throws). -/
theorem validateParameter_iff_spec (p : Val) :
    (validateParameter p = true ↔ ValidParameterSpec p) ∧
    (¬ ValidParameterSpec p → validateParameter p = false) := by
  refine ⟨validateParameter_true_iff p, fun hnot => ?_⟩
  cases hv : validateParameter p with
  | false => rfl
  | true => exact absurd ((validateParameter_true_iff p).mp hv) hnot

theorem order_normalize (p : Val)
    (horder : prop p "order" = .undefined ∨ ∃ n, prop p "order" = .num n) :
    prop (normalizeParameter p) "order" = .num (orderValue (normalizeParameter p)) := by
  have hrw : prop (normalizeParameter p) "order" = JS.or (prop p "order") (.num 0) := rfl
  unfold orderValue
  rw [hrw]
  rcases horder with hu | ⟨n, hn⟩
  · rw [hu]; rfl
  · rw [hn]
    by_cases h0 : n = 0
    · subst h0; rfl
    · simp [JS.or, truthy, h0]

theorem group_normalize (p : Val)
    (hgroup : prop p "group" = .undefined ∨ ∃ s, prop p "group" = .str s) :
    prop (normalizeParameter p) "group" = .str (groupName (normalizeParameter p)) := by
  have hrw : prop (normalizeParameter p) "group" = JS.or (prop p "group") (.str "default") := rfl
  unfold groupName
  rw [hrw]
  rcases hgroup with hu | ⟨s, hs⟩
  · rw [hu]; rfl
  · rw [hs]
    by_cases h0 : s = ""
    · subst h0; rfl
    · simp [JS.or, truthy, h0]

theorem compare_same_group (h : Host) (a b : Val)
    (hg : strictEq (prop a "group") (prop b "group") = true)
    (ha : prop a "order" = .num (orderValue a)) (hb : prop b "order" = .num (orderValue b)) :
    compareParameters h a b = .ok (orderValue a - orderValue b) := by
  unfold compareParameters
  rw [hg, ha, hb]
  rfl

theorem compare_typed (h : Host) (a b : Val)
    (hga : prop a "group" = .str (groupName a)) (hgb : prop b "group" = .str (groupName b))
    (ha : prop a "order" = .num (orderValue a)) (hb : prop b "order" = .num (orderValue b)) :
    ∃ c, compareParameters h a b = .ok c ∧ (c ≤ 0 ↔ SortsBefore h a b) := by
  by_cases hg : groupName a = groupName b
  · refine ⟨orderValue a - orderValue b, ?_, ?_⟩
    · apply compare_same_group h a b _ ha hb
      rw [hga, hgb, hg]; simp [strictEq]
    · unfold SortsBefore; rw [if_pos hg]; omega
  · refine ⟨h.localeCompare (groupName a) (groupName b), ?_, ?_⟩
    · unfold compareParameters
      rw [hga, hgb]
      simp [strictEq, hg, toStr]
    · unfold SortsBefore; rw [if_neg hg]

theorem sortsBefore_total (h : Host) (hlin : CollationIsLinear h) (a b : Val) :
    SortsBefore h a b ∨ SortsBefore h b a := by
  unfold SortsBefore
  by_cases hg : groupName a = groupName b
  · rw [if_pos hg, if_pos hg.symm]; exact le_total _ _
  · rw [if_neg hg, if_neg (fun e => hg e.symm)]; exact hlin.1 _ _

theorem sortsBefore_trans (h : Host) (hlin : CollationIsLinear h) (a b c : Val)
    (hab : SortsBefore h a b) (hbc : SortsBefore h b c) : SortsBefore h a c := by
  obtain ⟨_, htrans, hanti⟩ := hlin
  unfold SortsBefore at *
  by_cases h1 : groupName a = groupName b <;> by_cases h2 : groupName b = groupName c
  · rw [if_pos h1] at hab; rw [if_pos h2] at hbc; rw [if_pos (h1.trans h2)]; omega
  · rw [if_pos h1] at hab; rw [if_neg h2] at hbc
    rw [if_neg (fun e => h2 (h1 ▸ e)), h1]; exact hbc
  · rw [if_neg h1] at hab; rw [if_pos h2] at hbc
    rw [if_neg (fun e => h1 (e.trans h2.symm)), ← h2]; exact hab
  · rw [if_neg h1] at hab; rw [if_neg h2] at hbc
    by_cases h3 : groupName a = groupName c
    · exfalso
      rw [← h3] at hbc
      exact h1 (hanti _ _ hab hbc)
    · rw [if_neg h3]; exact htrans _ _ _ hab hbc

theorem dedupGroups_constant (g : Val) (hg : strictEq g g = true) (l : List (Nat × Val))
    (hl : ∀ x ∈ l, x.2 = g) (hne : l ≠ []) : ∃ i, dedupGroups l = [(i, g)] := by
  induction l with
  | nil => exact absurd rfl hne
  | cons x rest ih =>
    obtain ⟨i, v⟩ := x
    have hx : v = g := hl (i, v) (List.mem_cons_self _ _)
    subst hx
    cases rest with
    | nil => exact ⟨i, rfl⟩
    | cons y rest' =>
      obtain ⟨j, hj⟩ := ih (fun z hz => hl z (List.mem_cons_of_mem _ hz)) (by simp)
      refine ⟨i, ?_⟩
      simp only [dedupGroups] at hj ⊢
      rw [hj]
      simp [sameGroup, hg]

theorem buildGroups_one_group (g : Val) (hg : strictEq g g = true) (out : List Val)
    (hout : ∀ e ∈ out, prop e "group" = g) (hne : out ≠ []) :
    buildGroups out =
      [.obj [("name", g),
             ("label", if strictEq g (.str "default") then .str "Parámetros" else g),
             ("parameters", .arr out)]] := by
  unfold buildGroups
  obtain ⟨i, hi⟩ := dedupGroups_constant g hg
    (out.enum.map (fun ip => (ip.1, prop ip.2 "group")))
    (by
      intro x hx
      obtain ⟨ip, hip, rfl⟩ := List.mem_map.mp hx
      exact hout ip.2 (by
        have := List.mem_map_of_mem Prod.snd hip
        rwa [List.enum_map_snd] at this))
    (by
      cases out with
      | nil => exact absurd rfl hne
      | cons a rest => simp [List.enum, List.enumFrom])
  rw [hi]
  have hf : out.enum.filter (fun ip => sameGroup (ip.1, prop ip.2 "group") (i, g)) = out.enum := by
    apply List.filter_eq_self.mpr
    intro ip hip
    have hmem : ip.2 ∈ out := by
      have := List.mem_map_of_mem Prod.snd hip
      rwa [List.enum_map_snd] at this
    simp [sameGroup, hout ip.2 hmem, hg]
  simp only [List.map_cons, List.map_nil]
  rw [hf, List.enum_map_snd]

theorem codePointCompare_le (s t : String) :
    Reference.codePointCompare s t ≤ 0 ↔ s ≤ t := by
  unfold Reference.codePointCompare
  by_cases h1 : s < t
  · have h1' : s.data < t.data := String.lt_iff_toList_lt.mp h1
    rw [if_pos h1']; simp [le_of_lt h1]
  · have h1' : ¬ s.data < t.data := fun hlt => h1 (String.lt_iff_toList_lt.mpr hlt)
    rw [if_neg h1']
    by_cases h2 : s = t
    · rw [if_pos h2]; simp [h2]
    · rw [if_neg h2]
      have : ¬ s ≤ t := fun hle => h1 (lt_of_le_of_ne hle h2)
      simp [this]

theorem reference_collation_linear : CollationIsLinear Reference.host := by
  refine ⟨?_, ?_, ?_⟩
  · intro s t
    show Reference.codePointCompare s t ≤ 0 ∨ Reference.codePointCompare t s ≤ 0
    rw [codePointCompare_le, codePointCompare_le]; exact le_total s t
  · intro s t u
    show Reference.codePointCompare s t ≤ 0 → Reference.codePointCompare t u ≤ 0 →
      Reference.codePointCompare s u ≤ 0
    rw [codePointCompare_le, codePointCompare_le, codePointCompare_le]; exact le_trans
  · intro s t
    show Reference.codePointCompare s t ≤ 0 → Reference.codePointCompare t s ≤ 0 → s = t
    rw [codePointCompare_le, codePointCompare_le]; exact le_antisymm

/-- C1 (the code at the failing input). Two descriptors that `validateParameter`
accepts and whose `group` values are the numbers 1 and 2: the comparator of
the final sort calls `localeCompare` on a number, so `processParameters`
throws instead of returning the two normalized entries. On the example of the
specification (one entry without `label`, one valid entry) and on a non-array
input the function returns what the claim says. -/
theorem processParameters_throws_on_numeric_groups (h : Host) :
    validateParameter numericGroupA = true ∧ validateParameter numericGroupB = true ∧
    processParameters h (.arr [numericGroupA, numericGroupB]) =
      .error "a.group.localeCompare is not a function" ∧
    processParameters h (.arr [.obj [("name", .str "x"), ("type", .str "text")], fieldA]) =
      .ok [normalizeParameter fieldA] ∧
    processParameters h (.str "not an array") = .ok [] :=
  ⟨rfl, rfl, rfl, rfl, rfl⟩

/-- C7 (counterexample). The valid descriptor `fieldB` (order 2) precedes the
valid descriptor `fieldA` (order 1, same group) in the input, and the
normalization of `fieldA` comes first in the output. -/
theorem processParameters_reorders_input :
    validateParameter fieldB = true ∧ validateParameter fieldA = true ∧
    processParameters Reference.host (.arr [fieldB, fieldA]) =
      .ok [normalizeParameter fieldA, normalizeParameter fieldB] ∧
    normalizeParameter fieldA ≠ normalizeParameter fieldB := by
  refine ⟨rfl, rfl, rfl, ?_⟩
  intro heq
  have hname : prop (normalizeParameter fieldA) "name" = prop (normalizeParameter fieldB) "name" :=
    congrArg (fun v => prop v "name") heq
  have hab : Val.str "a" = Val.str "b" := hname
  injection hab with hab
  exact absurd hab (by decide)

theorem pairwise_orderedInsert_on {α : Type} (r : α → α → Prop) [DecidableRel r] (a : α)
    (l : List α) (htot : ∀ b ∈ l, r a b ∨ r b a)
    (htrans : ∀ x ∈ a :: l, ∀ y ∈ a :: l, ∀ z ∈ a :: l, r x y → r y z → r x z)
    (hs : l.Pairwise r) : (l.orderedInsert r a).Pairwise r := by
  induction l with
  | nil => simp
  | cons b rest ih =>
    obtain ⟨hb, hrest⟩ := List.pairwise_cons.mp hs
    simp only [List.orderedInsert]
    split_ifs with hab
    · refine List.pairwise_cons.mpr ⟨?_, hs⟩
      intro x hx
      rcases List.mem_cons.mp hx with rfl | hx'
      · exact hab
      · exact htrans a (List.mem_cons_self _ _) b (by simp) x (by simp [hx']) hab (hb x hx')
    · have hba : r b a := (htot b (List.mem_cons_self _ _)).resolve_left hab
      refine List.pairwise_cons.mpr ⟨?_, ?_⟩
      · intro x hx
        rcases (List.mem_orderedInsert r).mp hx with rfl | hx'
        · exact hba
        · exact hb x hx'
      · apply ih (fun c hc => htot c (List.mem_cons_of_mem _ hc)) _ hrest
        intro x hx y hy z hz
        apply htrans x _ y _ z _
        · rcases List.mem_cons.mp hx with rfl | h1 <;> simp [*]
        · rcases List.mem_cons.mp hy with rfl | h1 <;> simp [*]
        · rcases List.mem_cons.mp hz with rfl | h1 <;> simp [*]

theorem pairwise_insertionSort_on {α : Type} (r : α → α → Prop) [DecidableRel r] (l : List α)
    (htot : ∀ a ∈ l, ∀ b ∈ l, r a b ∨ r b a)
    (htrans : ∀ x ∈ l, ∀ y ∈ l, ∀ z ∈ l, r x y → r y z → r x z) :
    (l.insertionSort r).Pairwise r := by
  induction l with
  | nil => simp
  | cons a rest ih =>
    simp only [List.insertionSort]
    have hmem : ∀ x, x ∈ rest.insertionSort r → x ∈ rest :=
      fun x hx => (List.mem_insertionSort r).mp hx
    apply pairwise_orderedInsert_on
    · intro b hb
      exact htot a (List.mem_cons_self _ _) b (List.mem_cons_of_mem _ (hmem b hb))
    · intro x hx y hy z hz
      have hin : ∀ w, w ∈ a :: rest.insertionSort r → w ∈ a :: rest := by
        intro w hw
        rcases List.mem_cons.mp hw with rfl | h1
        · exact List.mem_cons_self _ _
        · exact List.mem_cons_of_mem _ (hmem w h1)
      exact htrans x (hin x hx) y (hin y hy) z (hin z hz)
    · exact ih (fun x hx y hy => htot x (List.mem_cons_of_mem _ hx) y (List.mem_cons_of_mem _ hy))
        (fun x hx y hy z hz => htrans x (List.mem_cons_of_mem _ hx) y
          (List.mem_cons_of_mem _ hy) z (List.mem_cons_of_mem _ hz))

theorem sortsBefore_total_on (h : Host) (names : List String)
    (hlin : CollationIsLinearOn h names) (a b : Val)
    (ha : groupName a ∈ names) (hb : groupName b ∈ names) :
    SortsBefore h a b ∨ SortsBefore h b a := by
  unfold SortsBefore
  by_cases hg : groupName a = groupName b
  · rw [if_pos hg, if_pos hg.symm]; exact le_total _ _
  · rw [if_neg hg, if_neg (fun e => hg e.symm)]; exact hlin.1 _ ha _ hb

theorem sortsBefore_trans_on (h : Host) (names : List String)
    (hlin : CollationIsLinearOn h names) (a b c : Val)
    (ha : groupName a ∈ names) (hb : groupName b ∈ names) (hc : groupName c ∈ names)
    (hab : SortsBefore h a b) (hbc : SortsBefore h b c) : SortsBefore h a c := by
  obtain ⟨_, htrans, hanti⟩ := hlin
  unfold SortsBefore at *
  by_cases h1 : groupName a = groupName b <;> by_cases h2 : groupName b = groupName c
  · rw [if_pos h1] at hab; rw [if_pos h2] at hbc; rw [if_pos (h1.trans h2)]; omega
  · rw [if_pos h1] at hab; rw [if_neg h2] at hbc
    rw [if_neg (fun e => h2 (h1 ▸ e)), h1]; exact hbc
  · rw [if_neg h1] at hab; rw [if_pos h2] at hbc
    rw [if_neg (fun e => h1 (e.trans h2.symm)), ← h2]; exact hab
  · rw [if_neg h1] at hab; rw [if_neg h2] at hbc
    by_cases h3 : groupName a = groupName c
    · exfalso
      rw [← h3] at hbc
      exact h1 (hanti _ ha _ hb hab hbc)
    · rw [if_neg h3]; exact htrans _ ha _ hb _ hc hab hbc

theorem collationIsLinearOn_of_linear (h : Host) (hlin : CollationIsLinear h)
    (names : List String) : CollationIsLinearOn h names :=
  ⟨fun s _ t _ => hlin.1 s t, fun s _ t _ u _ => hlin.2.1 s t u, fun s _ t _ => hlin.2.2 s t⟩

/-- C7 (amended). For descriptors whose `group` is a string or absent and
whose `order` is a number or absent, and a `localeCompare` that is a linear
order on the group names that occur among the accepted entries (total,
transitive, and no two different names comparing as equal),
`processParameters` returns the normalized accepted entries rearranged (a
permutation) so that they are sorted by group and, within a group, by
ascending `order`; the sort is stable: every sequence of accepted entries that
is already in sorted order keeps its input order in the output, in particular
two entries with the same group and order. -/
theorem processParameters_sorted_by_group_then_order (h : Host) (items : List Val)
    (hlin : CollationIsLinearOn h (acceptedGroupNames items))
    (htyped : ∀ p ∈ items, validateParameter p = true → WellTyped p) :
    ∃ out, processParameters h (.arr items) = .ok out ∧
      out.Perm ((items.filter validateParameter).map normalizeParameter) ∧
      out.Pairwise (SortsBefore h) ∧
      ∀ c : List Val, c.Sublist ((items.filter validateParameter).map normalizeParameter) →
        c.Pairwise (SortsBefore h) → c.Sublist out := by
  have hnames : ∀ a ∈ (items.filter validateParameter).map normalizeParameter,
      groupName a ∈ acceptedGroupNames items := by
    intro a ha
    obtain ⟨p, hp, rfl⟩ := List.mem_map.mp ha
    exact List.mem_map.mpr ⟨p, hp, rfl⟩
  have hsort : sortM (compareParameters h) ((items.filter validateParameter).map normalizeParameter)
      = .ok (((items.filter validateParameter).map normalizeParameter).insertionSort (SortsBefore h)) := by
    apply sortM_eq
    intro a ha b hb
    obtain ⟨p, hp, rfl⟩ := List.mem_map.mp ha
    obtain ⟨q, hq, rfl⟩ := List.mem_map.mp hb
    rw [List.mem_filter] at hp hq
    obtain ⟨hpg, hpo⟩ := htyped p hp.1 hp.2
    obtain ⟨hqg, hqo⟩ := htyped q hq.1 hq.2
    exact compare_typed h _ _ (group_normalize p hpg) (group_normalize q hqg)
      (order_normalize p hpo) (order_normalize q hqo)
  refine ⟨_, hsort, List.perm_insertionSort _ _, ?_, ?_⟩
  · apply pairwise_insertionSort_on
    · intro a ha b hb
      exact sortsBefore_total_on h _ hlin a b (hnames a ha) (hnames b hb)
    · intro a ha b hb c hc
      exact sortsBefore_trans_on h _ hlin a b c (hnames a ha) (hnames b hb) (hnames c hc)
  · intro c hc hp
    exact List.sublist_insertionSort hp hc

/-- Witness of C7 (amended): the reference host, whose comparison by code
points is a linear order, on the input `fieldB`, an entry without `label`,
`fieldA`. -/
theorem processParameters_sorted_by_group_then_order_witness :
    CollationIsLinearOn Reference.host
      (acceptedGroupNames [fieldB, .obj [("name", .str "x"), ("type", .str "text")], fieldA]) ∧
    ∃ out, processParameters Reference.host
        (.arr [fieldB, .obj [("name", .str "x"), ("type", .str "text")], fieldA]) = .ok out ∧
      out.Perm (([fieldB, .obj [("name", .str "x"), ("type", .str "text")], fieldA].filter
        validateParameter).map normalizeParameter) ∧
      out.Pairwise (SortsBefore Reference.host) ∧
      ∀ c : List Val, c.Sublist
        (([fieldB, .obj [("name", .str "x"), ("type", .str "text")], fieldA].filter
          validateParameter).map normalizeParameter) →
        c.Pairwise (SortsBefore Reference.host) → c.Sublist out :=
  ⟨collationIsLinearOn_of_linear _ reference_collation_linear _,
   processParameters_sorted_by_group_then_order Reference.host
     [fieldB, .obj [("name", .str "x"), ("type", .str "text")], fieldA]
     (collationIsLinearOn_of_linear _ reference_collation_linear _)
     (by
       intro p hp _
       simp only [List.mem_cons, List.mem_singleton, List.not_mem_nil, or_false] at hp
       rcases hp with rfl | rfl | rfl
       · exact ⟨Or.inr ⟨_, rfl⟩, Or.inr ⟨_, rfl⟩⟩
       · exact ⟨Or.inl rfl, Or.inl rfl⟩
       · exact ⟨Or.inr ⟨_, rfl⟩, Or.inr ⟨_, rfl⟩⟩)⟩

/-- C8. A valid raw descriptor that supplies only `name`, `type: "text"` and
`label` is normalized to an entry with `required` false, `placeholder` and
`defaultValue` the empty string, `group` "default", `order` 0, `ui.width`
"full", `ui.rows` 3, and with every recognised key of `ui` (width, icon, rows,
helpText) and of `validation` (pattern, message, min, max, minLength,
maxLength, minSelected, maxSelected, maxFiles, maxSize) present. -/
theorem processParameters_default_injection (h : Host) (p : Val) (name label : String)
    (hname : prop p "name" = .str name) (hne : name ≠ "")
    (htype : prop p "type" = .str "text")
    (hlabel : prop p "label" = .str label) (hle : label ≠ "")
    (hrest : ∀ k ∈ ["required", "placeholder", "defaultValue", "group", "order", "ui",
      "validation", "options"], prop p k = .undefined) :
    processParameters h (.arr [p]) = .ok [.obj [
      ("name", .str name), ("type", .str "text"), ("label", .str label),
      ("required", .bool false), ("placeholder", .str ""), ("defaultValue", .str ""),
      ("group", .str "default"), ("order", .num 0),
      ("ui", .obj [("width", .str "full"), ("icon", .null), ("rows", .num 3),
                   ("helpText", .str "")]),
      ("validation", .obj [("pattern", .null), ("message", .str ""), ("min", .null),
                   ("max", .null), ("minLength", .null), ("maxLength", .null),
                   ("minSelected", .null), ("maxSelected", .null), ("maxFiles", .null),
                   ("maxSize", .null)]),
      ("options", .arr []), ("_original", p)]] := by
  have hobj : ∃ props, p = .obj props := by
    cases p <;> simp_all [JS.prop]
  have hv : validateParameter p = true := by
    rw [validateParameter_eq_true]
    obtain ⟨props, rfl⟩ := hobj
    rw [hname, htype, hlabel]
    refine ⟨⟨rfl, rfl⟩, ⟨?_, rfl⟩, ⟨rfl, rfl⟩, ⟨?_, rfl⟩, rfl, ?_⟩
    · simp [truthy, hne]
    · simp [truthy, hle]
    · intro hsel
      exact absurd hsel (by decide)
  simp only [List.mem_cons, List.mem_singleton, List.not_mem_nil, or_false, forall_eq_or_imp,
    forall_eq] at hrest
  obtain ⟨h1, h2, h3, h4, h5, h6, h7, h8⟩ := hrest
  unfold processParameters
  simp only [List.filter, hv, List.map, sortM, orderedInsertM]
  unfold normalizeParameter
  rw [hname, htype, hlabel, h1, h2, h3, h4, h5, h6, h7, h8]
  rfl

/-- Witness of C8: the descriptor `{name: "email", type: "text", label:
"Email"}`. -/
theorem processParameters_default_injection_witness :
    processParameters Reference.host (.arr [textField "email" "Email" []]) = .ok [.obj [
      ("name", .str "email"), ("type", .str "text"), ("label", .str "Email"),
      ("required", .bool false), ("placeholder", .str ""), ("defaultValue", .str ""),
      ("group", .str "default"), ("order", .num 0),
      ("ui", .obj [("width", .str "full"), ("icon", .null), ("rows", .num 3),
                   ("helpText", .str "")]),
      ("validation", .obj [("pattern", .null), ("message", .str ""), ("min", .null),
                   ("max", .null), ("minLength", .null), ("maxLength", .null),
                   ("minSelected", .null), ("maxSelected", .null), ("maxFiles", .null),
                   ("maxSize", .null)]),
      ("options", .arr []), ("_original", textField "email" "Email" [])]] :=
  processParameters_default_injection Reference.host (textField "email" "Email" [])
    "email" "Email" rfl (by decide) rfl rfl (by decide)
    (by
      intro k hk
      simp only [List.mem_cons, List.mem_singleton, List.not_mem_nil, or_false] at hk
      rcases hk with rfl | rfl | rfl | rfl | rfl | rfl | rfl | rfl <;> rfl)

/-- C9. For valid descriptors that share one group (and whose `order` is a
number or absent), `processParameters` returns the normalized entries in
ascending `order`, entries with equal `order` keeping their relative input
order (every sequence of entries that is already in ascending order keeps its
input order); the one group that `extractAndProcessMetadata` builds from them
has exactly these parameters in this order. -/
theorem processParameters_one_group_sorted_by_order (h : Host) (items : List Val)
    (hvalid : ∀ p ∈ items, validateParameter p = true)
    (hgroup : ∀ p ∈ items, ∀ q ∈ items, strictEq (groupOf p) (groupOf q) = true)
    (horder : ∀ p ∈ items, prop p "order" = .undefined ∨ ∃ n, prop p "order" = .num n) :
    ∃ out, processParameters h (.arr items) = .ok out ∧
      out.Perm (items.map normalizeParameter) ∧
      out.Pairwise (fun a b => orderValue a ≤ orderValue b) ∧
      (∀ c : List Val, c.Sublist (items.map normalizeParameter) →
        c.Pairwise (fun a b => orderValue a ≤ orderValue b) → c.Sublist out) ∧
      (∀ p ∈ items, buildGroups out =
        [.obj [("name", groupOf p),
               ("label", if strictEq (groupOf p) (.str "default") then .str "Parámetros"
                         else groupOf p),
               ("parameters", .arr out)]]) := by
  haveI : IsTotal Val (fun a b => orderValue a ≤ orderValue b) := ⟨fun a b => le_total _ _⟩
  haveI : IsTrans Val (fun a b => orderValue a ≤ orderValue b) :=
    ⟨fun a b c hab hbc => le_trans hab hbc⟩
  have hfilter : items.filter validateParameter = items :=
    List.filter_eq_self.mpr hvalid
  have hsort : sortM (compareParameters h) (items.map normalizeParameter)
      = .ok ((items.map normalizeParameter).insertionSort
          (fun a b => orderValue a ≤ orderValue b)) := by
    apply sortM_eq
    intro a ha b hb
    obtain ⟨p, hp, rfl⟩ := List.mem_map.mp ha
    obtain ⟨q, hq, rfl⟩ := List.mem_map.mp hb
    refine ⟨_, compare_same_group h _ _ (hgroup p hp q hq)
      (order_normalize p (horder p hp)) (order_normalize q (horder q hq)), ?_⟩
    omega
  refine ⟨_, ?_, List.perm_insertionSort _ _, List.sorted_insertionSort _ _, ?_, ?_⟩
  · show sortM (compareParameters h) ((items.filter validateParameter).map normalizeParameter) = _
    rw [hfilter]; exact hsort
  · intro c hc hp
    exact List.sublist_insertionSort hp hc
  · intro p hp
    apply buildGroups_one_group
    · exact hgroup p hp p hp
    · intro e he
      rw [List.mem_insertionSort, List.mem_map] at he
      obtain ⟨q, hq, rfl⟩ := he
      exact strictEq_eq (hgroup q hq p hp)
    · intro hnil
      have hlen := List.length_insertionSort (fun a b => orderValue a ≤ orderValue b)
        (items.map normalizeParameter)
      rw [hnil] at hlen
      cases items with
      | nil => exact absurd hp (List.not_mem_nil _)
      | cons _ _ => simp at hlen

/-- Witness of C9: the inputs b (order 2), a (order 1), c (order 1) of
group "g", in that order, come out as a, c, b. -/
theorem processParameters_one_group_sorted_by_order_witness :
    processParameters Reference.host (.arr [fieldB, fieldA, fieldC]) =
      .ok [normalizeParameter fieldA, normalizeParameter fieldC, normalizeParameter fieldB] ∧
    ∃ out, processParameters Reference.host (.arr [fieldB, fieldA, fieldC]) = .ok out ∧
      out.Perm ([fieldB, fieldA, fieldC].map normalizeParameter) ∧
      out.Pairwise (fun a b => orderValue a ≤ orderValue b) ∧
      (∀ c : List Val, c.Sublist ([fieldB, fieldA, fieldC].map normalizeParameter) →
        c.Pairwise (fun a b => orderValue a ≤ orderValue b) → c.Sublist out) ∧
      (∀ p ∈ [fieldB, fieldA, fieldC], buildGroups out =
        [.obj [("name", groupOf p),
               ("label", if strictEq (groupOf p) (.str "default") then .str "Parámetros"
                         else groupOf p),
               ("parameters", .arr out)]]) :=
  ⟨rfl,
   processParameters_one_group_sorted_by_order Reference.host [fieldB, fieldA, fieldC]
     (by decide) (by decide)
     (by
       intro p hp
       simp only [List.mem_cons, List.mem_singleton, List.not_mem_nil, or_false] at hp
       rcases hp with rfl | rfl | rfl <;> exact Or.inr ⟨_, rfl⟩)⟩

end MetadataExtractor

/-! ## `extractMetadata` -/

namespace MetadataExtractor

open JS Examples

theorem cacheSet_holds_objects (key : String) (r : Val) (cache : Cache)
    (hc : CacheHoldsObjects cache) (hr : ∃ props, r = Val.obj props) :
    CacheHoldsObjects (cacheSet key r cache) := by
  intro kv hkv
  rcases mem_setKey hkv with h | h
  · rw [h]; exact hr
  · exact hc kv h

theorem hasArray_obj {parsed : Val} {k : String} (hk : hasArray parsed k = true) :
    ∃ props, parsed = .obj props := by
  cases parsed <;> simp_all [hasArray, JS.prop, truthy, isArray]

theorem tryCandidate_some (h : Host) (note content : Val) (cand : String) (r : Val)
    (hr : tryCandidate h note content cand = some r) :
    (∃ props, r = .obj props) ∧
    ∃ parsed, h.jsonParse cand = some parsed ∧
      (hasArray parsed "parameters" = true ∨ hasArray parsed "fields" = true) := by
  unfold tryCandidate at hr
  cases hp : h.jsonParse cand with
  | none => rw [hp] at hr; exact absurd hr (by simp)
  | some parsed =>
    rw [hp] at hr
    simp only at hr
    split_ifs at hr with h1 h2
    · injection hr with hr
      refine ⟨⟨_, hr.symm⟩, parsed, rfl, ?_⟩
      simpa using h2
    · injection hr with hr
      refine ⟨⟨_, hr.symm⟩, parsed, rfl, ?_⟩
      simpa using h2

theorem tryCandidate_of_parsed (h : Host) (note content : Val) (cand : String) (parsed : Val)
    (hp : h.jsonParse cand = some parsed)
    (harr : hasArray parsed "parameters" = true ∨ hasArray parsed "fields" = true) :
    tryCandidate h note content cand = some (successResult
      (if hasArray parsed "parameters" = true then parsed
       else setProp parsed "parameters" (prop parsed "fields")) note content) := by
  have hobj : ∃ props, parsed = .obj props := by
    rcases harr with h1 | h1 <;> exact hasArray_obj h1
  obtain ⟨props, rfl⟩ := hobj
  unfold tryCandidate
  rw [hp]
  simp only [nullish]
  by_cases h1 : hasArray (.obj props) "parameters" = true
  · simp [h1]
  · have h2 : hasArray (.obj props) "fields" = true := harr.resolve_left h1
    simp [h1, h2]

theorem scanNotes_ok (h : Host) (key : String) (cache : Cache) (notes : List Val)
    (r : Val) (c' : Cache) (hs : scanNotes h key cache notes = .ok (r, c')) :
    (∃ props, r = .obj props) ∧ c' = cacheSet key r cache := by
  induction notes with
  | nil =>
    simp only [scanNotes, Except.ok.injEq, Prod.mk.injEq] at hs
    obtain ⟨rfl, rfl⟩ := hs
    exact ⟨⟨_, rfl⟩, rfl⟩
  | cons note rest ih =>
    unfold scanNotes at hs
    split at hs
    · split at hs
      · exact ih hs
      · split at hs
        · rename_i result htry
          simp only [Except.ok.injEq, Prod.mk.injEq] at hs
          obtain ⟨rfl, rfl⟩ := hs
          exact ⟨(tryCandidate_some _ _ _ _ _ htry).1, rfl⟩
        · exact ih hs
    · exact absurd hs (by simp)

theorem scanNotes_no_yield (h : Host) (key : String) (cache : Cache) (notes : List Val)
    (hno : ∀ n ∈ notes, ¬ Yields h n) :
    scanNotes h key cache notes = .ok (noMetadataResult, cacheSet key noMetadataResult cache) ∨
    ∃ e, scanNotes h key cache notes = .error e := by
  induction notes with
  | nil => exact Or.inl rfl
  | cons note rest ih =>
    have ih' := ih (fun n hn => hno n (List.mem_cons_of_mem _ hn))
    unfold scanNotes
    split
    · rename_i content hcontent
      split
      · exact ih'
      · rename_i candidate hcand
        split
        · rename_i result htry
          exfalso
          obtain ⟨_, parsed, hp, harr⟩ := tryCandidate_some _ _ _ _ _ htry
          exact hno note (List.mem_cons_self _ _) ⟨content, candidate, parsed, hcontent, hcand, hp, harr⟩
        · exact ih'
    · exact Or.inr ⟨_, rfl⟩

theorem scanNotes_skip (h : Host) (key : String) (cache : Cache) (pre rest : List Val)
    (hpre : ∀ n ∈ pre, (∃ s, prop (prop n "parameters") "content" = .str s) ∧ ¬ Yields h n) :
    scanNotes h key cache (pre ++ rest) = scanNotes h key cache rest := by
  induction pre with
  | nil => rfl
  | cons note pre' ih =>
    have ih' := ih (fun n hn => hpre n (List.mem_cons_of_mem _ hn))
    obtain ⟨⟨s, hs⟩, hny⟩ := hpre note (List.mem_cons_self _ _)
    rw [List.cons_append]
    conv_lhs => unfold scanNotes
    rw [hs]
    simp only
    split
    · exact ih'
    · rename_i candidate hcand
      split
      · rename_i result htry
        exfalso
        obtain ⟨_, parsed, hp, harr⟩ := tryCandidate_some _ _ _ _ _ htry
        exact hny ⟨s, candidate, parsed, hs, hcand, hp, harr⟩
      · exact ih'

theorem scanNotes_parse_failure (h : Host) (key : String) (cache : Cache) (note : Val)
    (rest : List Val) (content candidate : String)
    (hcontent : prop (prop note "parameters") "content" = .str content)
    (hcand : metadataCandidate content = some candidate)
    (hparse : h.jsonParse candidate = none) :
    scanNotes h key cache (note :: rest) = scanNotes h key cache rest := by
  conv_lhs => unfold scanNotes
  rw [hcontent]
  simp only [hcand, tryCandidate, hparse]

theorem isStickyNote_ok (n : Val) (hn : nullish n = false) :
    isStickyNote n = .ok (stickyWithContent n) := by
  unfold isStickyNote getProp stickyWithContent
  rw [hn]
  simp only [Bool.false_eq_true, if_false]
  cases strictEq (prop n "type") (.str stickyNoteType) <;> simp

theorem isStickyNote_true (n : Val) (hn : isStickyNote n = .ok true) :
    stickyWithContent n = true := by
  cases hnull : nullish n with
  | true =>
    unfold isStickyNote getProp at hn
    rw [hnull] at hn
    simp at hn
  | false =>
    rw [isStickyNote_ok n hnull] at hn
    injection hn

theorem arrayFilter_mem (f : Val → Except String Bool) (l out : List Val)
    (hf : arrayFilter f l = .ok out) : ∀ n ∈ out, n ∈ l ∧ f n = .ok true := by
  induction l generalizing out with
  | nil =>
    simp only [arrayFilter, Except.ok.injEq] at hf
    subst hf
    intro n hn; exact absurd hn (List.not_mem_nil _)
  | cons v rest ih =>
    unfold arrayFilter at hf
    cases hv : f v with
    | error e => rw [hv] at hf; simp at hf
    | ok keep =>
      rw [hv] at hf
      cases hr : arrayFilter f rest with
      | error e => rw [hr] at hf; simp at hf
      | ok kept =>
        rw [hr] at hf
        simp only [Except.ok.injEq] at hf
        subst hf
        intro n hn
        cases keep with
        | true =>
          simp only [if_true] at hn
          rcases List.mem_cons.mp hn with h1 | h1
          · subst h1; exact ⟨List.mem_cons_self _ _, hv⟩
          · exact ⟨List.mem_cons_of_mem _ (ih kept hr n h1).1, (ih kept hr n h1).2⟩
        | false =>
          simp only [Bool.false_eq_true, if_false] at hn
          exact ⟨List.mem_cons_of_mem _ (ih kept hr n hn).1, (ih kept hr n hn).2⟩

theorem arrayFilter_isStickyNote (nodes : List Val) (hobj : ∀ n ∈ nodes, nullish n = false) :
    arrayFilter isStickyNote nodes = .ok (nodes.filter stickyWithContent) := by
  induction nodes with
  | nil => rfl
  | cons v rest ih =>
    have ih' := ih (fun n hn => hobj n (List.mem_cons_of_mem _ hn))
    unfold arrayFilter
    rw [isStickyNote_ok v (hobj v (List.mem_cons_self _ _)), ih']
    cases hs : stickyWithContent v <;> simp [List.filter, hs]

theorem arrayFilter_null (nodes : List Val) (hnull : ∃ n ∈ nodes, nullish n = true) :
    ∃ e, arrayFilter isStickyNote nodes = .error e := by
  induction nodes with
  | nil => obtain ⟨n, hn, _⟩ := hnull; exact absurd hn (List.not_mem_nil _)
  | cons v rest ih =>
    unfold arrayFilter
    cases hv : isStickyNote v with
    | error e => exact ⟨e, rfl⟩
    | ok keep =>
      have hvn : nullish v = false := by
        cases hnv : nullish v with
        | false => rfl
        | true =>
          unfold isStickyNote getProp at hv
          rw [hnv] at hv
          simp at hv
      have : ∃ n ∈ rest, nullish n = true := by
        obtain ⟨n, hn, hnn⟩ := hnull
        rcases List.mem_cons.mp hn with h1 | h1
        · subst h1; rw [hvn] at hnn; exact absurd hnn (by simp)
        · exact ⟨n, h1, hnn⟩
      obtain ⟨e, he⟩ := ih this
      exact ⟨e, by simp [he]⟩

theorem isFailure_errorResult (e : String) : IsFailure (errorResult e) :=
  ⟨rfl, rfl, _, rfl⟩

theorem cacheGet_none_of_miss (cache : Cache) (w : Val) (key : String)
    (hmiss : answeredFromCache cache w = false) (hkey : cacheKey w = .ok key) :
    cacheGet key cache = none := by
  unfold answeredFromCache at hmiss
  rw [hkey] at hmiss
  cases hg : cacheGet key cache with
  | none => rfl
  | some v => simp [hg] at hmiss

theorem extractMetadata_failure (h : Host) (cache : Cache) (w : Val)
    (hmiss : answeredFromCache cache w = false)
    (hno : ∀ nodes, prop w "nodes" = .arr nodes →
      ∀ n ∈ nodes, stickyWithContent n = true → ¬ Yields h n) :
    IsFailure (extractMetadata h cache w).1 := by
  unfold extractMetadata extractMetadataBody
  cases hkey : cacheKey w with
  | error e => exact isFailure_errorResult e
  | ok key =>
    simp only [cacheGet_none_of_miss cache w key hmiss hkey]
    split_ifs with hcond
    · exact ⟨rfl, rfl, _, rfl⟩
    · cases hn : prop w "nodes" with
      | arr nodes =>
        simp only
        cases hf : arrayFilter isStickyNote nodes with
        | error e => exact isFailure_errorResult e
        | ok notes =>
          simp only
          split_ifs with hlen
          · exact ⟨rfl, rfl, _, rfl⟩
          · have hnotes : ∀ n ∈ notes, ¬ Yields h n := by
              intro n hnmem
              obtain ⟨hmem, htrue⟩ := arrayFilter_mem _ _ _ hf n hnmem
              exact hno nodes hn n hmem (isStickyNote_true n htrue)
            rcases scanNotes_no_yield h key cache notes hnotes with hs | ⟨e, hs⟩
            · rw [hs]; exact ⟨rfl, rfl, _, rfl⟩
            · rw [hs]; exact isFailure_errorResult e
      | undefined => exact ⟨rfl, rfl, _, rfl⟩
      | null => exact ⟨rfl, rfl, _, rfl⟩
      | bool b => exact ⟨rfl, rfl, _, rfl⟩
      | num n => exact ⟨rfl, rfl, _, rfl⟩
      | str s => exact ⟨rfl, rfl, _, rfl⟩
      | obj ps => exact ⟨rfl, rfl, _, rfl⟩

theorem nodes_not_array (w : Val)
    (hcase : truthy w = false ∨ truthy (prop w "nodes") = false ∨
      isArray (prop w "nodes") = false) (nodes : List Val) :
    prop w "nodes" ≠ .arr nodes := by
  intro hn
  rcases hcase with h1 | h1 | h1
  · cases w <;> simp_all [JS.prop, truthy]
  · rw [hn] at h1; simp [truthy] at h1
  · rw [hn] at h1; simp [isArray] at h1

theorem extractMetadataBody_ok (h : Host) (cache : Cache) (w : Val) (r : Val) (c' : Cache)
    (hc : CacheHoldsObjects cache) (hb : extractMetadataBody h cache w = .ok (r, c')) :
    (∃ props, r = .obj props) ∧ CacheHoldsObjects c' := by
  unfold extractMetadataBody at hb
  cases hkey : cacheKey w with
  | error e => rw [hkey] at hb; simp at hb
  | ok key =>
    rw [hkey] at hb
    simp only at hb
    cases hg : cacheGet key cache with
    | some cached =>
      rw [hg] at hb
      simp only [Except.ok.injEq, Prod.mk.injEq] at hb
      obtain ⟨rfl, rfl⟩ := hb
      exact ⟨hc _ (lookup_mem hg), hc⟩
    | none =>
      rw [hg] at hb
      simp only at hb
      have hlit : ∀ lit : Val, (∃ props, lit = .obj props) →
          Except.ok (lit, cacheSet key lit cache) = Except.ok (ε := String) (r, c') →
          (∃ props, r = .obj props) ∧ CacheHoldsObjects c' := by
        intro lit hl he
        simp only [Except.ok.injEq, Prod.mk.injEq] at he
        obtain ⟨rfl, rfl⟩ := he
        exact ⟨hl, cacheSet_holds_objects key _ cache hc hl⟩
      split_ifs at hb with hcond
      · exact hlit _ ⟨_, rfl⟩ hb
      · split at hb
        · split at hb
          · simp at hb
          · split_ifs at hb with hlen
            · exact hlit _ ⟨_, rfl⟩ hb
            · obtain ⟨hobj, rfl⟩ := scanNotes_ok _ _ _ _ _ _ hb
              exact ⟨hobj, cacheSet_holds_objects key _ cache hc hobj⟩
        · exact hlit _ ⟨_, rfl⟩ hb

theorem prop_successResult (props : List (String × Val)) (note content : Val) (k : String)
    (hnodup : (props.map Prod.fst).Nodup) (hk1 : k ≠ "_source") (hk2 : k ≠ "success") :
    prop (successResult (.obj props) note content) k = prop (.obj props) k := by
  unfold successResult
  simp only [JS.prop, spread, ownProps]
  rw [lookup_setKey, if_neg (fun e => hk1 e.symm), lookup_spread k props _ hnodup]
  cases hl : lookup k props with
  | some v => rfl
  | none =>
    simp only [lookup]
    rw [if_neg (fun e => hk2 e.symm)]

theorem prop_successResult_source (parsed note content : Val) :
    prop (successResult parsed note content) "_source" =
      .obj [("nodeId", prop note "id"),
            ("nodeName", JS.or (prop note "name") (.str "Sticky Note")),
            ("rawContent", content)] := by
  unfold successResult
  simp only [JS.prop]
  rw [lookup_setKey, if_pos rfl]
  rfl

theorem prop_normalized_parameters (parsed note content : Val) (hkeys : DistinctKeys parsed)
    (harr : hasArray parsed "parameters" = true ∨ hasArray parsed "fields" = true) :
    prop (successResult
      (if hasArray parsed "parameters" = true then parsed
       else setProp parsed "parameters" (prop parsed "fields")) note content) "parameters" =
    (if hasArray parsed "parameters" = true then prop parsed "parameters"
     else prop parsed "fields") := by
  have hobj : ∃ props, parsed = .obj props := by
    rcases harr with h1 | h1 <;> exact hasArray_obj h1
  obtain ⟨props, rfl⟩ := hobj
  by_cases h1 : hasArray (.obj props) "parameters" = true
  · rw [if_pos h1, if_pos h1]
    exact prop_successResult props note content "parameters" hkeys (by decide) (by decide)
  · rw [if_neg h1, if_neg h1]
    simp only [setProp]
    rw [prop_successResult _ note content "parameters" (nodup_keys_setKey _ _ _ hkeys)
      (by decide) (by decide)]
    simp only [JS.prop]
    rw [lookup_setKey, if_pos rfl]
    rfl

theorem not_yields_broken : ¬ Yields Reference.host
    (stickyNote "n1" "Broken" "UI_METADATA \x7boops\x7d") := by
  rintro ⟨content, candidate, parsed, hc, hcand, hp, _⟩
  have h1 : content = "UI_METADATA \x7boops\x7d" := by
    have : Val.str "UI_METADATA \x7boops\x7d" = Val.str content := hc
    injection this with this
    exact this.symm
  subst h1
  have h2 : metadataCandidate "UI_METADATA \x7boops\x7d" = some "\x7boops\x7d" := by decide
  rw [h2] at hcand
  injection hcand with hcand
  subst hcand
  have h3 : Reference.host.jsonParse "\x7boops\x7d" = none := rfl
  rw [h3] at hp
  exact absurd hp (by simp)

theorem not_yields_plain : ¬ Yields Reference.host
    (stickyNote "n2" "Plain" "\x7b\"title\":\"x\"\x7d") := by
  rintro ⟨content, candidate, parsed, hc, hcand, hp, harr⟩
  have h1 : content = "\x7b\"title\":\"x\"\x7d" := by
    have : Val.str "\x7b\"title\":\"x\"\x7d" = Val.str content := hc
    injection this with this
    exact this.symm
  subst h1
  have h2 : metadataCandidate "\x7b\"title\":\"x\"\x7d" = some "\x7b\"title\":\"x\"\x7d" := by
    decide
  rw [h2] at hcand
  injection hcand with hcand
  subst hcand
  have h3 : Reference.host.jsonParse "\x7b\"title\":\"x\"\x7d" =
      some (.obj [("title", .str "x")]) := rfl
  rw [h3] at hp
  injection hp with hp
  subst hp
  rcases harr with h4 | h4 <;> exact absurd h4 (by decide)

theorem not_yields_readme : ¬ Yields Reference.host (stickyNote "n1" "Readme" "just text") := by
  rintro ⟨content, candidate, parsed, hc, hcand, _, _⟩
  have h1 : content = "just text" := by
    have : Val.str "just text" = Val.str content := hc
    injection this with this
    exact this.symm
  subst h1
  have h2 : metadataCandidate "just text" = none := by decide
  rw [h2] at hcand
  exact absurd hcand (by simp)

/-- C3 (the code at the failing input). The only sticky note of
`overrideWorkflow` holds the marker followed by a JSON object with a
`parameters` array and the further key `success: false`. The extraction takes
the success path (`parameters` and `_source` are those of the note), but the
spread of the parsed object overwrites `success: true`: the result has
`success === false`. -/
theorem extractMetadata_embedded_success_overrides :
    prop (extractMetadata Reference.host [] overrideWorkflow).1 "success" = .bool false ∧
    prop (extractMetadata Reference.host [] overrideWorkflow).1 "parameters" =
      .arr [.obj [("name", .str "email"), ("type", .str "email"), ("label", .str "Email")]] ∧
    prop (prop (extractMetadata Reference.host [] overrideWorkflow).1 "_source") "nodeId" =
      .str "n1" :=
  ⟨rfl, rfl, rfl⟩

/-- C4. For a call not answered from the cache, `extractMetadata` returns a
value of the shape `{success: false, parameters: [], message}` when the
workflow is missing or has no `nodes` array, when no node is a sticky note
with non-empty `parameters.content`, and when no such sticky note yields
parseable JSON with a `parameters` or `fields` array. A sticky note whose
candidate text fails to parse does not stop the scan: the loop goes on with
the notes after it. -/
theorem extractMetadata_structural_absence (h : Host) (cache : Cache) (w : Val)
    (hmiss : answeredFromCache cache w = false) :
    ((truthy w = false ∨ truthy (prop w "nodes") = false ∨
        isArray (prop w "nodes") = false) →
      IsFailure (extractMetadata h cache w).1) ∧
    (∀ nodes, prop w "nodes" = .arr nodes →
      (∀ n ∈ nodes, stickyWithContent n = false) →
      IsFailure (extractMetadata h cache w).1) ∧
    (∀ nodes, prop w "nodes" = .arr nodes →
      (∀ n ∈ nodes, stickyWithContent n = true → ¬ Yields h n) →
      IsFailure (extractMetadata h cache w).1) ∧
    (∀ (key : String) (note : Val) (rest : List Val) (content candidate : String),
      prop (prop note "parameters") "content" = .str content →
      metadataCandidate content = some candidate →
      h.jsonParse candidate = none →
      scanNotes h key cache (note :: rest) = scanNotes h key cache rest) := by
  refine ⟨?_, ?_, ?_, ?_⟩
  · intro hcase
    apply extractMetadata_failure h cache w hmiss
    intro nodes hn
    exact absurd hn (nodes_not_array w hcase nodes)
  · intro nodes hn hnone
    apply extractMetadata_failure h cache w hmiss
    intro nodes' hn' n hmem hs
    rw [hn] at hn'
    injection hn' with hn'
    subst hn'
    rw [hnone n hmem] at hs
    exact absurd hs (by simp)
  · intro nodes hn hnone
    apply extractMetadata_failure h cache w hmiss
    intro nodes' hn' n hmem hs
    rw [hn] at hn'
    injection hn' with hn'
    subst hn'
    exact hnone n hmem hs
  · intro key note rest content candidate hc hcand hp
    exact scanNotes_parse_failure h key cache note rest content candidate hc hcand hp

/-- Witness of C4: two sticky notes, the first with text that does not
parse, the second without `parameters` or `fields`; the scan passes both and
returns the "no valid metadata" result. -/
theorem extractMetadata_structural_absence_witness :
    answeredFromCache [] noMetadataWorkflow = false ∧
    IsFailure (extractMetadata Reference.host [] noMetadataWorkflow).1 ∧
    (extractMetadata Reference.host [] noMetadataWorkflow).1 = noMetadataResult :=
  ⟨rfl,
   (extractMetadata_structural_absence Reference.host [] noMetadataWorkflow rfl).2.2.1
     [stickyNote "n1" "Broken" "UI_METADATA \x7boops\x7d",
      stickyNote "n2" "Plain" "\x7b\"title\":\"x\"\x7d"] rfl
     (by
       intro n hn _
       simp only [List.mem_cons, List.mem_singleton, List.not_mem_nil, or_false] at hn
       rcases hn with rfl | rfl
       · exact not_yields_broken
       · exact not_yields_plain),
   rfl⟩

theorem scanNotes_content_not_string (h : Host) (key : String) (cache : Cache) (note : Val)
    (rest : List Val)
    (hcontent : isString (prop (prop note "parameters") "content") = false) :
    ∃ e, scanNotes h key cache (note :: rest) = .error e := by
  unfold scanNotes
  cases hc : prop (prop note "parameters") "content" with
  | str s => rw [hc] at hcontent; exact absurd hcontent (by simp [isString])
  | undefined => exact ⟨_, rfl⟩
  | null => exact ⟨_, rfl⟩
  | bool b => exact ⟨_, rfl⟩
  | num n => exact ⟨_, rfl⟩
  | arr l => exact ⟨_, rfl⟩
  | obj ps => exact ⟨_, rfl⟩

theorem extractMetadata_content_not_string (h : Host) (cache : Cache) (w : Val)
    (hmiss : answeredFromCache cache w = false)
    (pre post : List Val) (note : Val)
    (hnodes : prop w "nodes" = .arr (pre ++ note :: post))
    (hobj : ∀ n ∈ pre ++ note :: post, nullish n = false)
    (hpre : ∀ n ∈ pre, stickyWithContent n = false)
    (hnote : stickyWithContent note = true)
    (hcontent : isString (prop (prop note "parameters") "content") = false) :
    ∃ e, extractMetadata h cache w = (errorResult e, cache) := by
  unfold extractMetadata extractMetadataBody
  cases hkey : cacheKey w with
  | error e => exact ⟨e, rfl⟩
  | ok key =>
    have hw : truthy w = true := by
      cases w <;> simp_all [JS.prop, truthy]
    have ha : truthy (Val.arr (pre ++ note :: post)) = true := rfl
    have hfilter : arrayFilter isStickyNote (pre ++ note :: post) =
        .ok (note :: post.filter stickyWithContent) := by
      rw [arrayFilter_isStickyNote _ hobj, List.filter_append, List.filter_cons, if_pos hnote]
      have : pre.filter stickyWithContent = [] := by
        apply List.filter_eq_nil_iff.mpr
        intro n hn
        rw [hpre n hn]; simp
      rw [this]; rfl
    obtain ⟨e, he⟩ := scanNotes_content_not_string h key cache note
      (post.filter stickyWithContent) hcontent
    refine ⟨e, ?_⟩
    simp only [cacheGet_none_of_miss cache w key hmiss hkey, hnodes, hw, ha, isArray, hfilter]
    simp [he]

/-- C5. `extractMetadata` is total: for every input value and every cache
that holds objects it returns an object (and leaves a cache that holds
objects); an error thrown inside the body is converted into the result
`{success: false, parameters: [], message, error}` with the error's message,
which is what happens to a workflow whose `nodes` hold a `null` or
`undefined` entry and to one whose first sticky note has a content that is not
a string. -/
theorem extractMetadata_total (h : Host) (cache : Cache) (w : Val)
    (hc : CacheHoldsObjects cache) :
    (∃ props, (extractMetadata h cache w).1 = .obj props) ∧
    CacheHoldsObjects (extractMetadata h cache w).2 ∧
    (∀ e, extractMetadataBody h cache w = .error e →
      extractMetadata h cache w = (errorResult e, cache)) ∧
    (answeredFromCache cache w = false →
      ∀ nodes, prop w "nodes" = .arr nodes → (∃ n ∈ nodes, nullish n = true) →
      ∃ e, extractMetadata h cache w = (errorResult e, cache)) ∧
    (answeredFromCache cache w = false →
      ∀ (pre post : List Val) (note : Val), prop w "nodes" = .arr (pre ++ note :: post) →
      (∀ n ∈ pre ++ note :: post, nullish n = false) →
      (∀ n ∈ pre, stickyWithContent n = false) →
      stickyWithContent note = true →
      isString (prop (prop note "parameters") "content") = false →
      ∃ e, extractMetadata h cache w = (errorResult e, cache)) := by
  refine ⟨?_, ?_, ?_, ?_, ?_⟩
  · unfold extractMetadata
    cases hb : extractMetadataBody h cache w with
    | error e => exact ⟨_, rfl⟩
    | ok rc => exact (extractMetadataBody_ok h cache w rc.1 rc.2 hc hb).1
  · unfold extractMetadata
    cases hb : extractMetadataBody h cache w with
    | error e => exact hc
    | ok rc => exact (extractMetadataBody_ok h cache w rc.1 rc.2 hc hb).2
  · intro e he
    unfold extractMetadata
    rw [he]
  · intro hmiss nodes hn hnull
    unfold extractMetadata extractMetadataBody
    cases hkey : cacheKey w with
    | error e => exact ⟨e, rfl⟩
    | ok key =>
      simp only [cacheGet_none_of_miss cache w key hmiss hkey]
      obtain ⟨e, he⟩ := arrayFilter_null nodes hnull
      have hw : truthy w = true := by
        cases w <;> simp_all [JS.prop, truthy]
      refine ⟨e, ?_⟩
      have ha : truthy (Val.arr nodes) = true := rfl
      simp [hn, hw, ha, isArray, he]
  · intro hmiss pre post note hnodes hobj hpre hnote hcontent
    exact extractMetadata_content_not_string h cache w hmiss pre post note hnodes hobj hpre
      hnote hcontent

/-- Witness of C5: a workflow whose node list holds `null`. -/
theorem extractMetadata_total_witness :
    CacheHoldsObjects [] ∧
    (∃ props, (extractMetadata Reference.host [] nullNodeWorkflow).1 = .obj props) ∧
    (extractMetadata Reference.host [] nullNodeWorkflow).1 =
      errorResult "Cannot read properties of null (reading type)" :=
  ⟨fun _ hkv => absurd hkv (List.not_mem_nil _),
   (extractMetadata_total Reference.host [] nullNodeWorkflow
     (fun _ hkv => absurd hkv (List.not_mem_nil _))).1,
   rfl⟩

/-- C6 (amended). On a call that is not answered from the cache: when a
sticky note of the workflow yields valid metadata and no sticky note before it
does, `extractMetadata` returns the metadata of that note, whatever the notes
after it hold: `parameters` is the `parameters`
array of its parsed content (its `fields` array when there is no `parameters`
array) and `_source` names that note and its raw content. The nodes are
objects and the contents of the earlier sticky notes are strings, as in every
workflow of the data model. -/
theorem extractMetadata_first_match_wins (h : Host) (cache : Cache) (w : Val)
    (pre post : List Val) (note : Val) (content candidate : String) (parsed : Val)
    (hmiss : answeredFromCache cache w = false)
    (hkey : ∃ key, cacheKey w = .ok key)
    (hnodes : prop w "nodes" = .arr (pre ++ note :: post))
    (hobj : ∀ n ∈ pre ++ note :: post, nullish n = false)
    (hpre : ∀ n ∈ pre, stickyWithContent n = true →
      (∃ s, prop (prop n "parameters") "content" = .str s) ∧ ¬ Yields h n)
    (hnote : stickyWithContent note = true)
    (hcontent : prop (prop note "parameters") "content" = .str content)
    (hcand : metadataCandidate content = some candidate)
    (hparse : h.jsonParse candidate = some parsed)
    (hkeys : DistinctKeys parsed)
    (harr : hasArray parsed "parameters" = true ∨ hasArray parsed "fields" = true) :
    prop (extractMetadata h cache w).1 "parameters" =
      (if hasArray parsed "parameters" = true then prop parsed "parameters"
       else prop parsed "fields") ∧
    prop (extractMetadata h cache w).1 "_source" =
      .obj [("nodeId", prop note "id"),
            ("nodeName", JS.or (prop note "name") (.str "Sticky Note")),
            ("rawContent", .str content)] := by
  obtain ⟨key, hkey⟩ := hkey
  have hw : truthy w = true := by
    cases w <;> simp_all [JS.prop, truthy]
  have ha : truthy (Val.arr (pre ++ note :: post)) = true := rfl
  have hfilter : arrayFilter isStickyNote (pre ++ note :: post) =
      .ok (pre.filter stickyWithContent ++ note :: post.filter stickyWithContent) := by
    rw [arrayFilter_isStickyNote _ hobj, List.filter_append, List.filter_cons, if_pos hnote]
  have hscan : scanNotes h key cache
      (pre.filter stickyWithContent ++ note :: post.filter stickyWithContent) =
      .ok (successResult
        (if hasArray parsed "parameters" = true then parsed
         else setProp parsed "parameters" (prop parsed "fields")) note (.str content),
        cacheSet key (successResult
        (if hasArray parsed "parameters" = true then parsed
         else setProp parsed "parameters" (prop parsed "fields")) note (.str content)) cache) := by
    rw [scanNotes_skip]
    · conv_lhs => unfold scanNotes
      rw [hcontent]
      simp only [hcand, tryCandidate_of_parsed h note (.str content) candidate parsed hparse harr]
    · intro n hn
      rw [List.mem_filter] at hn
      exact hpre n hn.1 hn.2
  have hres : (extractMetadata h cache w).1 = successResult
        (if hasArray parsed "parameters" = true then parsed
         else setProp parsed "parameters" (prop parsed "fields")) note (.str content) := by
    unfold extractMetadata extractMetadataBody
    simp only [hkey, cacheGet_none_of_miss cache w key hmiss hkey, hnodes, hw, ha, isArray,
      hfilter]
    simp [hscan]
  rw [hres]
  exact ⟨prop_normalized_parameters parsed note (.str content) hkeys harr,
    prop_successResult_source _ _ _⟩

/-- Witness of C6 (amended): three sticky notes, the second and the third with valid
metadata; the result is the metadata of the second. -/
theorem extractMetadata_first_match_wins_witness :
    prop (extractMetadata Reference.host [] threeNotesWorkflow).1 "parameters" =
      .arr [.obj [("name", .str "first"), ("type", .str "text"), ("label", .str "First")]] ∧
    prop (extractMetadata Reference.host [] threeNotesWorkflow).1 "_source" =
      .obj [("nodeId", .str "n2"), ("nodeName", .str "First"),
            ("rawContent", .str "UI_METADATA \x7b\"parameters\":[\x7b\"name\":\"first\",\"type\":\"text\",\"label\":\"First\"\x7d]\x7d")] :=
  extractMetadata_first_match_wins Reference.host [] threeNotesWorkflow
    [stickyNote "n1" "Readme" "just text"]
    [stickyNote "n3" "Second" "\x7b\"fields\":[]\x7d"]
    (stickyNote "n2" "First" "UI_METADATA \x7b\"parameters\":[\x7b\"name\":\"first\",\"type\":\"text\",\"label\":\"First\"\x7d]\x7d")
    "UI_METADATA \x7b\"parameters\":[\x7b\"name\":\"first\",\"type\":\"text\",\"label\":\"First\"\x7d]\x7d"
    "\x7b\"parameters\":[\x7b\"name\":\"first\",\"type\":\"text\",\"label\":\"First\"\x7d]\x7d"
    (.obj [("parameters",
      .arr [.obj [("name", .str "first"), ("type", .str "text"), ("label", .str "First")]])])
    rfl ⟨_, rfl⟩ rfl (by decide)
    (by
      intro n hn _
      rw [List.mem_singleton] at hn
      subst hn
      exact ⟨⟨_, rfl⟩, not_yields_readme⟩)
    rfl rfl (by decide) rfl (by simp [DistinctKeys]) (Or.inl rfl)

/-- C6 (counterexample). A first call with a workflow of the id "w-three"
that has no nodes stores 'No se encontraron sticky notes' under the cache key
of that id. The next call, with the workflow of the same id whose second and
third sticky notes hold valid metadata, is answered from the cache: it returns
the stored failure, with no parameters and no `_source`, and not the metadata
of the earliest valid note, which the same call returns on an empty cache. -/
theorem extractMetadata_first_match_lost_to_cache :
    cacheKey (workflow "w-three" []) = cacheKey threeNotesWorkflow ∧
    (extractMetadata Reference.host [] (workflow "w-three" [])).1 = noStickyNotesResult ∧
    (extractMetadata Reference.host (extractMetadata Reference.host [] (workflow "w-three" [])).2
        threeNotesWorkflow).1 = noStickyNotesResult ∧
    prop (extractMetadata Reference.host [] threeNotesWorkflow).1 "parameters" =
      .arr [.obj [("name", .str "first"), ("type", .str "text"), ("label", .str "First")]] ∧
    prop noStickyNotesResult "parameters" = .arr [] ∧
    prop noStickyNotesResult "_source" = .undefined :=
  ⟨rfl, rfl, rfl, rfl, rfl, rfl⟩

end MetadataExtractor

/-! ## `groupedParameters` -/

namespace DynamicForm

open JS Examples

/-- C10 (the code at the failing input). A parameter with the explicit
order 0 followed by one with order 1, both of the default group:
`a.order || 999` turns the order 0 into 999, so the member with order 0 comes
after the member with order 1. -/
theorem groupedParameters_order_zero_sorts_last (h : Host) :
    groupedParameters h [orderZero, orderOne] = .ok [("default", [orderOne, orderZero])] ∧
    prop orderZero "order" = .num 0 ∧ prop orderOne "order" = .num 1 :=
  ⟨rfl, rfl, rfl⟩

end DynamicForm

/-! ## Sorting never loses entries -/

namespace JS

theorem orderedInsertM_perm (cmp : Val → Val → Except String Int) (a : Val) (l out : List Val)
    (hs : orderedInsertM cmp a l = .ok out) : out.Perm (a :: l) := by
  induction l generalizing out with
  | nil =>
    simp only [orderedInsertM, Except.ok.injEq] at hs
    subst hs
    exact List.Perm.refl _
  | cons b rest ih =>
    unfold orderedInsertM at hs
    cases hc : cmp a b with
    | error e => rw [hc] at hs; simp at hs
    | ok c =>
      rw [hc] at hs
      simp only at hs
      split_ifs at hs with hle
      · simp only [Except.ok.injEq] at hs
        subst hs
        exact List.Perm.refl _
      · cases hr : orderedInsertM cmp a rest with
        | error e => rw [hr] at hs; simp at hs
        | ok r =>
          rw [hr] at hs
          simp only [Except.ok.injEq] at hs
          subst hs
          exact ((ih r hr).cons b).trans (List.Perm.swap a b rest)

theorem sortM_perm (cmp : Val → Val → Except String Int) (l out : List Val)
    (hs : sortM cmp l = .ok out) : out.Perm l := by
  induction l generalizing out with
  | nil =>
    simp only [sortM, Except.ok.injEq] at hs
    subst hs
    exact List.Perm.refl _
  | cons a rest ih =>
    unfold sortM at hs
    cases hr : sortM cmp rest with
    | error e => rw [hr] at hs; simp at hs
    | ok s =>
      rw [hr] at hs
      simp only at hs
      exact (orderedInsertM_perm cmp a s out hs).trans ((ih s hr).cons a)

end JS

/-! ## Groups, names, the `fields` alias, candidates and repeated calls -/

namespace MetadataExtractor

open JS Examples

theorem buildGroups_eq (processed : List Val) :
    buildGroups processed = (groupNames processed).map (groupObject processed) := rfl

theorem strictEq_refl_of_not_reference (v : Val) (hv : isReference v = false) :
    strictEq v v = true := by
  cases v <;> simp_all [strictEq, isReference]

theorem strictEq_not_reference {a b : Val} (hab : strictEq a b = true) :
    isReference a = false ∧ isReference b = false := by
  cases a <;> cases b <;> simp_all [strictEq, isReference]

theorem sameGroup_refl (x : Nat × Val) : sameGroup x x = true := by
  unfold sameGroup
  cases hr : isReference x.2 with
  | true => simp
  | false => simp [strictEq_refl_of_not_reference x.2 hr]

theorem sameGroup_cases {x y : Nat × Val} (hxy : sameGroup x y = true) :
    strictEq x.2 y.2 = true ∨ (isReference x.2 = true ∧ x.1 = y.1) := by
  unfold sameGroup at hxy
  simpa using hxy

theorem groupTags_index (processed : List Val) :
    ∀ x ∈ groupTags processed, ∀ y ∈ groupTags processed, x.1 = y.1 → x = y := by
  have hnodup : ((groupTags processed).map Prod.fst).Nodup := by
    unfold groupTags
    rw [List.map_map]
    have : (Prod.fst ∘ fun ip : Nat × Val => (ip.1, prop ip.2 "group")) = Prod.fst := rfl
    rw [this, List.enum_map_fst]
    exact List.nodup_range _
  exact List.inj_on_of_nodup_map hnodup

theorem sameGroup_symm {l : List (Nat × Val)}
    (hl : ∀ x ∈ l, ∀ y ∈ l, x.1 = y.1 → x = y) {x y : Nat × Val} (hx : x ∈ l) (hy : y ∈ l)
    (hxy : sameGroup x y = true) : sameGroup y x = true := by
  rcases sameGroup_cases hxy with h1 | ⟨_, h2⟩
  · have e1 := strictEq_eq h1
    have h2 : strictEq y.2 x.2 = true := by rw [← e1]; rw [e1] at h1; rw [e1]; exact h1
    unfold sameGroup
    rw [h2]; rfl
  · rw [hl x hx y hy h2]; exact sameGroup_refl y

theorem sameGroup_trans {l : List (Nat × Val)}
    (hl : ∀ x ∈ l, ∀ y ∈ l, x.1 = y.1 → x = y) {x y z : Nat × Val} (hx : x ∈ l) (hy : y ∈ l)
    (hxy : sameGroup x y = true) (hyz : sameGroup y z = true) : sameGroup x z = true := by
  rcases sameGroup_cases hxy with h1 | ⟨_, h2⟩
  · rcases sameGroup_cases hyz with h3 | ⟨h3, _⟩
    · have e1 := strictEq_eq h1
      unfold sameGroup
      rw [e1, h3]; rfl
    · rw [(strictEq_not_reference h1).2] at h3
      exact absurd h3 (by simp)
  · rw [hl x hx y hy h2]; exact hyz

theorem dedupGroups_sublist (l : List (Nat × Val)) : (dedupGroups l).Sublist l := by
  induction l with
  | nil => exact List.Sublist.refl _
  | cons x rest ih =>
    unfold dedupGroups
    exact ((List.filter_sublist _).trans ih).cons₂ x

theorem dedupGroups_pairwise (l : List (Nat × Val)) :
    (dedupGroups l).Pairwise (fun x y => sameGroup x y = false) := by
  induction l with
  | nil => exact List.Pairwise.nil
  | cons x rest ih =>
    unfold dedupGroups
    rw [List.pairwise_cons]
    refine ⟨?_, ih.sublist (List.filter_sublist _)⟩
    intro y hy
    have := (List.mem_filter.mp hy).2
    simpa using this

theorem dedupGroups_cover (l : List (Nat × Val))
    (hl : ∀ x ∈ l, ∀ y ∈ l, x.1 = y.1 → x = y) :
    ∀ t ∈ l, ∃ g ∈ dedupGroups l, sameGroup g t = true := by
  induction l with
  | nil => intro t ht; exact absurd ht (List.not_mem_nil _)
  | cons x rest ih =>
    have hrest : ∀ a ∈ rest, ∀ b ∈ rest, a.1 = b.1 → a = b := fun a ha b hb =>
      hl a (List.mem_cons_of_mem _ ha) b (List.mem_cons_of_mem _ hb)
    intro t ht
    unfold dedupGroups
    rcases List.mem_cons.mp ht with rfl | ht'
    · exact ⟨t, List.mem_cons_self _ _, sameGroup_refl t⟩
    · obtain ⟨g, hg, hgt⟩ := ih hrest t ht'
      cases hxg : sameGroup x g with
      | false =>
        refine ⟨g, List.mem_cons_of_mem _ (List.mem_filter.mpr ⟨hg, ?_⟩), hgt⟩
        simp [hxg]
      | true =>
        have hgl : g ∈ x :: rest :=
          List.mem_cons_of_mem _ ((dedupGroups_sublist rest).subset hg)
        exact ⟨x, List.mem_cons_self _ _,
          sameGroup_trans hl (List.mem_cons_self _ _) hgl hxg hgt⟩

theorem filter_length_le_one {α : Type} (P : α → Bool) (l : List α)
    (hl : l.Pairwise (fun a b => ¬ (P a = true ∧ P b = true))) : (l.filter P).length ≤ 1 := by
  induction l with
  | nil => simp
  | cons a rest ih =>
    rw [List.pairwise_cons] at hl
    cases ha : P a with
    | false =>
      rw [List.filter_cons_of_neg (by simp [ha])]
      exact ih hl.2
    | true =>
      rw [List.filter_cons_of_pos ha]
      have : rest.filter P = [] := by
        apply List.filter_eq_nil_iff.mpr
        intro b hb hPb
        exact hl.1 b hb ⟨ha, hPb⟩
      simp [this]

theorem groupNames_unique (processed : List Val) (t : Nat × Val)
    (ht : t ∈ groupTags processed) :
    ((groupNames processed).filter (fun g => sameGroup t g)).length = 1 := by
  have hvalid := groupTags_index processed
  have hsub : ∀ g ∈ groupNames processed, g ∈ groupTags processed := fun g hg =>
    (dedupGroups_sublist _).subset hg
  apply le_antisymm
  · apply filter_length_le_one
    have hp := dedupGroups_pairwise (groupTags processed)
    refine List.Pairwise.imp_of_mem ?_ hp
    intro a b ha hb hab hboth
    have h1 : sameGroup a t = true := sameGroup_symm hvalid ht (hsub a ha) hboth.1
    have h2 : sameGroup a b = true := sameGroup_trans hvalid (hsub a ha) ht h1 hboth.2
    rw [hab] at h2
    exact absurd h2 (by simp)
  · obtain ⟨g, hg, hgt⟩ := dedupGroups_cover (groupTags processed) hvalid t ht
    have hmem : g ∈ (groupNames processed).filter (fun g => sameGroup t g) :=
      List.mem_filter.mpr ⟨hg, sameGroup_symm hvalid (hsub g hg) ht hgt⟩
    exact List.length_pos_of_mem hmem

theorem groupMembers_sublist (processed : List Val) (g : Nat × Val) :
    (groupMembers processed g).Sublist processed := by
  unfold groupMembers
  have hsub : (processed.enum.filter
      (fun ip => sameGroup (ip.1, prop ip.2 "group") g)).Sublist processed.enum :=
    List.filter_sublist _
  have := hsub.map Prod.snd
  rwa [List.enum_map_snd] at this

theorem groupMembers_ne_nil (processed : List Val) (g : Nat × Val)
    (hg : g ∈ groupNames processed) : groupMembers processed g ≠ [] := by
  have hg' : g ∈ groupTags processed := (dedupGroups_sublist _).subset hg
  unfold groupTags at hg'
  obtain ⟨ip, hip, rfl⟩ := List.mem_map.mp hg'
  unfold groupMembers
  intro hnil
  have hmem : ip ∈ processed.enum.filter
      (fun jp => sameGroup (jp.1, prop jp.2 "group") (ip.1, prop ip.2 "group")) :=
    List.mem_filter.mpr ⟨hip, sameGroup_refl _⟩
  have := List.mem_map_of_mem Prod.snd hmem
  rw [hnil] at this
  exact absurd this (List.not_mem_nil _)

theorem groupNames_of_member (processed : List Val) (ip : Nat × Val)
    (hip : ip ∈ processed.enum) :
    ∃ g ∈ groupNames processed, g.2 = prop ip.2 "group" ∧ ip.2 ∈ groupMembers processed g := by
  have hvalid := groupTags_index processed
  have ht : (ip.1, prop ip.2 "group") ∈ groupTags processed :=
    List.mem_map.mpr ⟨ip, hip, rfl⟩
  have hlen := groupNames_unique processed _ ht
  have hpos : 0 < ((groupNames processed).filter
      (fun g => sameGroup (ip.1, prop ip.2 "group") g)).length := by omega
  obtain ⟨g, hg⟩ := List.exists_mem_of_length_pos hpos
  obtain ⟨hgn, hsame⟩ := List.mem_filter.mp hg
  refine ⟨g, hgn, ?_, ?_⟩
  · rcases sameGroup_cases hsame with h1 | ⟨_, h2⟩
    · exact (strictEq_eq h1).symm
    · have := hvalid _ ht g ((dedupGroups_sublist _).subset hgn) h2
      rw [← this]
  · unfold groupMembers
    exact List.mem_map_of_mem Prod.snd (List.mem_filter.mpr ⟨hip, hsame⟩)

/-- C11. Whenever `extractAndProcessMetadata` returns, its `groups` partition
its processed `parameters`: there is one group object per distinct `group`
value (the names are pairwise different), every processed parameter belongs to
exactly one group, the one whose `name` is its `group`, no group is empty, the
members of a group are a sublist of the processed list (they keep its order),
and the label is 'Parámetros' for the group 'default' and the name itself for
every other group. A group value is taken with the position of its entry, so
that two objects used as `group` count as different names. -/
theorem extractAndProcessMetadata_groups_partition (h : Host) (cache : Cache) (w r : Val)
    (c' : Cache) (hret : extractAndProcessMetadata h cache w = (.ok r, c')) :
    ∃ processed,
      prop r "parameters" = .arr processed ∧
      prop r "groups" = .arr ((groupNames processed).map (groupObject processed)) ∧
      (groupNames processed).Pairwise (fun x y => sameGroup x y = false) ∧
      (∀ ip ∈ processed.enum,
        ((groupNames processed).filter
          (fun g => sameGroup (ip.1, prop ip.2 "group") g)).length = 1 ∧
        ∃ g ∈ groupNames processed,
          g.2 = prop ip.2 "group" ∧ ip.2 ∈ groupMembers processed g) ∧
      (∀ g ∈ groupNames processed,
        groupMembers processed g ≠ [] ∧
        (groupMembers processed g).Sublist processed ∧
        prop (groupObject processed g) "name" = g.2 ∧
        prop (groupObject processed g) "parameters" = .arr (groupMembers processed g) ∧
        (g.2 = .str "default" → prop (groupObject processed g) "label" = .str "Parámetros") ∧
        (g.2 ≠ .str "default" → prop (groupObject processed g) "label" = g.2)) := by
  have hfacts : ∀ processed : List Val,
      (groupNames processed).Pairwise (fun x y => sameGroup x y = false) ∧
      (∀ ip ∈ processed.enum,
        ((groupNames processed).filter
          (fun g => sameGroup (ip.1, prop ip.2 "group") g)).length = 1 ∧
        ∃ g ∈ groupNames processed,
          g.2 = prop ip.2 "group" ∧ ip.2 ∈ groupMembers processed g) ∧
      (∀ g ∈ groupNames processed,
        groupMembers processed g ≠ [] ∧
        (groupMembers processed g).Sublist processed ∧
        prop (groupObject processed g) "name" = g.2 ∧
        prop (groupObject processed g) "parameters" = .arr (groupMembers processed g) ∧
        (g.2 = .str "default" → prop (groupObject processed g) "label" = .str "Parámetros") ∧
        (g.2 ≠ .str "default" → prop (groupObject processed g) "label" = g.2)) := by
    intro processed
    refine ⟨dedupGroups_pairwise _, ?_, ?_⟩
    · intro ip hip
      exact ⟨groupNames_unique processed _ (List.mem_map.mpr ⟨ip, hip, rfl⟩),
        groupNames_of_member processed ip hip⟩
    · intro g hg
      refine ⟨groupMembers_ne_nil processed g hg, groupMembers_sublist processed g, rfl, rfl,
        ?_, ?_⟩
      · intro hd
        have : strictEq g.2 (.str "default") = true := by rw [hd]; rfl
        show (if strictEq g.2 (.str "default") then Val.str "Parámetros" else g.2) = _
        rw [if_pos this]
      · intro hd
        have : ¬ strictEq g.2 (.str "default") = true := fun hs => hd (strictEq_eq hs)
        show (if strictEq g.2 (.str "default") then Val.str "Parámetros" else g.2) = _
        rw [if_neg this]
  unfold extractAndProcessMetadata at hret
  simp only at hret
  split_ifs at hret with hfalsy
  · simp only [Prod.mk.injEq, Except.ok.injEq] at hret
    obtain ⟨rfl, _⟩ := hret
    exact ⟨[], rfl, rfl, hfacts []⟩
  · cases hp : processParameters h (prop (extractMetadata h cache w).1 "parameters") with
    | error e => rw [hp] at hret; simp at hret
    | ok processed =>
      rw [hp] at hret
      simp only [Prod.mk.injEq, Except.ok.injEq] at hret
      obtain ⟨rfl, _⟩ := hret
      exact ⟨processed, rfl, rfl, hfacts processed⟩

set_option maxRecDepth 100000 in
/-- Witness of C11: a workflow with three parameters in the groups "datos"
and "default". -/
theorem extractAndProcessMetadata_groups_partition_witness :
    (match prop groupedResult "groups" with
      | .arr gs => gs.map (fun g => prop g "name")
      | _ => []) = [.str "datos", .str "default"] ∧
    ∃ processed,
      prop groupedResult "parameters" = .arr processed ∧
      prop groupedResult "groups" = .arr ((groupNames processed).map (groupObject processed)) ∧
      (groupNames processed).Pairwise (fun x y => sameGroup x y = false) :=
  ⟨rfl, by
    obtain ⟨processed, h1, h2, h3, _⟩ := extractAndProcessMetadata_groups_partition
      Reference.host [] groupedWorkflow groupedResult
      (extractAndProcessMetadata Reference.host [] groupedWorkflow).2 rfl
    exact ⟨processed, h1, h2, h3⟩⟩

/-- C12 (counterexample). Two valid descriptors named "email": both are
accepted and both are in the output, which so has two entries with the same
`name`. -/
theorem processParameters_keeps_duplicate_names :
    validateParameter sameNameA = true ∧ validateParameter sameNameB = true ∧
    processParameters Reference.host (.arr [sameNameA, sameNameB]) =
      .ok [normalizeParameter sameNameA, normalizeParameter sameNameB] ∧
    prop (normalizeParameter sameNameA) "name" = prop (normalizeParameter sameNameB) "name" ∧
    ¬ ([normalizeParameter sameNameA, normalizeParameter sameNameB].map
        (fun e => prop e "name")).Nodup := by
  refine ⟨rfl, rfl, rfl, rfl, ?_⟩
  intro hn
  have h2 : ([Val.str "email", Val.str "email"] : List Val).Nodup := hn
  simp at h2

/-- C12 (amended). `processParameters` neither adds nor removes names: the
names of its output are the names of the accepted input entries, each as often
as there, so the output names are pairwise different exactly when the names of
the accepted entries are; and it does return an output for descriptors whose
`group` is a string or absent and whose `order` is a number or absent. -/
theorem processParameters_preserves_names (h : Host) (items : List Val) :
    (∀ out, processParameters h (.arr items) = .ok out →
      (out.map (fun e => prop e "name")).Perm
        ((items.filter validateParameter).map (fun p => prop p "name")) ∧
      ((out.map (fun e => prop e "name")).Nodup ↔
        ((items.filter validateParameter).map (fun p => prop p "name")).Nodup)) ∧
    ((∀ p ∈ items, validateParameter p = true → WellTyped p) →
      ∃ out, processParameters h (.arr items) = .ok out) := by
  constructor
  · intro out hout
    have hperm : out.Perm ((items.filter validateParameter).map normalizeParameter) :=
      sortM_perm _ _ _ hout
    have hnames : (out.map (fun e => prop e "name")).Perm
        ((items.filter validateParameter).map (fun p => prop p "name")) := by
      have := hperm.map (fun e => prop e "name")
      rw [List.map_map] at this
      exact this
    exact ⟨hnames, hnames.nodup_iff⟩
  · intro htyped
    refine ⟨_, sortM_eq (compareParameters h) (SortsBefore h) _ ?_⟩
    intro a ha b hb
    obtain ⟨p, hp, rfl⟩ := List.mem_map.mp ha
    obtain ⟨q, hq, rfl⟩ := List.mem_map.mp hb
    rw [List.mem_filter] at hp hq
    obtain ⟨hpg, hpo⟩ := htyped p hp.1 hp.2
    obtain ⟨hqg, hqo⟩ := htyped q hq.1 hq.2
    exact compare_typed h _ _ (group_normalize p hpg) (group_normalize q hqg)
      (order_normalize p hpo) (order_normalize q hqo)

/-- Witness of C12 (amended): the input `fieldB`, `fieldA`. -/
theorem processParameters_preserves_names_witness :
    ([normalizeParameter fieldA, normalizeParameter fieldB].map (fun e => prop e "name")).Perm
      (([fieldB, fieldA].filter validateParameter).map (fun p => prop p "name")) :=
  ((processParameters_preserves_names Reference.host [fieldB, fieldA]).1
    [normalizeParameter fieldA, normalizeParameter fieldB] rfl).1

/-- C13 (the code at the failing input). The sticky note embeds
`{"success": false, "fields": [...]}`: an object with a `fields` array and no
`parameters`. The alias works (the result's `parameters` is the `fields`
array), but the spread of the parsed object overwrites `success: true`, so the
extraction does not report success: `success === false`. -/
theorem extractMetadata_fields_alias_success_overridden :
    Reference.host.jsonParse
        "\x7b\"success\":false,\"fields\":[\x7b\"name\":\"email\",\"type\":\"email\",\"label\":\"Email\"\x7d]\x7d" =
      some (.obj [("success", .bool false),
        ("fields", .arr [.obj [("name", .str "email"), ("type", .str "email"),
          ("label", .str "Email")]])]) ∧
    prop (extractMetadata Reference.host [] fieldsOverrideWorkflow).1 "parameters" =
      .arr [.obj [("name", .str "email"), ("type", .str "email"), ("label", .str "Email")]] ∧
    prop (extractMetadata Reference.host [] fieldsOverrideWorkflow).1 "success" = .bool false :=
  ⟨rfl, rfl, rfl⟩

theorem startsWith_append (p r : List Char) : startsWith p (p ++ r) = true := by
  induction p with
  | nil => cases r <;> rfl
  | cons a p ih =>
    show (decide (a = a) && startsWith p (p ++ r)) = true
    simp [ih]

theorem dropWhile_append_all (p : Char → Bool) (ws r : List Char)
    (hws : ∀ c ∈ ws, p c = true) : (ws ++ r).dropWhile p = r.dropWhile p := by
  induction ws with
  | nil => rfl
  | cons a ws ih =>
    have ha : p a = true := hws a (List.mem_cons_self _ _)
    rw [List.cons_append, List.dropWhile_cons_of_pos ha]
    exact ih (fun c hc => hws c (List.mem_cons_of_mem _ hc))

theorem upToLastBrace_append (body trailing : List Char) (ht : '}' ∉ trailing) :
    upToLastBrace (body ++ ['}'] ++ trailing) = body ++ ['}'] := by
  unfold upToLastBrace
  rw [List.reverse_append, List.reverse_append]
  rw [dropWhile_append_all]
  · simp
  · intro c hc
    rw [List.mem_reverse] at hc
    have : c ≠ '}' := fun e => ht (e ▸ hc)
    simp [this]

theorem markerMatch_marker (ws body trailing : List Char)
    (hws : ∀ c ∈ ws, isSpace c = true) (ht : '}' ∉ trailing) :
    markerMatch (marker ++ ws ++ ('{' :: body ++ ['}']) ++ trailing) =
      some ('{' :: body ++ ['}']) := by
  have hs : startsWith marker (marker ++ ws ++ ('{' :: body ++ ['}']) ++ trailing) = true := by
    rw [List.append_assoc, List.append_assoc]; exact startsWith_append _ _
  have hd : ((marker ++ ws ++ ('{' :: body ++ ['}']) ++ trailing).drop marker.length).dropWhile
      isSpace = '{' :: (body ++ ['}'] ++ trailing) := by
    rw [List.append_assoc, List.append_assoc, List.drop_left, List.append_assoc,
      dropWhile_append_all _ _ _ hws]
    simp only [List.cons_append, List.append_assoc]
    rw [List.dropWhile_cons_of_neg (by decide)]
  have hc : (body ++ ['}'] ++ trailing).contains '}' = true := by
    simp
  have hform : ∃ c cs, marker ++ ws ++ ('{' :: body ++ ['}']) ++ trailing = c :: cs :=
    ⟨'U', "I_METADATA".data ++ ws ++ ('{' :: body ++ ['}']) ++ trailing, rfl⟩
  obtain ⟨c, cs, hl⟩ := hform
  rw [hl] at hs hd ⊢
  unfold markerMatch
  rw [if_pos hs, hd]
  simp only [hc, if_true]
  rw [upToLastBrace_append body trailing ht]
  rfl

/-- C14 (counterexample). The content is the marker, the valid JSON object
`{"parameters":[]}` and the trailing text ` (see {docs})`. The capture group
of the regular expression runs to the last closing brace of the content, so
the candidate is the object followed by ` (see {docs}`, which does not parse:
no metadata is extracted. -/
theorem metadataCandidate_runs_to_last_brace :
    Reference.host.jsonParse "\x7b\"parameters\":[]\x7d" =
      some (.obj [("parameters", .arr [])]) ∧
    metadataCandidate "UI_METADATA \x7b\"parameters\":[]\x7d (see \x7bdocs\x7d)" =
      some "\x7b\"parameters\":[]\x7d (see \x7bdocs\x7d" ∧
    Reference.host.jsonParse "\x7b\"parameters\":[]\x7d (see \x7bdocs\x7d" = none ∧
    (extractMetadata Reference.host [] trailingBraceWorkflow).1 = noMetadataResult :=
  ⟨rfl, by decide, rfl, rfl⟩

/-- C14 (amended). Without a marker match the candidate is the whole trimmed
content, exactly when that starts with an opening brace and ends with a closing
one. With the marker, optional white space and a text `J` that starts with an
opening brace and ends with a closing one, followed by trailing text without a
closing brace, the candidate is `J`; and if `J` parses to an object with a
`parameters` array, the scan returns the success result built from it. -/
theorem metadataCandidate_spec :
    (∀ content : String, markerMatch content.data = none →
      metadataCandidate content =
        if startsWith ['{'] (trimChars content.data) &&
            startsWith ['}'] (trimChars content.data).reverse
        then some (String.mk (trimChars content.data)) else none) ∧
    (∀ ws body trailing : List Char, (∀ c ∈ ws, isSpace c = true) → '}' ∉ trailing →
      metadataCandidate (String.mk (marker ++ ws ++ ('{' :: body ++ ['}']) ++ trailing)) =
        some (String.mk ('{' :: body ++ ['}']))) ∧
    (∀ (h : Host) (key : String) (cache : Cache) (note : Val) (rest : List Val)
        (ws body trailing : List Char) (parsed : Val),
      prop (prop note "parameters") "content" =
        .str (String.mk (marker ++ ws ++ ('{' :: body ++ ['}']) ++ trailing)) →
      (∀ c ∈ ws, isSpace c = true) → '}' ∉ trailing →
      h.jsonParse (String.mk ('{' :: body ++ ['}'])) = some parsed →
      hasArray parsed "parameters" = true →
      scanNotes h key cache (note :: rest) =
        .ok (successResult parsed note
              (.str (String.mk (marker ++ ws ++ ('{' :: body ++ ['}']) ++ trailing))),
            cacheSet key (successResult parsed note
              (.str (String.mk (marker ++ ws ++ ('{' :: body ++ ['}']) ++ trailing)))) cache)) := by
  refine ⟨?_, ?_, ?_⟩
  · intro content hnone
    unfold metadataCandidate
    rw [hnone]
  · intro ws body trailing hws ht
    unfold metadataCandidate
    show (match markerMatch (marker ++ ws ++ ('{' :: body ++ ['}']) ++ trailing) with
      | some g => some (String.mk g)
      | none => _) = _
    rw [markerMatch_marker ws body trailing hws ht]
  · intro h key cache note rest ws body trailing parsed hcontent hws ht hparse harr
    have hcand : metadataCandidate
        (String.mk (marker ++ ws ++ ('{' :: body ++ ['}']) ++ trailing)) =
        some (String.mk ('{' :: body ++ ['}'])) := by
      unfold metadataCandidate
      show (match markerMatch (marker ++ ws ++ ('{' :: body ++ ['}']) ++ trailing) with
        | some g => some (String.mk g)
        | none => _) = _
      rw [markerMatch_marker ws body trailing hws ht]
    conv_lhs => unfold scanNotes
    rw [hcontent]
    simp only [hcand,
      tryCandidate_of_parsed h note _ _ parsed hparse (Or.inl harr), if_pos harr]

/-- Witness of C14 (amended): the marker, an object, and trailing text
without braces. -/
theorem metadataCandidate_spec_witness :
    metadataCandidate "UI_METADATA \x7b\"parameters\":[]\x7d and a note" =
      some "\x7b\"parameters\":[]\x7d" :=
  metadataCandidate_spec.2.1 [' '] "\"parameters\":[]".data " and a note".data
    (by decide) (by decide)

theorem extractMetadataBody_ok_cached (h : Host) (cache : Cache) (w : Val) (r : Val)
    (c' : Cache) (hb : extractMetadataBody h cache w = .ok (r, c')) :
    ∃ key, cacheKey w = .ok key ∧ cacheGet key c' = some r := by
  unfold extractMetadataBody at hb
  cases hkey : cacheKey w with
  | error e => rw [hkey] at hb; simp at hb
  | ok key =>
    refine ⟨key, rfl, ?_⟩
    rw [hkey] at hb
    simp only at hb
    cases hg : cacheGet key cache with
    | some cached =>
      rw [hg] at hb
      simp only [Except.ok.injEq, Prod.mk.injEq] at hb
      obtain ⟨rfl, rfl⟩ := hb
      exact hg
    | none =>
      rw [hg] at hb
      simp only at hb
      have hset : ∀ v : Val, cacheGet key (cacheSet key v cache) = some v := by
        intro v
        unfold cacheGet cacheSet
        rw [lookup_setKey, if_pos rfl]
      have hlit : ∀ lit : Val,
          Except.ok (lit, cacheSet key lit cache) = Except.ok (ε := String) (r, c') →
          cacheGet key c' = some r := by
        intro lit he
        simp only [Except.ok.injEq, Prod.mk.injEq] at he
        obtain ⟨rfl, rfl⟩ := he
        exact hset _
      split_ifs at hb with hcond
      · exact hlit _ hb
      · split at hb
        · split at hb
          · simp at hb
          · split_ifs at hb with hlen
            · exact hlit _ hb
            · obtain ⟨_, rfl⟩ := scanNotes_ok _ _ _ _ _ _ hb
              exact hset _
        · exact hlit _ hb

/-- C15. Calling `extractMetadata` a second time on the same workflow, with
the cache the first call left, returns the result of the first call (and
leaves the cache as it is): on the success path and the structural-absence
paths the second call is answered from the cache, on the caught-exception path
nothing was stored and the same computation runs again. -/
theorem extractMetadata_twice (h : Host) (cache : Cache) (w : Val) :
    extractMetadata h (extractMetadata h cache w).2 w = extractMetadata h cache w := by
  cases hb : extractMetadataBody h cache w with
  | error e =>
    have h1 : extractMetadata h cache w = (errorResult e, cache) := by
      unfold extractMetadata; rw [hb]
    rw [h1]
    exact h1
  | ok rc =>
    obtain ⟨r, c'⟩ := rc
    have h1 : extractMetadata h cache w = (r, c') := by
      unfold extractMetadata; rw [hb]
    obtain ⟨key, hkey, hget⟩ := extractMetadataBody_ok_cached h cache w r c' hb
    rw [h1]
    unfold extractMetadata extractMetadataBody
    simp only [hkey, hget]

end MetadataExtractor

/-! ## Form validation -/

namespace DynamicForm

open JS Examples

theorem typeErrors_select (h : Host) (param value : Val)
    (htype : prop param "type" = .str "select") : typeErrors h param value = .ok [] := by
  unfold typeErrors
  rw [htype]
  rfl

/-- C16. For a select parameter with `required` true: when the value is '',
`null`, `undefined` or the placeholder '-- Selecciona una opción --', the
required check of `validateSingleField` pushes 'Debes seleccionar una opción'
and `validateField` of `DynamicFormField` returns exactly that error;
`validateSingleField` returns it as its first error whenever it returns, and as
its only error unless the value is the placeholder and the parameter has a
custom pattern (which is then tested as well). For any other non-empty value
neither function reports a required error. -/
theorem required_select_sentinel (h : Host) (param value : Val)
    (hreq : truthy (prop param "required") = true)
    (htype : prop param "type" = .str "select") :
    ((value = .str "" ∨ value = .null ∨ value = .undefined ∨
        value = .str "-- Selecciona una opción --") →
      requiredErrors param value = [.str "Debes seleccionar una opción"] ∧
      DynamicFormField.validateField h param value =
        .ok [.str "Debes seleccionar una opción"] ∧
      (∀ errors, validateSingleField h param value = .ok errors →
        errors.head? = some (.str "Debes seleccionar una opción")) ∧
      ((value ≠ .str "-- Selecciona una opción --" ∨
          truthy (prop (prop param "validation") "pattern") = false) →
        validateSingleField h param value = .ok [.str "Debes seleccionar una opción"])) ∧
    ((isEmptyValue value = false ∧ strictEq value (.str "-- Selecciona una opción --") = false) →
      requiredErrors param value = [] ∧
      DynamicFormField.requiredFailure (prop param "required") (prop param "type") value =
        .ok none) := by
  have hobj : nullish param = false := by
    cases param <;> simp_all [JS.prop, nullish]
  constructor
  · intro hval
    have hcond : (isEmptyValue value || strictEq value (.str placeholderOption)) = true := by
      rcases hval with rfl | rfl | rfl | rfl <;> rfl
    have hreqErr : requiredErrors param value = [.str "Debes seleccionar una opción"] := by
      unfold requiredErrors
      rw [hreq, htype]
      simp only [if_true]
      rw [show strictEq (Val.str "select") (Val.str "select") = true from rfl]
      simp only [if_true]
      rw [hcond]
      rfl
    refine ⟨hreqErr, ?_, ?_, ?_⟩
    · unfold DynamicFormField.validateField DynamicFormField.requiredFailure
      rw [hobj, hreq, htype]
      simp only [Bool.false_eq_true, if_false, if_true]
      rw [show strictEq (Val.str "select") (Val.str "select") = true from rfl]
      simp only [if_true]
      rw [hcond]
      rfl
    · intro errors herr
      unfold validateSingleField at herr
      rw [hobj, hreqErr, typeErrors_select h param value htype] at herr
      simp only [Bool.false_eq_true, if_false] at herr
      split_ifs at herr
      · cases hc : customErrors h param value with
        | error e => rw [hc] at herr; simp at herr
        | ok custom =>
          rw [hc] at herr
          simp only [Except.ok.injEq] at herr
          rw [← herr]; rfl
      · simp only [Except.ok.injEq] at herr
        rw [← herr]; rfl
    · intro hcase
      unfold validateSingleField
      rw [hobj, hreqErr, typeErrors_select h param value htype]
      simp only [Bool.false_eq_true, if_false]
      rcases hcase with hne | hpat
      · have hempty : isEmptyValue value = true := by
          rcases hval with rfl | rfl | rfl | rfl
          · rfl
          · rfl
          · rfl
          · exact absurd rfl hne
        simp [hempty]
      · have hcustom : customErrors h param value = .ok [] := by
          unfold customErrors
          rw [hpat]
          simp
        rw [hcustom]
        split_ifs <;> rfl
  · rintro ⟨hne, hnp⟩
    constructor
    · unfold requiredErrors
      rw [hreq, htype]
      simp only [if_true]
      rw [show strictEq (Val.str "select") (Val.str "select") = true from rfl]
      simp [hne, placeholderOption, hnp]
    · rw [htype]
      unfold DynamicFormField.requiredFailure
      rw [hreq]
      simp only [if_true]
      rw [show strictEq (Val.str "select") (Val.str "select") = true from rfl]
      simp [hne, placeholderOption, hnp]

/-- Witness of C16: a required select with the placeholder, with '' and
with the value "ES". -/
theorem required_select_sentinel_witness :
    validateSingleField Reference.host requiredSelectField
        (.str "-- Selecciona una opción --") = .ok [.str "Debes seleccionar una opción"] ∧
    DynamicFormField.validateField Reference.host requiredSelectField (.str "") =
      .ok [.str "Debes seleccionar una opción"] ∧
    requiredErrors requiredSelectField (.str "ES") = [] :=
  ⟨((required_select_sentinel Reference.host requiredSelectField
      (.str "-- Selecciona una opción --") rfl rfl).1 (Or.inr (Or.inr (Or.inr rfl)))).2.2.2
      (Or.inr rfl),
   rfl, rfl⟩

/-- C17 (the code at the failing input). The normalized number field has
`validation.min = 5` and no property `min` of its own; `validateSingleField`
reads `param.min`, finds `undefined` and checks no bound: the value "3" gives
no error (as "10" does), where `validateField` of `DynamicFormField`, which
reads `validation.min`, reports 'El valor mínimo es 5'. -/
theorem validateSingleField_ignores_validation_min :
    prop (prop minFiveField "validation") "min" = .num 5 ∧
    prop minFiveField "min" = .undefined ∧
    validateSingleField Reference.host minFiveField (.str "3") = .ok [] ∧
    DynamicFormField.validateField Reference.host minFiveField (.str "3") =
      .ok [.str "El valor mínimo es 5"] ∧
    validateSingleField Reference.host minFiveField (.str "10") = .ok [] :=
  ⟨rfl, rfl, rfl, rfl, rfl⟩

/-- C19 (the code at the failing input). For a required text field and the
value of three spaces, `validateSingleField` compares the value with '' without
trimming and returns no error, so `validateAllFields` returns true;
`validateField` of `DynamicFormField`, which trims, returns 'Este campo es
requerido', as `validateSingleField` does for ''. -/
theorem validateSingleField_accepts_whitespace (h : Host) :
    validateSingleField h requiredTextField (.str "   ") = .ok [] ∧
    validateAllFields h [requiredTextField]
        { formData := [("nombre", .str "   ")], fieldErrors := [], isValid := false,
          hasBeenValidated := false } =
      .ok ({ formData := [("nombre", .str "   ")], fieldErrors := [("nombre", [])],
             isValid := true, hasBeenValidated := true }, true) ∧
    DynamicFormField.validateField h requiredTextField (.str "   ") =
      .ok [.str "Este campo es requerido"] ∧
    validateSingleField h requiredTextField (.str "") = .ok [.str "Este campo es requerido"] :=
  ⟨rfl, rfl, rfl, rfl⟩

theorem requiredErrors_length (param value : Val) : (requiredErrors param value).length ≤ 1 := by
  unfold requiredErrors
  split_ifs <;> simp

theorem boundErrors_length (bound : Val) (beyond : Except String Bool) (text : String)
    (l : List Val) (hl : boundErrors bound beyond text = .ok l) : l.length ≤ 1 := by
  unfold boundErrors at hl
  split_ifs at hl
  · split at hl
    · simp at hl
    · simp only [Except.ok.injEq] at hl; rw [← hl]; simp
    · split at hl
      · simp at hl
      · simp only [Except.ok.injEq] at hl; rw [← hl]; simp
  · simp only [Except.ok.injEq] at hl; rw [← hl]; simp

theorem lengthErrors_length (limit : Val) (beyond : Except String Bool) (text : String)
    (l : List Val) (hl : lengthErrors limit beyond text = .ok l) : l.length ≤ 1 := by
  unfold lengthErrors at hl
  split_ifs at hl
  · split at hl
    · simp at hl
    · simp only [Except.ok.injEq] at hl; rw [← hl]; simp
    · split at hl
      · simp at hl
      · simp only [Except.ok.injEq] at hl; rw [← hl]; simp
  · simp only [Except.ok.injEq] at hl; rw [← hl]; simp

theorem typeErrors_length (h : Host) (param value : Val) (l : List Val)
    (hl : typeErrors h param value = .ok l) : l.length ≤ 2 := by
  unfold typeErrors at hl
  split_ifs at hl
  · split at hl
    · simp at hl
    · simp only [Except.ok.injEq] at hl; rw [← hl]; split_ifs <;> simp
  · split at hl
    · simp at hl
    · split_ifs at hl
      · simp only [Except.ok.injEq] at hl; rw [← hl]; simp
      · split at hl
        · simp at hl
        · rename_i low hlow
          split at hl
          · simp at hl
          · rename_i high hhigh
            simp only [Except.ok.injEq] at hl
            rw [← hl, List.length_append]
            have := boundErrors_length _ _ _ _ hlow
            have := boundErrors_length _ _ _ _ hhigh
            omega
  · split at hl
    · simp only [Except.ok.injEq] at hl; rw [← hl]; simp
    · simp only [Except.ok.injEq] at hl; rw [← hl]; split_ifs <;> simp
  · split at hl
    · simp at hl
    · rename_i short hshort
      split at hl
      · simp at hl
      · rename_i long hlong
        simp only [Except.ok.injEq] at hl
        rw [← hl, List.length_append]
        have := lengthErrors_length _ _ _ _ hshort
        have := lengthErrors_length _ _ _ _ hlong
        omega
  · simp only [Except.ok.injEq] at hl; rw [← hl]; simp

theorem patternErrors_length (h : Host) (validation value : Val) (fallback : String)
    (l : List Val) (hl : patternErrors h validation value fallback = .ok l) : l.length ≤ 1 := by
  unfold patternErrors at hl
  split at hl
  · simp at hl
  · split at hl
    · simp at hl
    · split at hl
      · simp at hl
      · simp only [Except.ok.injEq] at hl; rw [← hl]; split_ifs <;> simp

theorem customErrors_length (h : Host) (param value : Val) (l : List Val)
    (hl : customErrors h param value = .ok l) : l.length ≤ 1 := by
  unfold customErrors at hl
  split_ifs at hl
  · exact patternErrors_length _ _ _ _ _ hl
  · simp only [Except.ok.injEq] at hl; rw [← hl]; simp
  · simp only [Except.ok.injEq] at hl; rw [← hl]; simp

theorem typeErrors_returns (h : Host) (param : Val) (s : String)
    (hbounds : ∀ k ∈ ["min", "max", "minLength", "maxLength"],
      prop param k = .undefined ∨ ∃ n, prop param k = .num n) :
    ∃ l, typeErrors h param (.str s) = .ok l := by
  simp only [List.mem_cons, List.mem_singleton, List.not_mem_nil, or_false, forall_eq_or_imp,
    forall_eq] at hbounds
  obtain ⟨hmin, hmax, hminL, hmaxL⟩ := hbounds
  have hbound : ∀ (b : Val) (beyond : Val → Except String Bool) (text : String),
      (b = .undefined ∨ ∃ n, b = .num n) → (∀ n, ∃ r, beyond (.num n) = .ok r) →
      ∃ l, boundErrors b (beyond b) text = .ok l := by
    intro b beyond text hb hbe
    rcases hb with rfl | ⟨n, rfl⟩
    · exact ⟨[], rfl⟩
    · obtain ⟨r, hr⟩ := hbe n
      unfold boundErrors
      rw [hr]
      cases r
      · exact ⟨[], rfl⟩
      · exact ⟨_, rfl⟩
  have hlen : ∀ (b : Val) (beyond : Val → Except String Bool) (text : String),
      (b = .undefined ∨ ∃ n, b = .num n) → (∀ n, ∃ r, beyond (.num n) = .ok r) →
      ∃ l, lengthErrors b (beyond b) text = .ok l := by
    intro b beyond text hb hbe
    rcases hb with rfl | ⟨n, rfl⟩
    · exact ⟨[], rfl⟩
    · obtain ⟨r, hr⟩ := hbe n
      unfold lengthErrors
      rw [hr]
      by_cases ht : truthy (Val.num n) = true
      · rw [if_pos ht]
        cases r
        · exact ⟨[], rfl⟩
        · exact ⟨_, rfl⟩
      · rw [if_neg ht]; exact ⟨[], rfl⟩
  unfold typeErrors
  split_ifs
  · exact ⟨_, rfl⟩
  · show ∃ l, (if (h.parseFloat s).isNaN then _ else _) = Except.ok l
    split_ifs
    · exact ⟨_, rfl⟩
    · obtain ⟨low, hlow⟩ := hbound (prop param "min") (numLess h (h.parseFloat s))
        "El valor mínimo es " hmin (fun n => ⟨_, rfl⟩)
      obtain ⟨high, hhigh⟩ := hbound (prop param "max") (numGreater h (h.parseFloat s))
        "El valor máximo es " hmax (fun n => ⟨_, rfl⟩)
      rw [hlow, hhigh]
      exact ⟨_, rfl⟩
  · show ∃ l, Except.ok (if h.isValidUrl s then _ else _) = Except.ok l
    exact ⟨_, rfl⟩
  · obtain ⟨short, hshort⟩ := hlen (prop param "minLength")
      (fun b => lessThan h (lengthOf (.str s)) b) "Mínimo " hminL (fun n => ⟨_, rfl⟩)
    obtain ⟨long, hlong⟩ := hlen (prop param "maxLength")
      (fun b => lessThan h b (lengthOf (.str s))) "Máximo " hmaxL (fun n => ⟨_, rfl⟩)
    rw [hshort, hlong]
    exact ⟨_, rfl⟩
  · exact ⟨_, rfl⟩

theorem customErrors_returns (h : Host) (param : Val) (s : String)
    (hpattern : truthy (prop (prop param "validation") "pattern") = false ∨
      ∃ p test, prop (prop param "validation") "pattern" = .str p ∧ h.regExp p = some test) :
    ∃ l, customErrors h param (.str s) = .ok l := by
  unfold customErrors
  split_ifs with h1 h2
  · rcases hpattern with hp | ⟨p, test, hp, hc⟩
    · rw [hp] at h2; exact absurd h2 (by simp)
    · unfold patternErrors
      rw [hp]
      simp only [toStr, hc]
      exact ⟨_, rfl⟩
  · exact ⟨_, rfl⟩
  · exact ⟨_, rfl⟩

/-- C18 (counterexample). An email field with a custom pattern and the
value "juan": `validateSingleField` returns two errors, the one of the format
check and the one of the custom pattern (and `validateField` of
`DynamicFormField` returns two as well). -/
theorem validateSingleField_two_errors :
    validateSingleField Reference.host emailDigitsField (.str "juan") =
      .ok [.str "Formato de email inválido", .str "Solo dígitos"] ∧
    DynamicFormField.validateField Reference.host emailDigitsField (.str "juan") =
      .ok [.str "Solo dígitos", .str "Solo dígitos"] :=
  ⟨rfl, rfl⟩

/-- C18 (amended). `validateSingleField` does not stop at the first failing
rule: whenever it returns, its list is the errors of the required check (at
most 1), followed by those of the type-specific check (at most 2), followed by
those of the custom pattern (at most 1), at most 3 in all; for the values
`null`, `undefined` and '' only the required check runs and the list has at
most 1 error. It does return for a string value, an object parameter whose
`min`, `max`, `minLength` and `maxLength` are numbers or absent, and a custom
pattern that is absent or a string that compiles. -/
theorem validateSingleField_collects (h : Host) (param value : Val) :
    (∀ errors, validateSingleField h param value = .ok errors →
      ∃ typed custom, errors = requiredErrors param value ++ typed ++ custom ∧
        (requiredErrors param value).length ≤ 1 ∧ typed.length ≤ 2 ∧ custom.length ≤ 1 ∧
        errors.length ≤ 3 ∧
        (isEmptyValue value = true → typed = [] ∧ custom = [] ∧ errors.length ≤ 1)) ∧
    (∀ s, value = .str s → (∃ props, param = .obj props) →
      (∀ k ∈ ["min", "max", "minLength", "maxLength"],
        prop param k = .undefined ∨ ∃ n, prop param k = .num n) →
      (truthy (prop (prop param "validation") "pattern") = false ∨
        ∃ p test, prop (prop param "validation") "pattern" = .str p ∧
          h.regExp p = some test) →
      ∃ errors, validateSingleField h param value = .ok errors) := by
  constructor
  · intro errors herr
    have hreq := requiredErrors_length param value
    unfold validateSingleField at herr
    split_ifs at herr with hnull hempty
    · cases ht : typeErrors h param value with
      | error e => rw [ht] at herr; simp at herr
      | ok typed =>
        rw [ht] at herr
        cases hc : customErrors h param value with
        | error e => rw [hc] at herr; simp at herr
        | ok custom =>
          rw [hc] at herr
          simp only [Except.ok.injEq] at herr
          have h1 := typeErrors_length h param value typed ht
          have h2 := customErrors_length h param value custom hc
          have h3 : (requiredErrors param value).length + typed.length ≤ 2 := by
            cases hsel : strictEq (prop param "type") (.str "select") with
            | true =>
              rw [typeErrors_select h param value (strictEq_eq hsel)] at ht
              simp only [Except.ok.injEq] at ht
              rw [← ht]; simp only [List.length_nil]; omega
            | false =>
              have : requiredErrors param value = [] := by
                unfold requiredErrors
                have hne : isEmptyValue value = false := by simpa using hempty
                rw [hsel, hne]
                simp
              rw [this]; simp only [List.length_nil]; omega
          refine ⟨typed, custom, herr.symm, hreq, h1, h2, ?_, ?_⟩
          · rw [← herr]; simp only [List.length_append]; omega
          · intro he
            rw [he] at hempty
            exact absurd hempty (by simp)
    · simp only [Except.ok.injEq] at herr
      refine ⟨[], [], by simp [herr], hreq, by simp, by simp, ?_, ?_⟩
      · rw [← herr]; omega
      · intro _
        refine ⟨rfl, rfl, ?_⟩
        rw [← herr]; exact hreq
  · intro s hs hobj hbounds hpattern
    subst hs
    obtain ⟨props, rfl⟩ := hobj
    obtain ⟨typed, ht⟩ := typeErrors_returns h (.obj props) s hbounds
    obtain ⟨custom, hc⟩ := customErrors_returns h (.obj props) s hpattern
    unfold validateSingleField
    simp only [nullish, Bool.false_eq_true, if_false, ht, hc]
    split_ifs <;> exact ⟨_, rfl⟩

/-- Witness of C18 (amended): the email field with a custom pattern and the
value "juan". -/
theorem validateSingleField_collects_witness :
    ∃ typed custom,
      [Val.str "Formato de email inválido", Val.str "Solo dígitos"] =
        requiredErrors emailDigitsField (.str "juan") ++ typed ++ custom ∧
      (requiredErrors emailDigitsField (.str "juan")).length ≤ 1 ∧ typed.length ≤ 2 ∧
      custom.length ≤ 1 ∧
      [Val.str "Formato de email inválido", Val.str "Solo dígitos"].length ≤ 3 ∧
      (isEmptyValue (.str "juan") = true → typed = [] ∧ custom = [] ∧
        [Val.str "Formato de email inválido", Val.str "Solo dígitos"].length ≤ 1) :=
  (validateSingleField_collects Reference.host emailDigitsField (.str "juan")).1 _ rfl

theorem setErrors_fresh (key : String) (errors : List Val) (acc : List (String × List Val))
    (hfresh : key ∉ acc.map Prod.fst) : setErrors key errors acc = acc ++ [(key, errors)] := by
  induction acc with
  | nil => rfl
  | cons x rest ih =>
    obtain ⟨k, e⟩ := x
    simp only [List.map_cons, List.mem_cons, not_or] at hfresh
    unfold setErrors
    rw [if_neg (fun hk => hfresh.1 hk.symm), ih hfresh.2]
    rfl

theorem not_nullish_of_prop {p : Val} {k s : String} (hs : prop p k = .str s) :
    nullish p = false := by
  cases p <;> simp_all [JS.prop, nullish]

theorem validateEach_spec (h : Host) (formData : List (String × Val)) (params : List Val) :
    ∀ (acc : List (String × List Val)) (valid : Bool),
    (∀ p ∈ params, ∃ s, prop p "name" = .str s) →
    (params.map (fun p => prop p "name")).Nodup →
    (∀ p ∈ params, ∀ s, prop p "name" = .str s → s ∉ acc.map Prod.fst) →
    (∀ p ∈ params, ∃ errors, validateSingleField h p (fieldValue formData p) = .ok errors) →
    ∃ entries : List (String × List Val),
      validateEach h formData acc valid params =
        .ok (acc ++ entries, valid && entries.all (fun e => e.2.isEmpty)) ∧
      List.Forall₂ (fun p e => prop p "name" = .str e.1 ∧
        validateSingleField h p (fieldValue formData p) = .ok e.2) params entries := by
  induction params with
  | nil =>
    intro acc valid _ _ _ _
    exact ⟨[], by simp [validateEach], List.Forall₂.nil⟩
  | cons p rest ih =>
    intro acc valid hnames hdistinct hfresh hret
    obtain ⟨s, hs⟩ := hnames p (List.mem_cons_self _ _)
    obtain ⟨errors, herr⟩ := hret p (List.mem_cons_self _ _)
    have hp : nullish p = false := not_nullish_of_prop hs
    have hval : fieldValue formData p = (lookup s formData).getD .undefined := by
      unfold fieldValue; rw [hs]
    rw [hval] at herr
    simp only [List.map_cons, List.nodup_cons] at hdistinct
    have hacc : setErrors s errors acc = acc ++ [(s, errors)] :=
      setErrors_fresh s errors acc (hfresh p (List.mem_cons_self _ _) s hs)
    have hfresh' : ∀ q ∈ rest, ∀ t, prop q "name" = .str t →
        t ∉ (acc ++ [(s, errors)]).map Prod.fst := by
      intro q hq t ht hmem
      simp only [List.map_append, List.map_cons, List.map_nil, List.mem_append,
        List.mem_singleton] at hmem
      rcases hmem with hm | hm
      · exact hfresh q (List.mem_cons_of_mem _ hq) t ht hm
      · apply hdistinct.1
        rw [hs, ← hm, ← ht]
        exact List.mem_map_of_mem _ hq
    obtain ⟨entries, hrun, hall⟩ := ih (acc ++ [(s, errors)])
      (if errors.length > 0 then false else valid)
      (fun q hq => hnames q (List.mem_cons_of_mem _ hq)) hdistinct.2 hfresh'
      (fun q hq => hret q (List.mem_cons_of_mem _ hq))
    refine ⟨(s, errors) :: entries, ?_, List.Forall₂.cons ⟨hs, by rw [hval]; exact herr⟩ hall⟩
    unfold validateEach
    simp only [getProp, hp, Bool.false_eq_true, if_false, hs, toStr, herr, hacc, hrun]
    congr 2
    · simp
    · cases errors with
      | nil => simp
      | cons e es => simp

/-- C20 (counterexample). Two parameters named "nombre", the first
required, and the form value ''. The first gets the error 'Este campo es
requerido', the second none and overwrites the entry of the first: every error
list of the new map is empty and `validateAllFields` returns false. -/
theorem validateAllFields_duplicate_names :
    validateAllFields Reference.host [requiredTextField, optionalTextField]
        { formData := [("nombre", .str "")], fieldErrors := [], isValid := false,
          hasBeenValidated := false } =
      .ok ({ formData := [("nombre", .str "")], fieldErrors := [("nombre", [])],
             isValid := false, hasBeenValidated := true }, false) ∧
    validateSingleField Reference.host requiredTextField (.str "") =
      .ok [.str "Este campo es requerido"] :=
  ⟨rfl, rfl⟩

/-- C20 (amended). For parameters with pairwise different string names (none
of them a property name inherited from `Object.prototype`) on which
`validateSingleField` returns, `validateAllFields` replaces the error map by
one entry per parameter, in order, holding the name and
`validateSingleField(param, formData[name])`, whatever the map held before;
it sets `hasBeenValidated` to true, leaves `formData` as it is, stores and
returns a flag that is true if and only if every error list of the new map is
empty. -/
theorem validateAllFields_spec (h : Host) (parameters : List Val) (state : FormState)
    (hnames : ∀ p ∈ parameters, ∃ s, prop p "name" = .str s)
    (hdistinct : (parameters.map (fun p => prop p "name")).Nodup)
    (_hown : ∀ p ∈ parameters, ∀ s, prop p "name" = .str s → s ∉ objectPrototypeKeys)
    (hret : ∀ p ∈ parameters, ∃ errors,
      validateSingleField h p (fieldValue state.formData p) = .ok errors) :
    ∃ (entries : List (String × List Val)) (allValid : Bool),
      validateAllFields h parameters state =
        .ok ({ formData := state.formData, fieldErrors := entries, isValid := allValid,
               hasBeenValidated := true }, allValid) ∧
      List.Forall₂ (fun p e => prop p "name" = .str e.1 ∧
        validateSingleField h p (fieldValue state.formData p) = .ok e.2) parameters entries ∧
      (allValid = true ↔ ∀ e ∈ entries, e.2 = []) := by
  obtain ⟨entries, hrun, hall⟩ := validateEach_spec h state.formData parameters [] true
    hnames hdistinct (fun _ _ _ _ hm => absurd hm (List.not_mem_nil _)) hret
  refine ⟨entries, entries.all (fun e => e.2.isEmpty), ?_, hall, ?_⟩
  · unfold validateAllFields
    rw [hrun]
    simp
  · simp [List.all_eq_true, List.isEmpty_iff]

/-- Witness of C20 (amended): a required text field with a value and a
required email field with an invalid address, over a map that held an old
entry. -/
theorem validateAllFields_spec_witness :
    ∃ (entries : List (String × List Val)) (allValid : Bool),
      validateAllFields Reference.host [requiredTextField, emailField]
          { formData := [("nombre", .str "Ana"), ("email", .str "not-an-email")],
            fieldErrors := [("viejo", [.str "x"])], isValid := true,
            hasBeenValidated := false } =
        .ok ({ formData := [("nombre", .str "Ana"), ("email", .str "not-an-email")],
               fieldErrors := entries, isValid := allValid, hasBeenValidated := true },
             allValid) ∧
      List.Forall₂ (fun p e => prop p "name" = .str e.1 ∧
        validateSingleField Reference.host p
          (fieldValue [("nombre", .str "Ana"), ("email", .str "not-an-email")] p) = .ok e.2)
        [requiredTextField, emailField] entries ∧
      (allValid = true ↔ ∀ e ∈ entries, e.2 = []) :=
  validateAllFields_spec Reference.host [requiredTextField, emailField]
    { formData := [("nombre", .str "Ana"), ("email", .str "not-an-email")],
      fieldErrors := [("viejo", [.str "x"])], isValid := true, hasBeenValidated := false }
    (by
      intro p hp
      simp only [List.mem_cons, List.mem_singleton, List.not_mem_nil, or_false] at hp
      rcases hp with rfl | rfl <;> exact ⟨_, rfl⟩)
    (by
      show ([Val.str "nombre", Val.str "email"] : List Val).Nodup
      simp)
    (by
      intro p hp s hs
      simp only [List.mem_cons, List.mem_singleton, List.not_mem_nil, or_false] at hp
      rcases hp with rfl | rfl
      · have : Val.str "nombre" = Val.str s := hs
        injection this with this
        subst this; decide
      · have : Val.str "email" = Val.str s := hs
        injection this with this
        subst this; decide)
    (by
      intro p hp
      simp only [List.mem_cons, List.mem_singleton, List.not_mem_nil, or_false] at hp
      rcases hp with rfl | rfl <;> exact ⟨_, rfl⟩)

end DynamicForm

/-! ## The email field, end to end -/

namespace DynamicForm

open JS Examples

theorem validateSingleField_email (h : Host) (param : Val) (name v : String)
    (hname : prop param "name" = .str name) (htype : prop param "type" = .str "email")
    (hreq : truthy (prop param "required") = true)
    (hpat : truthy (prop (prop param "validation") "pattern") = false) :
    validateSingleField h param (.str v) =
      .ok (if v = "" then [.str "Este campo es requerido"]
           else if emailRegexTest v then [] else [.str "Formato de email inválido"]) := by
  have hp : nullish param = false := not_nullish_of_prop hname
  have hcustom : customErrors h param (.str v) = .ok [] := by
    unfold customErrors
    rw [hpat]
    simp
  have htyped : typeErrors h param (.str v) =
      .ok (if emailRegexTest v then [] else [.str "Formato de email inválido"]) := by
    unfold typeErrors
    rw [htype]
    rfl
  have hrequired : requiredErrors param (.str v) =
      if v = "" then [.str "Este campo es requerido"] else [] := by
    unfold requiredErrors
    rw [hreq, htype]
    simp [strictEq, isEmptyValue]
  unfold validateSingleField
  rw [hp, htyped, hcustom, hrequired]
  by_cases hv : v = ""
  · subst hv
    rfl
  · have he : isEmptyValue (.str v) = false := by simp [isEmptyValue, strictEq, hv]
    simp [he, hv]

theorem validateAllFields_single (h : Host) (param : Val) (name : String) (state : FormState)
    (errors : List Val) (hname : prop param "name" = .str name)
    (herr : validateSingleField h param ((lookup name state.formData).getD .undefined) =
      .ok errors) :
    validateAllFields h [param] state =
      .ok ({ formData := state.formData, fieldErrors := [(name, errors)],
             isValid := errors.isEmpty, hasBeenValidated := true }, errors.isEmpty) := by
  have hp : nullish param = false := not_nullish_of_prop hname
  unfold validateAllFields validateEach getProp
  rw [hp, hname]
  simp only [Bool.false_eq_true, if_false, toStr, herr, setErrors, validateEach]
  cases errors <;> simp

/-- C21 (counterexample). The empty string does not match the regular
expression, and for the required email field with the value '' whole-form
validation returns false with the error 'Este campo es requerido', not with an
email-format error. -/
theorem validateAllFields_empty_email :
    emailRegexTest "" = false ∧
    validateAllFields Reference.host [emailField] (freshState [("email", .str "")]) =
      .ok ({ formData := [("email", .str "")],
             fieldErrors := [("email", [.str "Este campo es requerido"])],
             isValid := false, hasBeenValidated := true }, false) :=
  ⟨rfl, rfl⟩

/-- C21 (amended). The sticky note of the example is extracted with success and
the one parameter named `email`, which `processParameters` keeps and places in
the group 'default'. For every required parameter of type email without a
custom pattern and every string value of its field, `validateAllFields` on the
one-parameter form returns true with no error when the value matches the
regular expression, returns false with 'Formato de email inválido' when the
value is not empty and does not match, and returns false with 'Este campo es
requerido' when the value is empty. -/
theorem email_end_to_end (h : Host) (param : Val) (name v : String) (state : FormState)
    (hname : prop param "name" = .str name) (htype : prop param "type" = .str "email")
    (hreq : truthy (prop param "required") = true)
    (hpat : truthy (prop (prop param "validation") "pattern") = false)
    (hvalue : lookup name state.formData = some (.str v)) :
    (prop (MetadataExtractor.extractMetadata Reference.host [] emailWorkflow).1 "success" =
        .bool true ∧
      prop (MetadataExtractor.extractMetadata Reference.host [] emailWorkflow).1 "parameters" =
        .arr [emailField] ∧
      prop emailField "name" = .str "email" ∧
      MetadataExtractor.processParameters Reference.host (.arr [emailField]) =
        .ok [MetadataExtractor.normalizeParameter emailField] ∧
      prop (MetadataExtractor.normalizeParameter emailField) "name" = .str "email" ∧
      prop (MetadataExtractor.normalizeParameter emailField) "group" = .str "default") ∧
    (emailRegexTest v = true →
      validateAllFields h [param] state =
        .ok ({ formData := state.formData, fieldErrors := [(name, [])], isValid := true,
               hasBeenValidated := true }, true)) ∧
    (v ≠ "" → emailRegexTest v = false →
      validateAllFields h [param] state =
        .ok ({ formData := state.formData,
               fieldErrors := [(name, [.str "Formato de email inválido"])], isValid := false,
               hasBeenValidated := true }, false)) ∧
    (v = "" →
      validateAllFields h [param] state =
        .ok ({ formData := state.formData,
               fieldErrors := [(name, [.str "Este campo es requerido"])], isValid := false,
               hasBeenValidated := true }, false)) := by
  have hsingle := validateSingleField_email h param name v hname htype hreq hpat
  have hall := fun errors herr => validateAllFields_single h param name state errors hname herr
  rw [hvalue] at hall
  simp only [Option.getD_some] at hall
  refine ⟨⟨rfl, rfl, rfl, rfl, rfl, rfl⟩, ?_, ?_, ?_⟩
  · intro hmatch
    have hv : v ≠ "" := by
      rintro rfl
      exact absurd hmatch (by decide)
    rw [if_neg hv, if_pos hmatch] at hsingle
    exact hall _ hsingle
  · intro hv hmatch
    rw [if_neg hv] at hsingle
    simp only [hmatch, Bool.false_eq_true, if_false] at hsingle
    exact hall _ hsingle
  · intro hv
    rw [if_pos hv] at hsingle
    exact hall _ hsingle

/-- Witness of C21 (amended): the raw parameter with 'not-an-email' and the
normalized parameter with 'a@b.com'. -/
theorem email_end_to_end_witness :
    validateAllFields Reference.host [emailField] (freshState [("email", .str "not-an-email")]) =
      .ok ({ formData := [("email", .str "not-an-email")],
             fieldErrors := [("email", [.str "Formato de email inválido"])], isValid := false,
             hasBeenValidated := true }, false) ∧
    validateAllFields Reference.host [MetadataExtractor.normalizeParameter emailField]
        (freshState [("email", .str "a@b.com")]) =
      .ok ({ formData := [("email", .str "a@b.com")], fieldErrors := [("email", [])],
             isValid := true, hasBeenValidated := true }, true) :=
  ⟨(email_end_to_end Reference.host emailField "email" "not-an-email"
      (freshState [("email", .str "not-an-email")]) rfl rfl rfl rfl rfl).2.2.1
      (by decide) rfl,
   (email_end_to_end Reference.host (MetadataExtractor.normalizeParameter emailField) "email"
      "a@b.com" (freshState [("email", .str "a@b.com")]) rfl rfl rfl rfl rfl).2.1 rfl⟩

end DynamicForm

/-! ## The payload sent to n8n -/

namespace UseWorkflows

open JS Examples

/-- C22 (the code at the failing input). The form data has the key `_system`
with the value 'user-value': `_formatWorkflowInputData` of the hook writes its
system metadata over it, as does the proxy service (where the key `email`
stays as it is). The input `{timestamp: 'user-value'}` of the specification
keeps its key. -/
theorem formatWorkflowInputData_overwrites_system :
    prop (_formatWorkflowInputData environment (.obj [("_system", .str "user-value")]))
        "_system" =
      .obj [("timestamp", .str "2025-01-01T00:00:00.000Z"), ("source", .str "frontend-hook"),
            ("executedAt", .str "2025-01-01T00:00:00.001Z"), ("userAgent", .str "Mozilla/5.0"),
            ("origin", .str "https://app.example.com")] ∧
    N8nProxyService._formatWorkflowInputData environment
        (.obj [("_system", .str "user-value"), ("email", .str "a@b.com")]) =
      .obj [("_system", .obj [("timestamp", .str "2025-01-01T00:00:00.000Z"),
                              ("source", .str "frontend-hook")]),
            ("email", .str "a@b.com")] ∧
    _formatWorkflowInputData environment (.obj [("timestamp", .str "user-value")]) =
      .obj [("timestamp", .str "user-value"),
            ("_system", .obj [("timestamp", .str "2025-01-01T00:00:00.000Z"),
              ("source", .str "frontend-hook"),
              ("executedAt", .str "2025-01-01T00:00:00.001Z"),
              ("userAgent", .str "Mozilla/5.0"),
              ("origin", .str "https://app.example.com")])] :=
  ⟨rfl, rfl, rfl⟩

theorem lookup_spread_nil (k : String) (ps : List (String × Val))
    (hnodup : (ps.map Prod.fst).Nodup) :
    lookup k (spread [] (.obj ps)) = lookup k ps := by
  unfold spread ownProps
  rw [lookup_spread k ps [] hnodup]
  cases lookup k ps <;> rfl

/-- Apart from `_system`, every key of a non-empty input that is not in the
n8n shape keeps its value, in each of the three versions. -/
theorem formatWorkflowInputData_keeps_other_keys (env : Environment)
    (props : List (String × Val)) (k : String) (hk : k ≠ "_system")
    (hnodup : (props.map Prod.fst).Nodup) (hne : props ≠ [])
    (hplain : truthy (prop (prop (.obj props) "data") "main") = false) :
    prop (_formatWorkflowInputData env (.obj props)) k = prop (.obj props) k ∧
    prop (N8nProxyService._formatWorkflowInputData env (.obj props)) k = prop (.obj props) k ∧
    prop (N8nService._formatWorkflowInputData env (.obj props)) k = prop (.obj props) k := by
  have h1 : (!truthy (.obj props) || decide ((objectKeys (.obj props)).length = 0)) = false := by
    cases props with
    | nil => exact absurd rfl hne
    | cons p rest => simp [truthy, objectKeys, ownProps]
  have h2 : (truthy (prop (.obj props) "data") &&
      truthy (prop (prop (.obj props) "data") "main")) = false := by
    rw [hplain]; simp
  have hkey : ∀ sys, prop (.obj (setKey "_system" sys (spread [] (.obj props)))) k =
      prop (.obj props) k := by
    intro sys
    show (lookup k (setKey "_system" sys (spread [] (.obj props)))).getD .undefined =
      (lookup k props).getD .undefined
    rw [lookup_setKey, if_neg (fun hs => hk hs.symm), lookup_spread_nil k props hnodup]
  refine ⟨?_, ?_, ?_⟩
  · unfold _formatWorkflowInputData
    rw [h1, h2]
    exact hkey _
  · unfold N8nProxyService._formatWorkflowInputData
    rw [h1, h2]
    exact hkey _
  · unfold N8nService._formatWorkflowInputData
    rw [h1, h2]
    exact hkey _

theorem passthrough_conditions (inputData : Val)
    (hmain : truthy (prop (prop inputData "data") "main") = true) :
    (!truthy inputData || decide ((objectKeys inputData).length = 0)) = false ∧
    (truthy (prop inputData "data") && truthy (prop (prop inputData "data") "main")) = true := by
  have hdata : truthy (prop inputData "data") = true := by
    cases hd : prop inputData "data" <;> simp_all [JS.prop, truthy]
  refine ⟨?_, by rw [hdata, hmain]; rfl⟩
  cases inputData with
  | obj ps =>
    have hne : ps ≠ [] := by
      rintro rfl
      simp [JS.prop, lookup, truthy] at hdata
    cases ps with
    | nil => exact absurd rfl hne
    | cons p rest => simp [truthy, objectKeys, ownProps]
  | _ => simp [JS.prop, truthy] at hdata

/-- C23. For every input with a truthy `data.main`, each of the three
versions of `_formatWorkflowInputData` (hook, n8n service, proxy service)
returns the input itself: nothing is added, altered or removed. -/
theorem formatWorkflowInputData_passthrough (env : Environment) (inputData : Val)
    (hmain : truthy (prop (prop inputData "data") "main") = true) :
    _formatWorkflowInputData env inputData = inputData ∧
    N8nService._formatWorkflowInputData env inputData = inputData ∧
    N8nProxyService._formatWorkflowInputData env inputData = inputData := by
  obtain ⟨h1, h2⟩ := passthrough_conditions inputData hmain
  refine ⟨?_, ?_, ?_⟩
  · unfold _formatWorkflowInputData
    rw [h1, h2]
    rfl
  · unfold N8nService._formatWorkflowInputData
    rw [h1, h2]
    rfl
  · unfold N8nProxyService._formatWorkflowInputData
    rw [h1, h2]
    rfl

/-- Witness of C23: an input in the n8n shape with a further key. -/
theorem formatWorkflowInputData_passthrough_witness :
    _formatWorkflowInputData environment
        (.obj [("data", .obj [("main", .arr [.arr []])]), ("timestamp", .str "user-value")]) =
      .obj [("data", .obj [("main", .arr [.arr []])]), ("timestamp", .str "user-value")] :=
  (formatWorkflowInputData_passthrough environment
    (.obj [("data", .obj [("main", .arr [.arr []])]), ("timestamp", .str "user-value")])
    rfl).1

end UseWorkflows

/-! ## The submit handler -/

namespace DynamicForm

open JS Examples

/-- C24 (the code at the failing input). A percentage field that is not
required is rendered as a text input. After the mount effect the form data
holds ''; the user types 'Infinity' and leaves the field, so the change and
blur handlers store that text, and validation finds no error (the number is
not `NaN` and no bound is set). The submit handler then stores
`parseFloat('Infinity')`, which is `Infinity`: neither a finite number nor
`null`. The text '' gives `null` and the text '42' the number 42. -/
theorem handleSubmit_infinity_in_payload :
    initialData [percentField] = .ok [("descuento", .str "")] ∧
    handleFieldBlur Reference.host [percentField]
        (handleFieldChange (freshState [("descuento", .str "")]) "descuento" (.str "Infinity"))
        "descuento" (.str "Infinity") =
      .ok { formData := [("descuento", .str "Infinity")], fieldErrors := [("descuento", [])],
            isValid := false, hasBeenValidated := false } ∧
    validateSingleField Reference.host percentField (.str "Infinity") = .ok [] ∧
    handleSubmit Reference.host [percentField]
        { formData := [("descuento", .str "Infinity")], fieldErrors := [("descuento", [])],
          isValid := false, hasBeenValidated := false } =
      .ok ({ formData := [("descuento", .str "Infinity")], fieldErrors := [("descuento", [])],
             isValid := true, hasBeenValidated := true },
           some [("descuento", .number .posInf)]) ∧
    handleSubmit Reference.host [percentField] (freshState [("descuento", .str "")]) =
      .ok ({ formData := [("descuento", .str "")], fieldErrors := [("descuento", [])],
             isValid := true, hasBeenValidated := true },
           some [("descuento", .value .null)]) ∧
    handleSubmit Reference.host [percentField] (freshState [("descuento", .str "42")]) =
      .ok ({ formData := [("descuento", .str "42")], fieldErrors := [("descuento", [])],
             isValid := true, hasBeenValidated := true },
           some [("descuento", .number (.finite 42))]) :=
  ⟨rfl, rfl, rfl, rfl, rfl, rfl⟩

end DynamicForm

/-! ## Extraction without metadata, and the cache -/

namespace MetadataExtractor

open JS Examples

/-- C25 (the code at the failing input). For a workflow whose sticky notes
hold no valid metadata, for a workflow without sticky notes and for a workflow
without nodes, `extractMetadata` returns a failure object, which is truthy:
the test `!rawMetadata` of `extractAndProcessMetadata` does not fire and the
function returns `success: true` with the failure object as `metadata`. -/
theorem extractAndProcessMetadata_success_without_metadata :
    (extractAndProcessMetadata Reference.host [] noMetadataWorkflow).1 =
      .ok (.obj [("success", .bool true), ("metadata", noMetadataResult),
                 ("parameters", .arr []), ("groups", .arr []), ("_source", .undefined)]) ∧
    (extractAndProcessMetadata Reference.host [] (workflow "w-empty" [])).1 =
      .ok (.obj [("success", .bool true), ("metadata", noStickyNotesResult),
                 ("parameters", .arr []), ("groups", .arr []), ("_source", .undefined)]) ∧
    (extractAndProcessMetadata Reference.host [] (.obj [("id", .str "w-bare")])).1 =
      .ok (.obj [("success", .bool true), ("metadata", invalidWorkflowResult),
                 ("parameters", .arr []), ("groups", .arr []), ("_source", .undefined)]) ∧
    (extractMetadata Reference.host [] noMetadataWorkflow).1 = noMetadataResult :=
  ⟨rfl, rfl, rfl, rfl⟩

/-- C29 (the code at the failing input). After the call with `null`, which
stores its failure under the key 'no-id-no-version', the call with a workflow
that has valid metadata but no `id`, `versionId` or `updatedAt` is answered
from the cache with 'Workflow JSON inválido o sin nodos', where an extraction
of that workflow alone succeeds. In the same way a workflow with metadata gets
the stored failure of another workflow with the same `id` and `versionId`. -/
theorem extractMetadata_answers_from_another_workflow :
    cacheKey .null = .ok "no-id-no-version" ∧
    cacheKey anonymousWorkflow = .ok "no-id-no-version" ∧
    prop (extractMetadata Reference.host [] anonymousWorkflow).1 "success" = .bool true ∧
    (extractMetadata Reference.host (extractMetadata Reference.host [] .null).2
        anonymousWorkflow).1 = invalidWorkflowResult ∧
    cacheKey versionedEmpty = cacheKey versionedWithMetadata ∧
    prop (extractMetadata Reference.host [] versionedWithMetadata).1 "success" = .bool true ∧
    (extractMetadata Reference.host (extractMetadata Reference.host [] versionedEmpty).2
        versionedWithMetadata).1 = noStickyNotesResult :=
  ⟨rfl, rfl, rfl, rfl, rfl, rfl, rfl⟩

end MetadataExtractor

/-! ## Arrays with callbacks that may throw -/

namespace JS

theorem arraySome_eq_any (f : Val → Except String Bool) (p : Val → Bool) (l : List Val)
    (hf : ∀ x ∈ l, f x = .ok (p x)) : arraySome f l = .ok (l.any p) := by
  induction l with
  | nil => rfl
  | cons x rest ih =>
    unfold arraySome
    rw [hf x (List.mem_cons_self _ _)]
    cases hp : p x with
    | true => simp [hp]
    | false =>
      simp only [List.any_cons, hp, Bool.false_or]
      exact ih (fun y hy => hf y (List.mem_cons_of_mem _ hy))

theorem arrayFind_eq_find (f : Val → Except String Bool) (p : Val → Bool) (l : List Val)
    (hf : ∀ x ∈ l, f x = .ok (p x)) : arrayFind f l = .ok (l.find? p) := by
  induction l with
  | nil => rfl
  | cons x rest ih =>
    unfold arrayFind
    rw [hf x (List.mem_cons_self _ _)]
    cases hp : p x with
    | true => simp [hp]
    | false =>
      simp only [List.find?_cons, hp]
      exact ih (fun y hy => hf y (List.mem_cons_of_mem _ hy))

end JS

namespace MetadataExtractor

open JS

theorem arrayFilter_eq_filter (f : Val → Except String Bool) (p : Val → Bool) (l : List Val)
    (hf : ∀ x ∈ l, f x = .ok (p x)) : arrayFilter f l = .ok (l.filter p) := by
  induction l with
  | nil => rfl
  | cons x rest ih =>
    unfold arrayFilter
    rw [hf x (List.mem_cons_self _ _), ih (fun y hy => hf y (List.mem_cons_of_mem _ hy))]
    cases hp : p x <;> simp [hp]

end MetadataExtractor

/-! ## Sorting, filtering and the webhook URL -/

namespace WorkflowUtils

open JS Examples

/-- C26 (the code at the failing input). The comparator reads
`order[typeA] || 3`: the rank 0 of 'webhook' is falsy and counts as 3, the rank
of 'unknown'. So a webhook workflow sorts after a manual and after a scheduled
one: the manual workflow precedes the webhook workflow in the result. -/
theorem sortWorkflows_execution_type_webhook_last :
    getWorkflowExecutionType Reference.host (webhookWorkflow (.str "w-hook")) = .ok "webhook" ∧
    getWorkflowExecutionType Reference.host manualWorkflow = .ok "manual" ∧
    getWorkflowExecutionType Reference.host scheduledWorkflow = .ok "scheduled" ∧
    compareExecutionType Reference.host (webhookWorkflow (.str "w-hook")) manualWorkflow =
      .ok 2 ∧
    sortWorkflowsByExecutionType Reference.host
        (.arr [webhookWorkflow (.str "w-hook"), manualWorkflow]) =
      .ok [manualWorkflow, webhookWorkflow (.str "w-hook")] ∧
    sortWorkflowsByExecutionType Reference.host
        (.arr [webhookWorkflow (.str "w-hook"), scheduledWorkflow, manualWorkflow]) =
      .ok [manualWorkflow, scheduledWorkflow, webhookWorkflow (.str "w-hook")] :=
  ⟨rfl, rfl, rfl, rfl, rfl, rfl⟩

theorem getWorkflowExecutionType_returns (h : Host) (workflow : Val)
    (hw : WellFormedWorkflow workflow) : ∃ t, getWorkflowExecutionType h workflow = .ok t := by
  obtain ⟨⟨props, rfl⟩, _, _, _, hnodes⟩ := hw
  unfold getWorkflowExecutionType
  split_ifs with hguard
  · exact ⟨_, rfl⟩
  · rcases hnodes with hundef | ⟨nodes, hn, hall⟩
    · rw [hundef] at hguard
      simp [truthy] at hguard
    · have hsome : hasWebhookTrigger (.obj props) =
          .ok (nodes.any (fun node =>
            truthy (prop node "type") && includes webhookNodeTypes (prop node "type"))) := by
        unfold hasWebhookTrigger
        rw [if_neg hguard, hn]
        apply arraySome_eq_any
        intro node hnode
        obtain ⟨⟨np, rfl⟩, _⟩ := hall node hnode
        rfl
      have hfind : arrayFind isAtOrigin nodes =
          .ok (nodes.find? (fun node =>
            truthy (prop node "position") && isArray (prop node "position") &&
              (match prop node "position" with
                | .arr (first :: _) => strictEq first (.num 0)
                | _ => false))) := by
        apply arrayFind_eq_find
        intro node hnode
        obtain ⟨⟨np, rfl⟩, _⟩ := hall node hnode
        rfl
      rw [hsome]
      cases nodes.any (fun node =>
            truthy (prop node "type") && includes webhookNodeTypes (prop node "type")) with
      | true => exact ⟨_, rfl⟩
      | false =>
        simp only [hn, hfind]
        generalize hfound : nodes.find? _ = found
        split_ifs with htrigger
        · exact ⟨_, rfl⟩
        · have hmem : JS.or (found.getD .undefined) (nodes.head?.getD .undefined) ∈ nodes := by
            simp only [Bool.or_eq_true, Bool.not_eq_true', not_or, Bool.not_eq_false] at htrigger
            obtain ⟨htruthy, _⟩ := htrigger
            unfold JS.or at htruthy ⊢
            cases found with
            | some node =>
              have := List.mem_of_find?_eq_some hfound
              simp only [Option.getD_some] at htruthy ⊢
              split_ifs with hnode
              · exact this
              · rw [if_neg hnode] at htruthy
                cases nodes with
                | nil => simp at this
                | cons first rest => simp
            | none =>
              simp only [Option.getD_none, truthy, Bool.false_eq_true, if_false] at htruthy ⊢
              cases nodes with
              | nil => simp [truthy] at htruthy
              | cons first rest => simp
          obtain ⟨_, htype⟩ := hall _ hmem
          rcases htype with hu | ⟨s, hs⟩
          · rw [hu] at htrigger
            simp [truthy] at htrigger
          · rw [hs]
            simp only
            split_ifs <;> exact ⟨_, rfl⟩

theorem lowerIncludes_eq (h : Host) (term : List Char) (v : Val) (hv : OptionalString v) :
    lowerIncludes h term v = .ok (textHasTerm h term v) := by
  rcases hv with rfl | ⟨s, rfl⟩
  · rfl
  · unfold lowerIncludes textHasTerm
    by_cases hs : s = ""
    · simp [truthy, hs]
    · simp [truthy, hs]

theorem idIncludes_eq (term : List Char) (id : Val)
    (hid : OptionalString id ∨ ∃ n, id = .num n) :
    idIncludes term id = .ok (idHasTerm term id) := by
  unfold idIncludes
  rcases hid with (rfl | ⟨s, rfl⟩) | ⟨n, rfl⟩
  · rfl
  · by_cases h0 : s = "" <;> simp [truthy, toStr, idHasTerm, h0]
  · by_cases h0 : n = 0 <;> simp [truthy, toStr, idHasTerm, h0]

theorem tagsInclude_eq (h : Host) (term : List Char) (tags : Val)
    (htags : tags = .undefined ∨
      ∃ items, tags = .arr items ∧
        ∀ tag ∈ items, (∃ props, tag = .obj props) ∧ OptionalString (prop tag "name")) :
    tagsInclude h term tags = .ok (tagsHaveTerm h term tags) := by
  unfold tagsInclude
  rcases htags with rfl | ⟨items, rfl, hall⟩
  · rfl
  · simp only [truthy, if_true, tagsHaveTerm]
    apply arraySome_eq_any
    intro tag htag
    obtain ⟨⟨tp, rfl⟩, hn⟩ := hall tag htag
    unfold tagMatches
    exact lowerIncludes_eq h term _ hn

theorem searchMatches_eq (h : Host) (term : List Char) (workflow : Val)
    (hw : WellFormedWorkflow workflow) :
    searchMatches h term workflow =
      .ok (textHasTerm h term (prop workflow "name") || idHasTerm term (prop workflow "id") ||
        tagsHaveTerm h term (prop workflow "tags")) := by
  obtain ⟨⟨props, rfl⟩, hname, hid, htags, _⟩ := hw
  unfold searchMatches
  simp only [getProp, nullish, Bool.false_eq_true, if_false]
  rw [lowerIncludes_eq h term _ hname, idIncludes_eq term _ hid, tagsInclude_eq h term _ htags]
  cases textHasTerm h term (prop (.obj props) "name") <;>
    cases idHasTerm term (prop (.obj props) "id") <;> rfl

theorem statusMatches_eq (status workflow : Val) (hw : ∃ props, workflow = .obj props) :
    statusMatches status workflow = statusAllowed status workflow := by
  unfold statusAllowed
  obtain ⟨props, rfl⟩ := hw
  cases status with
  | str s =>
    by_cases h1 : s = "activos"
    · subst h1
      simp [statusMatches, isWorkflowActive, strictEq, truthy]
    · by_cases h2 : s = "inactivos"
      · subst h2
        simp [statusMatches, isWorkflowActive, strictEq, truthy]
      · simp only [statusMatches, strictEq, h1, h2, decide_False, Bool.false_eq_true, if_false]
        split <;> simp_all
  | _ => simp [statusMatches, strictEq]

theorem executionTypeMatches_eq (filter : Val) (t : String) :
    executionTypeMatches filter t = executionTypeAllowed filter t := by
  cases filter with
  | str s =>
    by_cases h1 : s = "webhook"
    · subst h1; simp [executionTypeMatches, executionTypeAllowed, strictEq]
    · by_cases h2 : s = "manual"
      · subst h2; simp [executionTypeMatches, executionTypeAllowed, strictEq]
      · by_cases h3 : s = "scheduled"
        · subst h3; simp [executionTypeMatches, executionTypeAllowed, strictEq]
        · by_cases h4 : s = "ejecutables"
          · subst h4; simp [executionTypeMatches, executionTypeAllowed, strictEq]
          · by_cases h5 : s = "no-ejecutables"
            · subst h5; simp [executionTypeMatches, executionTypeAllowed, strictEq]
            · simp only [executionTypeMatches, strictEq, h1, h2, h3, h4, h5, decide_False,
                Bool.false_eq_true, if_false, executionTypeAllowed]
              split <;> simp_all
  | _ => simp [executionTypeMatches, executionTypeAllowed, strictEq]

theorem archivedStage_eq (showArchived : Val) (l : List Val)
    (hl : ∀ w ∈ l, ∃ props, w = .obj props) :
    archivedStage showArchived l =
      l.filter (fun w => strictEq showArchived (.bool true) ||
        !strictEq (prop w "isArchived") (.bool true)) := by
  unfold archivedStage
  cases strictEq showArchived (.bool true) with
  | true => simp
  | false =>
    simp only [Bool.not_false, if_true, Bool.false_or]
    apply List.filter_congr
    intro w hw
    obtain ⟨props, rfl⟩ := hl w hw
    simp [isWorkflowArchived, truthy]

theorem statusStage_eq (status : Val) (l : List Val)
    (hl : ∀ w ∈ l, ∃ props, w = .obj props) :
    statusStage status l = l.filter (statusAllowed status) := by
  have hcongr : l.filter (statusMatches status) = l.filter (statusAllowed status) :=
    List.filter_congr (fun w hw => statusMatches_eq status w (hl w hw))
  unfold statusStage
  split_ifs with hc
  · exact hcongr
  · rw [← hcongr]
    symm
    rw [List.filter_eq_self]
    intro w _
    unfold statusMatches
    cases status with
    | str s =>
      by_cases h1 : s = "todos"
      · subst h1; rfl
      · by_cases h2 : s = ""
        · subst h2; rfl
        · simp [truthy, strictEq, h1, h2] at hc
    | _ => simp [strictEq]

theorem executionTypeStage_eq (h : Host) (executionType : Val) (l : List Val)
    (hl : ∀ w ∈ l, WellFormedWorkflow w) :
    executionTypeStage h executionType l =
      .ok (l.filter (fun w => executionTypeAllowed executionType (executionTypeOf h w))) := by
  have hfilter : MetadataExtractor.arrayFilter (executionTypeFilter h executionType) l =
      .ok (l.filter (fun w => executionTypeAllowed executionType (executionTypeOf h w))) := by
    apply MetadataExtractor.arrayFilter_eq_filter
    intro w hw
    obtain ⟨t, ht⟩ := getWorkflowExecutionType_returns h w (hl w hw)
    unfold executionTypeFilter executionTypeOf
    rw [ht]
    simp only [executionTypeMatches_eq]
  unfold executionTypeStage
  split_ifs with hc
  · exact hfilter
  · congr 1
    symm
    rw [List.filter_eq_self]
    intro w _
    rw [← executionTypeMatches_eq]
    unfold executionTypeMatches
    cases executionType with
    | str s =>
      by_cases h1 : s = "todos"
      · subst h1; rfl
      · by_cases h2 : s = ""
        · subst h2; rfl
        · simp [truthy, strictEq, h1, h2] at hc
    | _ => simp [strictEq]

theorem searchStage_eq (h : Host) (search : Val) (l : List Val)
    (hsearch : OptionalString search) (hl : ∀ w ∈ l, WellFormedWorkflow w) :
    searchStage h search l = .ok (l.filter (searchAllowed h search)) := by
  unfold searchStage
  rcases hsearch with rfl | ⟨text, rfl⟩
  · simp only [truthy, Bool.false_eq_true, if_false]
    congr 1
    symm
    rw [List.filter_eq_self]
    intro w _
    rfl
  · by_cases hblank : (trimChars text.data).isEmpty = true
    · have hall : l.filter (searchAllowed h (.str text)) = l := by
        rw [List.filter_eq_self]
        intro w _
        simp [searchAllowed, hblank]
      rw [hall]
      simp [hblank]
    · simp only [Bool.not_eq_true] at hblank
      have hne : text ≠ "" := by
        rintro rfl
        simp [trimChars] at hblank
      simp only [truthy, hne, ne_eq, not_false_eq_true, decide_True, if_true, hblank,
        Bool.not_false]
      apply MetadataExtractor.arrayFilter_eq_filter
      intro w hw
      rw [searchMatches_eq h _ w (hl w hw)]
      simp [searchAllowed, hblank]

/-- C27 (counterexample). With the filter `executionType: 'unknown'` (or any
value other than the five the code lists) nothing is filtered: the webhook and
the scheduled workflow are both returned although neither has the execution
type 'unknown'. With 'ejecutables' the webhook workflow is returned, with
'scheduled' the scheduled one. -/
theorem filterWorkflows_unlisted_type_keeps_all :
    getWorkflowExecutionType Reference.host (webhookWorkflow (.str "w-hook")) = .ok "webhook" ∧
    getWorkflowExecutionType Reference.host scheduledWorkflow = .ok "scheduled" ∧
    filterWorkflows Reference.host (.arr [webhookWorkflow (.str "w-hook"), scheduledWorkflow])
        (.obj [("executionType", .str "unknown")]) =
      .ok [webhookWorkflow (.str "w-hook"), scheduledWorkflow] ∧
    filterWorkflows Reference.host (.arr [webhookWorkflow (.str "w-hook"), scheduledWorkflow])
        (.obj [("executionType", .str "ejecutables")]) =
      .ok [webhookWorkflow (.str "w-hook")] ∧
    filterWorkflows Reference.host (.arr [webhookWorkflow (.str "w-hook"), scheduledWorkflow])
        (.obj [("executionType", .str "scheduled")]) =
      .ok [scheduledWorkflow] :=
  ⟨rfl, rfl, rfl, rfl, rfl⟩

theorem readArray_newArray (heap : Heap) (items : List Val) :
    readArray (newArray heap items).1 (newArray heap items).2 = items := by
  simp [readArray, newArray]

theorem readArray_append (heap extra : Heap) (address : Nat) (ha : address < heap.length) :
    readArray (heap ++ extra) address = readArray heap address := by
  unfold readArray
  rw [List.getElem?_append_left ha]

theorem reassignFiltered_spec (heap : Heap) (run : Bool)
    (callback : List Val → Except String (List Val)) (state : Heap × Nat) (kept : List Val)
    (hstate : ∃ extra, state.1 = heap ++ extra)
    (hfresh : heap.length ≤ state.2)
    (hcallback : run = true → callback (readArray state.1 state.2) = .ok kept) :
    ∃ state', reassignFiltered run callback state = .ok state' ∧
      (∃ extra, state'.1 = heap ++ extra) ∧ heap.length ≤ state'.2 ∧
      readArray state'.1 state'.2 = if run then kept else readArray state.1 state.2 := by
  obtain ⟨extra, hextra⟩ := hstate
  unfold reassignFiltered
  cases run with
  | false => exact ⟨state, rfl, ⟨extra, hextra⟩, hfresh, rfl⟩
  | true =>
    rw [hcallback rfl]
    refine ⟨newArray state.1 kept, rfl, ⟨extra ++ [kept], ?_⟩, ?_, ?_⟩
    · simp [newArray, hextra]
    · simp only [newArray, hextra, List.length_append]
      omega
    · simp [readArray_newArray]

/-- Whenever `filterWorkflows` returns an array, the function on the heap
returns a new array with the same elements, and every array that existed
before the call is unchanged. -/
theorem filterWorkflowsOnHeap_spec (h : Host) (heap : Heap) (address : Nat) (filters : Val)
    (out : List Val)
    (hout : filterWorkflows h (.arr (readArray heap address)) filters = .ok out) :
    ∃ heap' result, filterWorkflowsOnHeap h heap address filters = .ok (heap', result) ∧
      readArray heap' result = out ∧ heap.length ≤ result ∧
      ∀ a < heap.length, readArray heap' a = readArray heap a := by
  unfold filterWorkflows at hout
  unfold filterWorkflowsOnHeap
  simp only at hout ⊢
  cases hsa : getProp (if strictEq filters .undefined = true then Val.obj [] else filters)
      "showArchived" with
  | error e => rw [hsa] at hout; simp at hout
  | ok showArchived =>
    rw [hsa] at hout
    simp only at hout ⊢
    generalize (if strictEq filters .undefined = true then Val.obj [] else filters) = fs at hout ⊢
    -- first array: the copy
    have h0 : ∃ extra, (newArray heap (readArray heap address)).1 = heap ++ extra :=
      ⟨[readArray heap address], rfl⟩
    have hf0 : heap.length ≤ (newArray heap (readArray heap address)).2 := le_refl _
    obtain ⟨s1, hs1, hp1, hf1, hr1⟩ := reassignFiltered_spec heap
      (!strictEq showArchived (.bool true))
      (fun filtered => .ok (filtered.filter (fun workflow => !isWorkflowArchived workflow)))
      (newArray heap (readArray heap address))
      ((readArray heap address).filter (fun workflow => !isWorkflowArchived workflow))
      h0 hf0 (by intro _; simp [readArray_newArray])
    rw [readArray_newArray] at hr1
    have hr1' : readArray s1.1 s1.2 = archivedStage showArchived (readArray heap address) := by
      rw [hr1]; rfl
    rw [hs1]
    simp only
    obtain ⟨s2, hs2, hp2, hf2, hr2⟩ := reassignFiltered_spec heap
      (truthy (prop fs "status") && !strictEq (prop fs "status") (.str "todos"))
      (fun filtered => .ok (filtered.filter (statusMatches (prop fs "status"))))
      s1 ((readArray s1.1 s1.2).filter (statusMatches (prop fs "status")))
      hp1 hf1 (fun _ => rfl)
    have hr2' : readArray s2.1 s2.2 =
        statusStage (prop fs "status") (archivedStage showArchived (readArray heap address)) := by
      rw [hr2, hr1']; rfl
    rw [hs2]
    simp only
    cases het : executionTypeStage h (prop fs "executionType")
        (statusStage (prop fs "status") (archivedStage showArchived (readArray heap address))) with
    | error e => rw [het] at hout; simp at hout
    | ok byType =>
      rw [het] at hout
      simp only at hout
      obtain ⟨s3, hs3, hp3, hf3, hr3⟩ := reassignFiltered_spec heap
        (truthy (prop fs "executionType") && !strictEq (prop fs "executionType") (.str "todos"))
        (MetadataExtractor.arrayFilter (executionTypeFilter h (prop fs "executionType")))
        s2 byType hp2 hf2 (by
          intro hrun
          rw [hr2']
          unfold executionTypeStage at het
          rw [if_pos hrun] at het
          exact het)
      have hr3' : readArray s3.1 s3.2 = byType := by
        rw [hr3]
        split_ifs with hrun
        · rfl
        · unfold executionTypeStage at het
          rw [if_neg hrun] at het
          simp only [Except.ok.injEq] at het
          rw [hr2', het]
      rw [hs3]
      simp only
      -- the search
      unfold searchStage at hout
      unfold searchOnHeap
      split_ifs at hout ⊢ with hsearch
      · cases hs : prop fs "search" with
        | str text =>
          rw [hs] at hout
          simp only at hout ⊢
          obtain ⟨s4, hs4, hp4, hf4, hr4⟩ := reassignFiltered_spec heap
            (!(trimChars text.data).isEmpty)
            (MetadataExtractor.arrayFilter
              (searchMatches h (trimChars (h.toLowerCase text).data)))
            s3 out hp3 hf3 (by
              intro hrun
              rw [hr3']
              rw [if_pos hrun] at hout
              exact hout)
          refine ⟨s4.1, s4.2, hs4, ?_, hf4, ?_⟩
          · rw [hr4]
            split_ifs with hrun
            · rfl
            · rw [if_neg hrun] at hout
              simp only [Except.ok.injEq] at hout
              rw [hr3', hout]
          · intro a ha
            obtain ⟨extra, hextra⟩ := hp4
            rw [hextra]
            exact readArray_append heap extra a ha
        | _ => rw [hs] at hout; simp at hout
      · simp only [Except.ok.injEq] at hout
        refine ⟨s3.1, s3.2, rfl, ?_, hf3, ?_⟩
        · rw [hr3', hout]
        · intro a ha
          obtain ⟨extra, hextra⟩ := hp3
          rw [hextra]
          exact readArray_append heap extra a ha

/-- C27 (amended). For workflows as the n8n API returns them and a filters
object whose `search` is a string or absent, `filterWorkflows` returns, and
returns exactly the input workflows, in input order, that satisfy the filters:
not archived unless `showArchived` is `true`; active for the status 'activos',
not active for 'inactivos'; an execution type that passes `executionType`
(its own name for 'webhook', 'manual' and 'scheduled', webhook or manual for
'ejecutables', scheduled or unknown for 'no-ejecutables', everything for any
other value); and name, id or a tag name containing the trimmed lower-cased
search term. The result is a sublist of the input. With the arrays on a heap,
the returned array is a new one and after the call the input array, like every
array that existed before, holds what it held before. An input that is not an
array gives the empty array. -/
theorem filterWorkflows_spec (h : Host) (workflows : List Val) (filters : Val)
    (hfilters : WellFormedFilters filters)
    (hworkflows : ∀ workflow ∈ workflows, WellFormedWorkflow workflow) :
    filterWorkflows h (.arr workflows) filters =
      .ok (workflows.filter (satisfiesFilters h filters)) ∧
    (workflows.filter (satisfiesFilters h filters)).Sublist workflows ∧
    (∀ (heap : Heap) (address : Nat), address < heap.length →
      readArray heap address = workflows →
      ∃ heap' result, filterWorkflowsOnHeap h heap address filters = .ok (heap', result) ∧
        readArray heap' result = workflows.filter (satisfiesFilters h filters) ∧
        heap.length ≤ result ∧
        readArray heap' address = workflows ∧
        ∀ a < heap.length, readArray heap' a = readArray heap a) ∧
    (∀ other, isArray other = false → filterWorkflows h other filters = .ok []) := by
  have hpure : filterWorkflows h (.arr workflows) filters =
      .ok (workflows.filter (satisfiesFilters h filters)) := by
    obtain ⟨hshape, hsearch⟩ := hfilters
    have hobj : ∀ w ∈ workflows, ∃ props, w = .obj props := fun w hw => (hworkflows w hw).1
    have hnn : nullish (if strictEq filters .undefined = true then Val.obj [] else filters) =
        false := by
      rcases hshape with rfl | ⟨props, rfl⟩ <;> rfl
    have hprop : ∀ k, prop (if strictEq filters .undefined = true then Val.obj [] else filters) k =
        prop filters k := by
      intro k
      rcases hshape with rfl | ⟨props, rfl⟩ <;> rfl
    have hsub1 : ∀ w ∈ workflows.filter (fun w => strictEq (prop filters "showArchived")
        (.bool true) || !strictEq (prop w "isArchived") (.bool true)), w ∈ workflows :=
      fun w hw => (List.mem_filter.mp hw).1
    have hsub2 : ∀ w ∈ (workflows.filter (fun w => strictEq (prop filters "showArchived")
        (.bool true) || !strictEq (prop w "isArchived") (.bool true))).filter
          (statusAllowed (prop filters "status")), w ∈ workflows :=
      fun w hw => hsub1 w (List.mem_filter.mp hw).1
    unfold filterWorkflows
    simp only [getProp, hnn, hprop, Bool.false_eq_true, if_false]
    rw [archivedStage_eq _ _ hobj, statusStage_eq _ _ (fun w hw => hobj w (hsub1 w hw)),
      executionTypeStage_eq h _ _ (fun w hw => hworkflows w (hsub2 w hw))]
    simp only
    rw [searchStage_eq h _ _ hsearch (fun w hw =>
      hworkflows w (hsub2 w (List.mem_filter.mp hw).1))]
    simp only [List.filter_filter]
    congr 1
    apply List.filter_congr
    intro w _
    simp only [satisfiesFilters]
    cases (strictEq (prop filters "showArchived") (.bool true) ||
        !strictEq (prop w "isArchived") (.bool true)) <;>
      cases statusAllowed (prop filters "status") w <;>
      cases executionTypeAllowed (prop filters "executionType") (executionTypeOf h w) <;>
      cases searchAllowed h (prop filters "search") w <;> rfl
  refine ⟨hpure, List.filter_sublist _, ?_, ?_⟩
  · intro heap address haddress hread
    obtain ⟨heap', result, hrun, hresult, hfresh, hframe⟩ :=
      filterWorkflowsOnHeap_spec h heap address filters _ (by rw [hread]; exact hpure)
    exact ⟨heap', result, hrun, hresult, hfresh,
      (hframe address haddress).trans hread, hframe⟩
  · intro other hother
    cases other <;> first | rfl | simp [isArray] at hother

theorem wellFormed_taggedWorkflow : WellFormedWorkflow taggedWorkflow := by
  refine ⟨⟨_, rfl⟩, Or.inr ⟨_, rfl⟩, Or.inr ⟨_, rfl⟩, Or.inr ⟨_, rfl, ?_⟩, Or.inr ⟨_, rfl, ?_⟩⟩
  · intro tag htag
    simp only [List.mem_singleton] at htag
    subst htag
    exact ⟨⟨_, rfl⟩, Or.inr ⟨_, rfl⟩⟩
  · intro node hnode
    simp only [List.mem_singleton] at hnode
    subst hnode
    exact ⟨⟨_, rfl⟩, Or.inr ⟨_, rfl⟩⟩

theorem wellFormed_scheduledWorkflow : WellFormedWorkflow scheduledWorkflow := by
  refine ⟨⟨_, rfl⟩, Or.inr ⟨_, rfl⟩, Or.inl (Or.inr ⟨_, rfl⟩), Or.inl rfl, Or.inr ⟨_, rfl, ?_⟩⟩
  intro node hnode
  simp only [List.mem_singleton] at hnode
  subst hnode
  exact ⟨⟨_, rfl⟩, Or.inr ⟨_, rfl⟩⟩

/-- Witness of C27 (amended): a scheduled workflow and an active manual
workflow named "Email Digest", filtered by status, type and the search term
" EMAIL "; on a heap whose only array is the input, the input array is
unchanged after the call. -/
theorem filterWorkflows_spec_witness :
    filterWorkflows Reference.host (.arr [scheduledWorkflow, taggedWorkflow])
        (.obj [("status", .str "activos"), ("executionType", .str "ejecutables"),
               ("search", .str " EMAIL ")]) =
      .ok [taggedWorkflow] ∧
    ∃ heap' result,
      filterWorkflowsOnHeap Reference.host [[scheduledWorkflow, taggedWorkflow]] 0
          (.obj [("status", .str "activos"), ("executionType", .str "ejecutables"),
                 ("search", .str " EMAIL ")]) = .ok (heap', result) ∧
        readArray heap' result = [taggedWorkflow] ∧
        readArray heap' 0 = [scheduledWorkflow, taggedWorkflow] := by
  have hspec := filterWorkflows_spec Reference.host [scheduledWorkflow, taggedWorkflow]
    (.obj [("status", .str "activos"), ("executionType", .str "ejecutables"),
           ("search", .str " EMAIL ")])
    ⟨Or.inr ⟨_, rfl⟩, Or.inr ⟨_, rfl⟩⟩
    (by
      intro w hw
      simp only [List.mem_cons, List.mem_singleton, List.not_mem_nil, or_false] at hw
      rcases hw with rfl | rfl
      · exact wellFormed_scheduledWorkflow
      · exact wellFormed_taggedWorkflow)
  refine ⟨hspec.1.trans rfl, ?_⟩
  obtain ⟨heap', result, hrun, hresult, _, hinput, _⟩ :=
    hspec.2.2.1 [[scheduledWorkflow, taggedWorkflow]] 0 (by decide) rfl
  exact ⟨heap', result, hrun, hresult.trans rfl, hinput⟩

/-- C28 (the code at the failing input). The webhook node has no `path`, so
the path falls back to the workflow id. With the id 42, a number, and with no
id at all, `cleanPath.startsWith` throws a `TypeError`; with the id "42" the
URL is returned. -/
theorem getWorkflowWebhookUrl_throws_without_string_id :
    getWorkflowWebhookUrl (webhookWorkflow (.num 42)) (.str "https://n8n.example.com") =
      .error "cleanPath.startsWith is not a function" ∧
    getWorkflowWebhookUrl webhookWorkflowNoId (.str "https://n8n.example.com") =
      .error "Cannot read properties of undefined (reading startsWith)" ∧
    getWorkflowWebhookUrl (webhookWorkflow (.str "42")) (.str "https://n8n.example.com/") =
      .ok (.str "https://n8n.example.com/webhook/42") :=
  ⟨rfl, rfl, rfl⟩

end WorkflowUtils

/-! ## The hook `useFormValidation` -/

namespace UseFormValidation

open JS Examples

/-- C30 (the code at the failing input). `validateForm` on the value
`email: ''` stores the error 'El email es requerido'; `handleChange` then
replaces the error by `null` but keeps the key. No field has an error message
any more, yet `Object.keys(errors).length` is 1: `isValid` is false and
`hasErrors` is true. -/
theorem isValid_false_after_error_cleared :
    validateForm Reference.host [] emptyEmailState emptyEmailState.values =
      .ok ({ values := [("email", .str "")],
             errors := [("email", .str "El email es requerido")], touched := [] }, false) ∧
    handleChange { values := [("email", .str "")],
                   errors := [("email", .str "El email es requerido")], touched := [] }
        "email" (.str "a@b.com") =
      { values := [("email", .str "a@b.com")], errors := [("email", .null)],
        touched := [("email", .bool true)] } ∧
    NoErrorMessage { values := [("email", .str "a@b.com")], errors := [("email", .null)],
                     touched := [("email", .bool true)] } ∧
    isValid { values := [("email", .str "a@b.com")], errors := [("email", .null)],
              touched := [("email", .bool true)] } = false ∧
    hasErrors { values := [("email", .str "a@b.com")], errors := [("email", .null)],
                touched := [("email", .bool true)] } = true := by
  refine ⟨rfl, rfl, ?_, rfl, rfl⟩
  intro entry hentry
  simp only [List.mem_singleton] at hentry
  rw [hentry]
  rfl

end UseFormValidation
